import Mathlib

/-! Tourism-block chaincode: SLA verification and reputation aggregation.

A shallow embedding of `chaincode/smartcontract` (`type.go`, `constant.go`,
`helper.go`, `smartcontract.go`) together with theorems about it.

Modelling conventions.

* Go `int` values decoded from JSON are `Int`.  The only integer arithmetic on
  caller-supplied values is the pair of `+=` accumulators over `Quantity` in
  `VerifyBedAgreement`; those wrap at 64 bits and are modelled by `wrapInt64`.
  Counters that grow by one per loop iteration or per committed transaction
  (`numFailures`, the bed point total, `TotalFeedbacks`, ...) stay far below
  `2^63` and are modelled without wrap-around.
* `float32` rates are taken as exact rationals (`ℚ`).
* A `float64` is represented by its rational value.  `float64` is the rounding
  to the nearest number with a 53-bit significand, ties to the even one, which
  every conversion to the type and every operation of the type performs;
  `Duration.Minutes` is computed with it, step by step as the Go library does,
  and the thresholds it is compared with are converted with it.
* `time.Time` is an instant counted in nanoseconds; `Time.Sub` saturates at the
  range of `time.Duration`, as the Go library documents.
* A Go run-time panic (index out of range, failed type assertion) aborts the
  transaction; it is modelled as a `Failure` value.
* Slices of pointers are lists of records; JSON `null` elements are outside the
  model.
-/

namespace SmartContract

/-! ## Errors -/

/-- Ways in which an invocation can fail.  The first group are the `error`
values returned by the chaincode, the second group are Go run-time panics. -/
inductive Failure where
  | NotFound
  | Conflict
  | DecodeError
  | UnsupportedCategory
  | UnsupportedItemCode
  | CodeMismatch
  | InvalidState
  | StorageError
  | IndexOutOfRange
  | TypeAssertion
deriving DecidableEq, Repr

/-! ## Time (`time.Time`, `time.Duration`) -/

/-- An instant, in nanoseconds from a fixed origin. -/
structure Time where
  nanos : Int
deriving DecidableEq, Repr

/-- A `time.Duration`: a signed 64-bit count of nanoseconds. -/
structure Duration where
  nanoseconds : Int
deriving DecidableEq, Repr

/-- Largest `time.Duration`. -/
def maxDuration : Int := 9223372036854775807

/-- Smallest `time.Duration`. -/
def minDuration : Int := -9223372036854775808

/-- The Go method `t.Sub(u)`: the difference `t - u`, replaced by the largest or
smallest duration when it does not fit. -/
def Time.Sub (t u : Time) : Duration :=
  if t.nanos - u.nanos > maxDuration then ⟨maxDuration⟩
  else if t.nanos - u.nanos < minDuration then ⟨minDuration⟩
  else ⟨t.nanos - u.nanos⟩

/-- The Go method `t.Before(u)`. -/
def Time.Before (t u : Time) : Bool := decide (t.nanos < u.nanos)

/-- Rounding of a rational to the nearest integer, a tie going to the even
one. -/
def roundNearestEven (x : ℚ) : Int :=
  if x - ⌊x⌋ < 1 / 2 then ⌊x⌋
  else if 1 / 2 < x - ⌊x⌋ then ⌊x⌋ + 1
  else if ⌊x⌋ % 2 = 0 then ⌊x⌋
  else ⌊x⌋ + 1

/-- The value of type `float64` that a conversion or an arithmetic operation
yields for the exact result `x`: the nearest number with a significand of 53
bits, a tie going to the even significand.  The exponent range of the type is
not modelled; the numbers rounded in this file are integers of at most 64 bits,
quotients of magnitude between `10^-11` and `1`, and their sums. -/
def float64 (x : ℚ) : ℚ :=
  if x = 0 then 0
  else (roundNearestEven (x / 2 ^ (Int.log 2 |x| - 52)) : ℚ) * 2 ^ (Int.log 2 |x| - 52)

/-- The Go method `d.Minutes()`:
`min := d / Minute; nsec := d % Minute; return float64(min) + float64(nsec)/(60*1e9)`,
with the integer division truncated towards zero. -/
def Duration.Minutes (d : Duration) : ℚ :=
  let min : Int := d.nanoseconds.tdiv 60000000000
  let nsec : Int := d.nanoseconds.tmod 60000000000
  float64 (float64 min + float64 (float64 nsec / 60000000000))

/-! ## Constants (`constant.go`) -/

def AgreementCategoryView : String := "view"
def AgreementCategoryService : String := "service"
def AgreementCategoryInterior : String := "interior"
def AgreementCategoryRoomDesign : String := "room_design"
def AgreementCategoryOutdoor : String := "outdoor"
def AgreementCategoryBed : String := "bed"
def AgreementCategoryFacility : String := "facility"

def AgreementItemCodeViewSea : String := "V001"
def AgreementItemCodeViewRiver : String := "V002"
def AgreementItemCodeViewPool : String := "V003"
def AgreementItemCodeViewGarden : String := "V004"
def AgreementItemCodeViewCity : String := "V005"
def AgreementItemCodeViewMountain : String := "V006"

def AgreementItemCodeBedTwin : String := "BE001"
def AgreementItemCodeBedQueen : String := "BE002"
def AgreementItemCodeBedKing : String := "BE003"

def AgreementItemCodeInteriorBathtub : String := "IBA001"
def AgreementItemCodeInteriorFlatScreenTV : String := "ITV001"

def AgreementItemCodeServiceSauna : String := "SSA001"
def AgreementItemCodeServiceAirportShuttle : String := "SAS001"

def AgreementItemCodeOutdoorPatio : String := "OPA001"
def AgreementItemCodeOutdoorBalcony : String := "OBA001"

def AgreementItemCodeRoomDesignSize : String := "RSI001"

/-- The categories `VerifySLA` accepts. -/
def SupportedAgreementCategories : List String :=
  [AgreementCategoryView, AgreementCategoryService, AgreementCategoryInterior,
   AgreementCategoryRoomDesign, AgreementCategoryOutdoor, AgreementCategoryBed]

/-- The Go map `ViewLevelMapping`; a missing key reads as `0`. -/
def ViewLevelMapping (code : String) : Int :=
  if code = AgreementItemCodeViewMountain then 0
  else if code = AgreementItemCodeViewCity then 1
  else if code = AgreementItemCodeViewGarden then 2
  else if code = AgreementItemCodeViewPool then 3
  else if code = AgreementItemCodeViewRiver then 4
  else if code = AgreementItemCodeViewSea then 5
  else 0

/-- The Go map `BedPointMapping`; a missing key reads as `0`. -/
def BedPointMapping (code : String) : Int :=
  if code = AgreementItemCodeBedTwin then 1
  else if code = AgreementItemCodeBedQueen then 10
  else if code = AgreementItemCodeBedKing then 100
  else 0

def AirportShuttleStatusConfirmed : String := "confirmed"
def AirportShuttleStatusDriverWaiting : String := "driver_waiting"
def AirportShuttleStatusInService : String := "in_service"
def AirportShuttleStatusCompleted : String := "completed"
def AirportShuttleStatusNotServed : String := "not_served"
def AirportShuttleStatusWaitingTimeExceeded : String := "waiting_time_exceeded"
def AirportShuttleStatusCanceled : String := "canceled"

def SaunaRequestStatusSuccess : String := "success"
def SaunaRequestStatusFail : String := "fail"

/-! ## Records (`type.go`) -/

/-- A value of Go type `interface{}` as `encoding/json` produces it: numbers
are `float64` values, every one of which is a rational. -/
inductive Dynamic where
  | null
  | number (x : ℚ)
  | string (s : String)
  | bool (b : Bool)
  | composite
deriving DecidableEq, Repr

/-- The record `PenaltyRule`; `RuleType` is the Go field `Type`. -/
structure PenaltyRule where
  RuleType : String
  DiscountPercent : ℚ
deriving DecidableEq, Repr

/-- The record `AgreementItem`. -/
structure AgreementItem where
  Code : String
  Quantity : Int
  DriverMaxWaitTime : Int
  CustomerShortWaitTime : Int
  CustomerLongWaitTime : Int
  MaxFailures : Int
  MinTimeBetween2Failures : Int
  Value : Dynamic
deriving DecidableEq, Repr

/-- The record `SaunaRequest`. -/
structure SaunaRequest where
  RequestAt : Time
  Status : String
deriving DecidableEq, Repr

/-- The record `EvaluationData`. -/
structure EvaluationData where
  Code : String
  Name : String
  Quantity : Int
  PickUpTime : Time
  DriverArriveAt : Time
  CustomerCheckInAt : Time
  LastUpdatedArrivalTimeByCustomerAt : Time
  DriverNotifyCustomerDoNotShowUpAt : Time
  Status : String
  SaunaRequests : List SaunaRequest
  Fulfilled : String
  Value : Dynamic
deriving DecidableEq, Repr

/-- The record `Agreement`. -/
structure Agreement where
  AgreementID : String
  Category : String
  Items : List AgreementItem
  TotalFeedbacks : Nat
  TotalUnsatisfied : Nat
  TotalRuleViolations : Nat
  TotalRuleViolationWithoutCompensations : Nat
  HasPenaltyRule : Bool
  PenaltyRules : List PenaltyRule
  LastEvaluationAt : String
  RuleAbidingRate : ℚ
  SatisfactionRate : ℚ
deriving DecidableEq, Repr

/-- The record `Service`. -/
structure Service where
  DocType : String
  ServiceID : String
  RuleAbidingRate : ℚ
  SatisfactionRate : ℚ
  NumberOfEvaluations : Nat
  LastEvaluationAt : String
  Agreements : List Agreement
deriving DecidableEq, Repr

/-- The record `Evaluation`. -/
structure Evaluation where
  DocType : String
  EvaluationID : String
  ServiceID : String
  AgreementID : String
  TxID : String
  Hash : String
deriving DecidableEq, Repr

/-- The record `EvaluationResult`; a nil `PenaltyRule` pointer is `none`. -/
structure EvaluationResult where
  Satisfied : Bool
  PenaltyRule : Option PenaltyRule
  FailureReason : String
deriving DecidableEq, Repr

/-- The record `AccessKey`; `KeyType` is the Go field `Type`. -/
structure AccessKey where
  KeyType : String
  Token : String
deriving DecidableEq, Repr

/-! ## Helpers (`helper.go`) -/

/-- The function `StringInSlice`. -/
def StringInSlice (str : String) : List String → Bool
  | [] => false
  | s :: rest => if s = str then true else StringInSlice str rest

/-- A Go index expression `xs[i]`: panics when `i` is out of range. -/
def index {α : Type} (xs : List α) (i : Nat) : Except Failure α :=
  match xs.get? i with
  | some x => .ok x
  | none => .error .IndexOutOfRange

/-- Reduction of an integer to the signed 64-bit value Go's `int` holds. -/
def wrapInt64 (x : Int) : Int :=
  (x + 9223372036854775808) % 18446744073709551616 - 9223372036854775808

/-! ## Verification engine (`smartcontract.go`) -/

/-- The method `VerifyAirportShuttleAgreement`. -/
def VerifyAirportShuttleAgreement (a : Agreement) (data : EvaluationData) :
    Except Failure EvaluationResult :=
  if data.Code ≠ AgreementItemCodeServiceAirportShuttle then
    .error .CodeMismatch
  else if data.Status = AirportShuttleStatusDriverWaiting ∨
      data.Status = AirportShuttleStatusInService then
    .error .InvalidState
  else if data.Status = AirportShuttleStatusCanceled then
    .ok { Satisfied := true, PenaltyRule := none, FailureReason := "" }
  else if data.Status = AirportShuttleStatusNotServed then
    match index a.PenaltyRules 0 with
    | .error e => .error e
    | .ok rule =>
      .ok { Satisfied := false, PenaltyRule := some rule,
            FailureReason := "driver did not come to pick up the passenger" }
  else if data.Status = AirportShuttleStatusWaitingTimeExceeded then
    match index a.Items 0 with
    | .error e => .error e
    | .ok item =>
      if (data.DriverNotifyCustomerDoNotShowUpAt.Sub data.PickUpTime).Minutes
            > float64 (item.DriverMaxWaitTime : ℚ) ∧
          (data.DriverArriveAt.Sub data.PickUpTime).Minutes
            ≤ float64 (item.CustomerShortWaitTime : ℚ) then
        .ok { Satisfied := true, PenaltyRule := none, FailureReason := "" }
      else
        match index a.PenaltyRules 0 with
        | .error e => .error e
        | .ok rule =>
          .ok { Satisfied := false, PenaltyRule := some rule,
                FailureReason := "the driver came to pick up the passenger late" }
  else
    let driverDelayTime := (data.DriverArriveAt.Sub data.PickUpTime).Minutes
    match index a.Items 0 with
    | .error e => .error e
    | .ok item =>
      if driverDelayTime ≤ float64 (item.CustomerShortWaitTime : ℚ) then
        .ok { Satisfied := true, PenaltyRule := none, FailureReason := "" }
      else if driverDelayTime ≤ float64 (item.CustomerLongWaitTime : ℚ) then
        match index a.PenaltyRules 1 with
        | .error e => .error e
        | .ok rule =>
          .ok { Satisfied := false, PenaltyRule := some rule,
                FailureReason := "the driver came to pick up the passenger late" }
      else
        match index a.PenaltyRules 2 with
        | .error e => .error e
        | .ok rule =>
          .ok { Satisfied := false, PenaltyRule := some rule,
                FailureReason := "the driver came to pick up the passenger late" }

/-- The stable sort of the sauna requests by `RequestAt`
(`sort.SliceStable` with `less i j = requests[i].RequestAt.Before(requests[j].RequestAt)`):
an element is placed in front of the first later element that is not before it. -/
def sortRequests (requests : List SaunaRequest) : List SaunaRequest :=
  requests.insertionSort (fun x y => y.RequestAt.Before x.RequestAt = false)

/-- The result `VerifySaunaAgreement` returns once the failure count reaches
`MaxFailures`. -/
def saunaUnsatisfied (a : Agreement) : Except Failure EvaluationResult :=
  if a.HasPenaltyRule then
    match index a.PenaltyRules 0 with
    | .error e => .error e
    | .ok rule => .ok { Satisfied := false, PenaltyRule := some rule, FailureReason := "" }
  else
    .ok { Satisfied := false, PenaltyRule := none, FailureReason := "" }

/-- The scanning loop of `VerifySaunaAgreement` over the sorted requests.  The
loop variable `idx` (index of the latest failed request, `-1` at first) is
carried as the `RequestAt` of that request, which is all the loop reads
through it. -/
def saunaScan (a : Agreement) :
    Option Time → Int → List SaunaRequest → Except Failure EvaluationResult
  | _, _, [] => .ok { Satisfied := true, PenaltyRule := none, FailureReason := "" }
  | idx, numFailures, req :: rest =>
    let counted : Except Failure Int :=
      if req.Status = SaunaRequestStatusFail then
        match idx with
        | none => .ok numFailures
        | some previous =>
          match index a.Items 0 with
          | .error e => .error e
          | .ok item =>
            if (req.RequestAt.Sub previous).Minutes ≥
                float64 (item.MinTimeBetween2Failures : ℚ) then
              .ok (numFailures + 1)
            else .ok numFailures
      else .ok numFailures
    let idx1 : Option Time :=
      if req.Status = SaunaRequestStatusFail then some req.RequestAt else idx
    match counted with
    | .error e => .error e
    | .ok numFailures1 =>
      match index a.Items 0 with
      | .error e => .error e
      | .ok item =>
        if numFailures1 ≥ item.MaxFailures then saunaUnsatisfied a
        else saunaScan a idx1 numFailures1 rest

/-- The method `VerifySaunaAgreement`. -/
def VerifySaunaAgreement (a : Agreement) (data : EvaluationData) :
    Except Failure EvaluationResult :=
  if data.Code ≠ AgreementItemCodeServiceSauna then
    .error .CodeMismatch
  else
    saunaScan a none 0 (sortRequests data.SaunaRequests)

/-- The type assertion `v.(float64)`. -/
def assertFloat64 : Dynamic → Except Failure ℚ
  | .number x => .ok x
  | _ => .error .TypeAssertion

/-- The method `VerifyRoomSizeAgreement`. -/
def VerifyRoomSizeAgreement (a : Agreement) (data : EvaluationData) :
    Except Failure EvaluationResult :=
  if data.Code ≠ AgreementItemCodeRoomDesignSize then
    .error .CodeMismatch
  else
    let penaltyRule : Except Failure (Option PenaltyRule) :=
      if a.HasPenaltyRule then
        match index a.PenaltyRules 0 with
        | .error e => .error e
        | .ok rule => .ok (some rule)
      else .ok none
    match penaltyRule with
    | .error e => .error e
    | .ok rule =>
      match assertFloat64 data.Value with
      | .error e => .error e
      | .ok observed =>
        match index a.Items 0 with
        | .error e => .error e
        | .ok item =>
          match assertFloat64 item.Value with
          | .error e => .error e
          | .ok required =>
            .ok { Satisfied := decide (observed ≥ required), PenaltyRule := rule,
                  FailureReason := "" }

/-- The first loop of `VerifyBedAgreement`: `(aTotalPoints, aNumOfBeds)` after
the agreement items, starting from the given totals. -/
def bedAgreementTotals : Int × Int → List AgreementItem → Int × Int
  | acc, [] => acc
  | (points, beds), item :: rest =>
    bedAgreementTotals (points + BedPointMapping item.Code, wrapInt64 (beds + item.Quantity)) rest

/-- The second loop of `VerifyBedAgreement`: `(rTotalPoints, rNumOfBeds)` after
the evidence entries, starting from the given totals. -/
def bedEvidenceTotals : Int × Int → List EvaluationData → Int × Int
  | acc, [] => acc
  | (points, beds), item :: rest =>
    bedEvidenceTotals (points + BedPointMapping item.Code, wrapInt64 (beds + item.Quantity)) rest

/-- The method `VerifyBedAgreement`. -/
def VerifyBedAgreement (a : Agreement) (data : List EvaluationData) :
    Except Failure EvaluationResult :=
  let aTotals := bedAgreementTotals (0, 0) a.Items
  let rTotals := bedEvidenceTotals (0, 0) data
  let penaltyRule : Except Failure (Option PenaltyRule) :=
    if a.HasPenaltyRule then
      match index a.PenaltyRules 0 with
      | .error e => .error e
      | .ok rule => .ok (some rule)
    else .ok none
  match penaltyRule with
  | .error e => .error e
  | .ok rule =>
    .ok { Satisfied := decide (rTotals.2 ≥ aTotals.2) && decide (rTotals.1 ≥ aTotals.1),
          PenaltyRule := rule, FailureReason := "" }

/-- The inner loop of the default branch of `VerifySLA`: whether some evidence
entry matches the agreement item. -/
def matchItem (category : String) (agreementItem : AgreementItem) : List EvaluationData → Bool
  | [] => false
  | item :: rest =>
    if category = AgreementCategoryView then
      if ViewLevelMapping item.Code ≥ ViewLevelMapping agreementItem.Code then true
      else matchItem category agreementItem rest
    else
      if item.Code = agreementItem.Code ∧
          (agreementItem.Quantity = 0 ∨ item.Quantity ≥ agreementItem.Quantity) then true
      else matchItem category agreementItem rest

/-- The outer loop of the default branch of `VerifySLA`, started with
`satisfied`: it stops at the first agreement item without a match. -/
def matchItems (category : String) (eData : List EvaluationData) :
    Bool → List AgreementItem → Bool
  | satisfied, [] => satisfied
  | _, agreementItem :: rest =>
    if matchItem category agreementItem eData then matchItems category eData true rest
    else false

/-- The method `VerifySLA`. -/
def VerifySLA (a : Agreement) (eData : List EvaluationData) :
    Except Failure EvaluationResult :=
  if StringInSlice a.Category SupportedAgreementCategories = false then
    .error .UnsupportedCategory
  else
    let penaltyRule : Except Failure (Option PenaltyRule) :=
      if a.HasPenaltyRule then
        match index a.PenaltyRules 0 with
        | .error e => .error e
        | .ok rule => .ok (some rule)
      else .ok none
    match penaltyRule with
    | .error e => .error e
    | .ok rule =>
      match eData with
      | [] => .ok { Satisfied := false, PenaltyRule := rule,
                    FailureReason := "no data to evaluate" }
      | first :: _ =>
        if a.Category = AgreementCategoryService then
          match index a.Items 0 with
          | .error e => .error e
          | .ok item =>
            if item.Code = AgreementItemCodeServiceAirportShuttle then
              VerifyAirportShuttleAgreement a first
            else if item.Code = AgreementItemCodeServiceSauna then
              VerifySaunaAgreement a first
            else .error .UnsupportedItemCode
        else if a.Category = AgreementCategoryRoomDesign then
          match index a.Items 0 with
          | .error e => .error e
          | .ok item =>
            if item.Code = AgreementItemCodeRoomDesignSize then
              VerifyRoomSizeAgreement a first
            else .error .UnsupportedItemCode
        else if a.Category = AgreementCategoryBed then
          VerifyBedAgreement a eData
        else
          .ok { Satisfied := matchItems a.Category eData true a.Items,
                PenaltyRule := rule, FailureReason := "" }

/-! ## Ledger

The chaincode reaches the replicated key-value store through
`ctx.GetStub()`.  The store is not part of the repository; it is modelled
below.  An operation of the chaincode is a function from the world state
before the transaction to a result paired with the world state holding the
writes issued so far.  Every operation reads before it writes, so threading
one state is the same as keeping a separate write set. -/

/-- Modelled from the spec: a key of the entity store.  Composite keys, built
from an index name and component strings, live in a namespace of their own,
apart from the plain keys the callers supply. -/
inductive Key where
  | simple (name : String)
  | composite (objectType : String) (attributes : List String)
deriving DecidableEq, Repr

/-- Modelled from the spec: a document held by the entity store, namely the
JSON encoding of a `Service`, of an `Evaluation` or of an `AccessKey`, or the
single zero byte stored under an index key. -/
inductive Stored where
  | service (s : Service)
  | evaluation (e : Evaluation)
  | accessKey (k : AccessKey)
  | indexEntry
deriving DecidableEq, Repr

/-- Modelled from the spec: the world state, a finite map from keys to
documents. -/
abbrev World : Type := Key → Option Stored

/-- The world state with no key. -/
def World.empty : World := fun _ => none

/-- Modelled from the spec: what the platform supplies to one transaction: its
id and, for each access to the entity store, whether that access reports an
error. -/
structure TransactionContext where
  TxID : String
  GetStateErr : Key → Bool
  PutStateErr : Key → Bool
  DelStateErr : Key → Bool
  CreateCompositeKeyErr : String → List String → Bool

/-- Modelled from the spec: get a value by key. -/
def GetState (ctx : TransactionContext) (w : World) (key : Key) : Except Failure (Option Stored) :=
  if ctx.GetStateErr key then .error .StorageError else .ok (w key)

/-- Modelled from the spec: put a value under a key. -/
def PutState (ctx : TransactionContext) (w : World) (key : Key) (value : Stored) :
    Except Failure Unit × World :=
  if ctx.PutStateErr key then (.error .StorageError, w)
  else (.ok (), fun k => if k = key then some value else w k)

/-- Modelled from the spec: delete a value by key. -/
def DelState (ctx : TransactionContext) (w : World) (key : Key) : Except Failure Unit × World :=
  if ctx.DelStateErr key then (.error .StorageError, w)
  else (.ok (), fun k => if k = key then none else w k)

/-- Modelled from the spec: create a composite key from an index name and
component strings. -/
def CreateCompositeKey (ctx : TransactionContext) (objectType : String)
    (attributes : List String) : Except Failure Key :=
  if ctx.CreateCompositeKeyErr objectType attributes then .error .StorageError
  else .ok (.composite objectType attributes)

/-- Index name of the service index. -/
def serviceIndex : String := "doc~service"

/-- Index name of the evaluation index. -/
def evaluationIndex : String := "doc~evaluation"

/-- Key of the internal access key. -/
def JWTInternalServiceAccessKey : String := "jwt_internal_service_access_key"

/-- The call `json.Unmarshal(jService, &service)` on a stored document.  Object
members are matched to the fields of `Service` by name and the others are
dropped, so an `Evaluation` document fills `docType` and `serviceId` only and
an `AccessKey` document fills nothing; the zero byte of an index entry is not
JSON. -/
def unmarshalService : Stored → Except Failure Service
  | .service s => .ok s
  | .evaluation e =>
    .ok { DocType := e.DocType, ServiceID := e.ServiceID, RuleAbidingRate := 0,
          SatisfactionRate := 0, NumberOfEvaluations := 0, LastEvaluationAt := "",
          Agreements := [] }
  | .accessKey _ =>
    .ok { DocType := "", ServiceID := "", RuleAbidingRate := 0, SatisfactionRate := 0,
          NumberOfEvaluations := 0, LastEvaluationAt := "", Agreements := [] }
  | .indexEntry => .error .DecodeError

/-- The method `ServiceExists`. -/
def ServiceExists (ctx : TransactionContext) (w : World) (id : String) : Except Failure Bool :=
  match GetState ctx w (.simple id) with
  | .error e => .error e
  | .ok exist => .ok exist.isSome

/-- The method `ReadService`. -/
def ReadService (ctx : TransactionContext) (w : World) (id : String) : Except Failure Service :=
  match GetState ctx w (.simple id) with
  | .error e => .error e
  | .ok none => .error .NotFound
  | .ok (some jService) => unmarshalService jService

/-- The method `CreateService`. -/
def CreateService (ctx : TransactionContext) (w : World) (id : String) :
    Except Failure Unit × World :=
  match ServiceExists ctx w id with
  | .error e => (.error e, w)
  | .ok true => (.error .Conflict, w)
  | .ok false =>
    let service : Service :=
      { DocType := "Service", ServiceID := id, SatisfactionRate := 1, RuleAbidingRate := 1,
        NumberOfEvaluations := 0, LastEvaluationAt := "", Agreements := [] }
    match PutState ctx w (.simple id) (.service service) with
    | (.error _, w1) => (.error .StorageError, w1)
    | (.ok _, w1) =>
      match CreateCompositeKey ctx serviceIndex [service.DocType, service.ServiceID] with
      | .error e => (.error e, w1)
      | .ok docServiceIndexKey => PutState ctx w1 docServiceIndexKey .indexEntry

/-- The search loop `for i, a := range service.Agreements` that sets `aIndex`;
`none` stands for `-1`. -/
def findAgreement (aid : String) : List Agreement → Option Nat
  | [] => none
  | a :: rest =>
    if a.AgreementID = aid then some 0
    else
      match findAgreement aid rest with
      | none => none
      | some i => some (i + 1)

/-- The loop that lowers `minSatisfactionRate` to the smallest rate met. -/
def minSatisfactionRate : ℚ → List Agreement → ℚ
  | m, [] => m
  | m, a :: rest =>
    minSatisfactionRate (if a.SatisfactionRate < m then a.SatisfactionRate else m) rest

/-- The loop that lowers `minRuleAbidingRate` to the smallest rate met. -/
def minRuleAbidingRate : ℚ → List Agreement → ℚ
  | m, [] => m
  | m, a :: rest =>
    minRuleAbidingRate (if a.RuleAbidingRate < m then a.RuleAbidingRate else m) rest

/-- The method `AddAgreement`.  The arguments `items` and `penaltyRules` stand
for the outcome of decoding the base64 JSON payloads, `none` when a payload is
malformed. -/
def AddAgreement (ctx : TransactionContext) (w : World) (sid aid cat : String)
    (hasPenalty : Bool) (items : Option (List AgreementItem))
    (penaltyRules : Option (List PenaltyRule)) : Except Failure Service × World :=
  match ServiceExists ctx w sid with
  | .error e => (.error e, w)
  | .ok false => (.error .NotFound, w)
  | .ok true =>
  match ReadService ctx w sid with
  | .error e => (.error e, w)
  | .ok service =>
  if service.Agreements.any (fun a => a.AgreementID = aid) then (.error .Conflict, w)
  else
  match items with
  | none => (.error .DecodeError, w)
  | some aItems =>
  match penaltyRules with
  | none => (.error .DecodeError, w)
  | some aPenaltyRules =>
    let agreement : Agreement :=
      { AgreementID := aid, Category := cat, Items := aItems, TotalFeedbacks := 0,
        TotalUnsatisfied := 0, TotalRuleViolations := 0,
        TotalRuleViolationWithoutCompensations := 0, HasPenaltyRule := hasPenalty,
        PenaltyRules := aPenaltyRules, LastEvaluationAt := "", RuleAbidingRate := 1,
        SatisfactionRate := 1 }
    let service1 : Service := { service with Agreements := service.Agreements ++ [agreement] }
    match PutState ctx w (.simple sid) (.service service1) with
    | (.error _, w1) => (.error .StorageError, w1)
    | (.ok _, w1) => (.ok service1, w1)

/-- The method `UpdateAgreement`. -/
def UpdateAgreement (ctx : TransactionContext) (w : World) (sid aid cat : String)
    (hasPenalty : Bool) (items : Option (List AgreementItem))
    (penaltyRules : Option (List PenaltyRule)) : Except Failure Service × World :=
  match ServiceExists ctx w sid with
  | .error e => (.error e, w)
  | .ok false => (.error .NotFound, w)
  | .ok true =>
  match ReadService ctx w sid with
  | .error e => (.error e, w)
  | .ok service =>
  match findAgreement aid service.Agreements with
  | none => (.error .NotFound, w)
  | some aIndex =>
  match items with
  | none => (.error .DecodeError, w)
  | some aItems =>
  match penaltyRules with
  | none => (.error .DecodeError, w)
  | some aPenaltyRules =>
  match index service.Agreements aIndex with
  | .error e => (.error e, w)
  | .ok agreement =>
    let agreement1 : Agreement :=
      { agreement with Category := cat, Items := aItems, HasPenaltyRule := hasPenalty,
                       PenaltyRules := aPenaltyRules }
    let service1 : Service :=
      { service with Agreements := service.Agreements.set aIndex agreement1 }
    match PutState ctx w (.simple sid) (.service service1) with
    | (.error _, w1) => (.error .StorageError, w1)
    | (.ok _, w1) => (.ok service1, w1)

/-- The method `RemoveAgreement`. -/
def RemoveAgreement (ctx : TransactionContext) (w : World) (sid aid : String) :
    Except Failure Service × World :=
  match ServiceExists ctx w sid with
  | .error e => (.error e, w)
  | .ok false => (.error .NotFound, w)
  | .ok true =>
  match ReadService ctx w sid with
  | .error e => (.error e, w)
  | .ok service =>
  match findAgreement aid service.Agreements with
  | none => (.error .NotFound, w)
  | some aIndex =>
    let agreements := service.Agreements.eraseIdx aIndex
    let start : ℚ × ℚ :=
      match agreements with
      | [] => (1, 1)
      | first :: _ => (first.SatisfactionRate, first.RuleAbidingRate)
    let service1 : Service :=
      { service with Agreements := agreements,
                     SatisfactionRate := minSatisfactionRate start.1 agreements,
                     RuleAbidingRate := minRuleAbidingRate start.2 agreements }
    match PutState ctx w (.simple sid) (.service service1) with
    | (.error _, w1) => (.error .StorageError, w1)
    | (.ok _, w1) => (.ok service1, w1)

/-- The method `EvaluateSLA`.  The argument `eData` stands for the outcome of
decoding the base64 JSON evidence, `none` when it is malformed; `atTime` is
the Go parameter `at`.  The difference `TotalFeedbacks - TotalUnsatisfied`
never underflows: in every reachable state `TotalUnsatisfied` is at most
`TotalFeedbacks`. -/
def EvaluateSLA (ctx : TransactionContext) (w : World) (sid aid eid : String)
    (eData : Option (List EvaluationData)) (hash atTime : String) :
    Except Failure EvaluationResult × World :=
  match ServiceExists ctx w sid with
  | .error e => (.error e, w)
  | .ok false => (.error .NotFound, w)
  | .ok true =>
  match ReadService ctx w sid with
  | .error e => (.error e, w)
  | .ok service =>
  match findAgreement aid service.Agreements with
  | none => (.error .NotFound, w)
  | some aIndex =>
  match eData with
  | none => (.error .DecodeError, w)
  | some evaData =>
  match index service.Agreements aIndex with
  | .error e => (.error e, w)
  | .ok agreement =>
  match VerifySLA agreement evaData with
  | .error e => (.error e, w)
  | .ok eResult =>
    let totalFeedbacks : Nat := agreement.TotalFeedbacks + 1
    let totalUnsatisfied : Nat :=
      if eResult.Satisfied = false then agreement.TotalUnsatisfied + 1
      else agreement.TotalUnsatisfied
    let agreement1 : Agreement :=
      { agreement with
          TotalFeedbacks := totalFeedbacks, TotalUnsatisfied := totalUnsatisfied,
          SatisfactionRate := ((totalFeedbacks - totalUnsatisfied : Nat) : ℚ) / (totalFeedbacks : ℚ),
          LastEvaluationAt := atTime }
    let agreements := service.Agreements.set aIndex agreement1
    match index agreements 0 with
    | .error e => (.error e, w)
    | .ok first =>
    let service1 : Service :=
      { service with
          Agreements := agreements,
          SatisfactionRate := minSatisfactionRate first.SatisfactionRate agreements,
          NumberOfEvaluations := service.NumberOfEvaluations + 1,
          LastEvaluationAt := atTime }
    match PutState ctx w (.simple sid) (.service service1) with
    | (.error _, w1) => (.error .StorageError, w1)
    | (.ok _, w1) =>
      let evaluation : Evaluation :=
        { DocType := "Evaluation", EvaluationID := eid, ServiceID := sid, AgreementID := aid,
          TxID := ctx.TxID, Hash := hash }
      let w2 := (PutState ctx w1 (.simple eid) (.evaluation evaluation)).2
      match CreateCompositeKey ctx evaluationIndex [evaluation.DocType, evaluation.EvaluationID] with
      | .error e => (.error e, w2)
      | .ok docEvaluationIndexKey =>
        match PutState ctx w2 docEvaluationIndexKey .indexEntry with
        | (.error e, w3) => (.error e, w3)
        | (.ok _, w3) => (.ok eResult, w3)

/-- The method `UpdateRuleAbidingRate`. -/
def UpdateRuleAbidingRate (ctx : TransactionContext) (w : World)
    (sid aid eid hash atTime : String) (compensated : Bool) :
    Except Failure Service × World :=
  match ServiceExists ctx w sid with
  | .error e => (.error e, w)
  | .ok false => (.error .NotFound, w)
  | .ok true =>
  match ReadService ctx w sid with
  | .error e => (.error e, w)
  | .ok service =>
  match findAgreement aid service.Agreements with
  | none => (.error .NotFound, w)
  | some aIndex =>
  match index service.Agreements aIndex with
  | .error e => (.error e, w)
  | .ok agreement =>
    let totalRuleViolations : Nat := agreement.TotalRuleViolations + 1
    let totalWithout : Nat :=
      if compensated = false then agreement.TotalRuleViolationWithoutCompensations + 1
      else agreement.TotalRuleViolationWithoutCompensations
    let agreement1 : Agreement :=
      { agreement with
          TotalRuleViolations := totalRuleViolations,
          TotalRuleViolationWithoutCompensations := totalWithout,
          RuleAbidingRate := ((totalRuleViolations - totalWithout : Nat) : ℚ) / (totalRuleViolations : ℚ),
          LastEvaluationAt := atTime }
    let agreements := service.Agreements.set aIndex agreement1
    match index agreements 0 with
    | .error e => (.error e, w)
    | .ok first =>
    let service1 : Service :=
      { service with
          Agreements := agreements,
          RuleAbidingRate := minRuleAbidingRate first.RuleAbidingRate agreements,
          NumberOfEvaluations := service.NumberOfEvaluations + 1,
          LastEvaluationAt := atTime }
    match PutState ctx w (.simple sid) (.service service1) with
    | (.error _, w1) => (.error .StorageError, w1)
    | (.ok _, w1) =>
      let evaluation : Evaluation :=
        { DocType := "Evaluation", EvaluationID := eid, ServiceID := sid, AgreementID := aid,
          TxID := ctx.TxID, Hash := hash }
      let w2 := (PutState ctx w1 (.simple eid) (.evaluation evaluation)).2
      match CreateCompositeKey ctx evaluationIndex [evaluation.DocType, evaluation.EvaluationID] with
      | .error e => (.error e, w2)
      | .ok docEvaluationIndexKey =>
        match PutState ctx w2 docEvaluationIndexKey .indexEntry with
        | (.error e, w3) => (.error e, w3)
        | (.ok _, w3) => (.ok service1, w3)

/-- The method `HandleSatisfactionEvaluationEvent`, as a function of the world
state.  The call of the penalty dispatcher inside the `!satisfied` branch
writes nothing to the ledger and its outcome is discarded by the source
(`_ = s.EnforcePenaltyRuleFromBlockChain(...)`), so it has no part in the
result or in the state; `rid` and `enforcePenaltyRule` are read by that call
only. -/
def HandleSatisfactionEvaluationEvent (ctx : TransactionContext) (w : World)
    (sid aid eid _rid hash atTime : String) (satisfied _enforcePenaltyRule : Bool) :
    Except Failure Service × World :=
  match ServiceExists ctx w sid with
  | .error e => (.error e, w)
  | .ok false => (.error .NotFound, w)
  | .ok true =>
  match ReadService ctx w sid with
  | .error e => (.error e, w)
  | .ok service =>
  match findAgreement aid service.Agreements with
  | none => (.error .NotFound, w)
  | some aIndex =>
  match index service.Agreements aIndex with
  | .error e => (.error e, w)
  | .ok agreement =>
    let totalFeedbacks : Nat := agreement.TotalFeedbacks + 1
    let totalUnsatisfied : Nat :=
      if satisfied = false then agreement.TotalUnsatisfied + 1
      else agreement.TotalUnsatisfied
    let agreement1 : Agreement :=
      { agreement with
          TotalFeedbacks := totalFeedbacks, TotalUnsatisfied := totalUnsatisfied,
          SatisfactionRate := ((totalFeedbacks - totalUnsatisfied : Nat) : ℚ) / (totalFeedbacks : ℚ),
          LastEvaluationAt := atTime }
    let agreements := service.Agreements.set aIndex agreement1
    match index agreements 0 with
    | .error e => (.error e, w)
    | .ok first =>
    let service1 : Service :=
      { service with
          Agreements := agreements,
          SatisfactionRate := minSatisfactionRate first.SatisfactionRate agreements,
          NumberOfEvaluations := service.NumberOfEvaluations + 1,
          LastEvaluationAt := atTime }
    match PutState ctx w (.simple sid) (.service service1) with
    | (.error _, w1) => (.error .StorageError, w1)
    | (.ok _, w1) =>
      let evaluation : Evaluation :=
        { DocType := "Evaluation", EvaluationID := eid, ServiceID := sid, AgreementID := aid,
          TxID := ctx.TxID, Hash := hash }
      let w2 := (PutState ctx w1 (.simple eid) (.evaluation evaluation)).2
      match CreateCompositeKey ctx evaluationIndex [evaluation.DocType, evaluation.EvaluationID] with
      | .error e => (.error e, w2)
      | .ok docEvaluationIndexKey =>
        match PutState ctx w2 docEvaluationIndexKey .indexEntry with
        | (.error e, w3) => (.error e, w3)
        | (.ok _, w3) => (.ok service1, w3)

/-- The method `HandlePenaltyRuleEvaluationEvent`. -/
def HandlePenaltyRuleEvaluationEvent (ctx : TransactionContext) (w : World)
    (sid aid eid hash atTime : String) (compensated : Bool) :
    Except Failure Service × World :=
  match ServiceExists ctx w sid with
  | .error e => (.error e, w)
  | .ok false => (.error .NotFound, w)
  | .ok true =>
  match ReadService ctx w sid with
  | .error e => (.error e, w)
  | .ok service =>
  match findAgreement aid service.Agreements with
  | none => (.error .NotFound, w)
  | some aIndex =>
  match index service.Agreements aIndex with
  | .error e => (.error e, w)
  | .ok agreement =>
    let totalRuleViolations : Nat := agreement.TotalRuleViolations + 1
    let totalWithout : Nat :=
      if compensated = false then agreement.TotalRuleViolationWithoutCompensations + 1
      else agreement.TotalRuleViolationWithoutCompensations
    let agreement1 : Agreement :=
      { agreement with
          TotalRuleViolations := totalRuleViolations,
          TotalRuleViolationWithoutCompensations := totalWithout,
          RuleAbidingRate := ((totalRuleViolations - totalWithout : Nat) : ℚ) / (totalRuleViolations : ℚ),
          LastEvaluationAt := atTime }
    let agreements := service.Agreements.set aIndex agreement1
    match index agreements 0 with
    | .error e => (.error e, w)
    | .ok first =>
    let service1 : Service :=
      { service with
          Agreements := agreements,
          RuleAbidingRate := minRuleAbidingRate first.RuleAbidingRate agreements,
          NumberOfEvaluations := service.NumberOfEvaluations + 1,
          LastEvaluationAt := atTime }
    match PutState ctx w (.simple sid) (.service service1) with
    | (.error _, w1) => (.error .StorageError, w1)
    | (.ok _, w1) =>
      let evaluation : Evaluation :=
        { DocType := "Evaluation", EvaluationID := eid, ServiceID := sid, AgreementID := aid,
          TxID := ctx.TxID, Hash := hash }
      let w2 := (PutState ctx w1 (.simple eid) (.evaluation evaluation)).2
      match CreateCompositeKey ctx evaluationIndex [evaluation.DocType, evaluation.EvaluationID] with
      | .error e => (.error e, w2)
      | .ok docEvaluationIndexKey =>
        match PutState ctx w2 docEvaluationIndexKey .indexEntry with
        | (.error e, w3) => (.error e, w3)
        | (.ok _, w3) => (.ok service1, w3)

/-! ## Transactions -/

/-- A transaction proposal naming one of the operations that create services,
manage agreements or record evaluations. -/
inductive Call where
  | CreateService (id : String)
  | AddAgreement (sid aid cat : String) (hasPenalty : Bool)
      (items : Option (List AgreementItem)) (penaltyRules : Option (List PenaltyRule))
  | UpdateAgreement (sid aid cat : String) (hasPenalty : Bool)
      (items : Option (List AgreementItem)) (penaltyRules : Option (List PenaltyRule))
  | RemoveAgreement (sid aid : String)
  | EvaluateSLA (sid aid eid : String) (eData : Option (List EvaluationData))
      (hash atTime : String)
  | UpdateRuleAbidingRate (sid aid eid hash atTime : String) (compensated : Bool)
  | HandleSatisfactionEvaluationEvent (sid aid eid rid hash atTime : String)
      (satisfied enforcePenaltyRule : Bool)
  | HandlePenaltyRuleEvaluationEvent (sid aid eid hash atTime : String) (compensated : Bool)

/-- The world state a successful operation leaves; `none` when the operation
returned an error (the platform then drops its writes). -/
def committed {α : Type} : Except Failure α × World → Option World
  | (.ok _, w) => some w
  | (.error _, _) => none

/-- Invocation of one call: the world state after it when it succeeds. -/
def Call.invoke (ctx : TransactionContext) (w : World) : Call → Option World
  | .CreateService id => committed (SmartContract.CreateService ctx w id)
  | .AddAgreement sid aid cat hasPenalty items penaltyRules =>
    committed (SmartContract.AddAgreement ctx w sid aid cat hasPenalty items penaltyRules)
  | .UpdateAgreement sid aid cat hasPenalty items penaltyRules =>
    committed (SmartContract.UpdateAgreement ctx w sid aid cat hasPenalty items penaltyRules)
  | .RemoveAgreement sid aid => committed (SmartContract.RemoveAgreement ctx w sid aid)
  | .EvaluateSLA sid aid eid eData hash atTime =>
    committed (SmartContract.EvaluateSLA ctx w sid aid eid eData hash atTime)
  | .UpdateRuleAbidingRate sid aid eid hash atTime compensated =>
    committed (SmartContract.UpdateRuleAbidingRate ctx w sid aid eid hash atTime compensated)
  | .HandleSatisfactionEvaluationEvent sid aid eid rid hash atTime satisfied enforcePenaltyRule =>
    committed (SmartContract.HandleSatisfactionEvaluationEvent ctx w sid aid eid rid hash atTime
      satisfied enforcePenaltyRule)
  | .HandlePenaltyRuleEvaluationEvent sid aid eid hash atTime compensated =>
    committed (SmartContract.HandlePenaltyRuleEvaluationEvent ctx w sid aid eid hash atTime
      compensated)

/-- The world state after a sequence of calls, each with its own transaction
context, when all of them succeed. -/
def runCalls : World → List (TransactionContext × Call) → Option World
  | w, [] => some w
  | w, (ctx, c) :: rest =>
    match c.invoke ctx w with
    | none => none
    | some w1 => runCalls w1 rest

/-- The service id a call addresses. -/
def Call.serviceId : Call → String
  | .CreateService id => id
  | .AddAgreement sid _ _ _ _ _ => sid
  | .UpdateAgreement sid _ _ _ _ _ => sid
  | .RemoveAgreement sid _ => sid
  | .EvaluateSLA sid _ _ _ _ _ => sid
  | .UpdateRuleAbidingRate sid _ _ _ _ _ => sid
  | .HandleSatisfactionEvaluationEvent sid _ _ _ _ _ _ _ => sid
  | .HandlePenaltyRuleEvaluationEvent sid _ _ _ _ _ => sid

/-- The evaluation id a call supplies, if it records an evaluation. -/
def Call.evaluationId : Call → Option String
  | .EvaluateSLA _ _ eid _ _ _ => some eid
  | .UpdateRuleAbidingRate _ _ eid _ _ _ => some eid
  | .HandleSatisfactionEvaluationEvent _ _ eid _ _ _ _ _ => some eid
  | .HandlePenaltyRuleEvaluationEvent _ _ eid _ _ _ => some eid
  | _ => none

/-! ## Notions used to state the properties -/

/-- Order of instants. -/
def timeLE (x y : Time) : Prop := x.nanos ≤ y.nanos

instance : DecidableRel timeLE := fun x y => inferInstanceAs (Decidable (x.nanos ≤ y.nanos))

instance : IsTotal Time timeLE := ⟨fun x y => Int.le_total x.nanos y.nanos⟩

instance : IsTrans Time timeLE := ⟨fun _ _ _ h1 h2 => Int.le_trans h1 h2⟩

instance : IsAntisymm Time timeLE :=
  ⟨fun x y h1 h2 => by
    cases x; cases y
    simp only [timeLE] at h1 h2
    simp only [Time.mk.injEq]
    exact Int.le_antisymm h1 h2⟩

instance : IsTotal SaunaRequest (fun x y => y.RequestAt.Before x.RequestAt = false) :=
  ⟨fun x y => by
    simp only [Time.Before, decide_eq_false_iff_not, not_lt]
    exact Int.le_total _ _⟩

instance : IsTrans SaunaRequest (fun x y => y.RequestAt.Before x.RequestAt = false) :=
  ⟨fun x y z => by
    simp only [Time.Before, decide_eq_false_iff_not, not_lt]
    exact fun h1 h2 => Int.le_trans h1 h2⟩

/-- The `RequestAt` times of the requests with status `fail`, in ascending order. -/
def failureTimes (requests : List SaunaRequest) : List Time :=
  ((requests.filter (fun r => r.Status = SaunaRequestStatusFail)).map
    (fun r => r.RequestAt)).insertionSort timeLE

/-- The number of consecutive pairs of the list whose gap in minutes, as
`Duration.Minutes` gives it for the `Time.Sub` of the pair, is at least
`minGap`. -/
def qualifyingGaps (minGap : Int) : List Time → Nat
  | f :: g :: rest =>
    (if (g.Sub f).Minutes ≥ (minGap : ℚ) then 1 else 0) + qualifyingGaps minGap (g :: rest)
  | _ => 0

/-- The exact number of minutes from `u` to `t`: the reading of a delay or gap
"in minutes" that knows no rounding. -/
def exactMinutes (t u : Time) : ℚ := ((t.nanos - u.nanos : Int) : ℚ) / 60000000000

/-- The number of consecutive pairs of the list whose exact gap is at least
`minGap` minutes. -/
def exactQualifyingGaps (minGap : Int) : List Time → Nat
  | f :: g :: rest =>
    (if exactMinutes g f ≥ (minGap : ℚ) then 1 else 0) + exactQualifyingGaps minGap (g :: rest)
  | _ => 0

/-- Whether an integer fits Go's 64-bit `int`. -/
def inInt64 (x : Int) : Prop := -9223372036854775808 ≤ x ∧ x ≤ 9223372036854775807

instance (x : Int) : Decidable (inInt64 x) := by unfold inInt64; infer_instance

/-- The rollup relation: `m` is the least of `rates`, and is `1` when there is
none. -/
def IsRollup (m : ℚ) (rates : List ℚ) : Prop :=
  (rates = [] → m = 1) ∧ (rates ≠ [] → m ∈ rates ∧ ∀ r ∈ rates, m ≤ r)

/-- The counters of an agreement are ordered and its rates are the ones derived
from the counters. -/
def Agreement.Consistent (a : Agreement) : Prop :=
  a.TotalUnsatisfied ≤ a.TotalFeedbacks ∧
  a.TotalRuleViolationWithoutCompensations ≤ a.TotalRuleViolations ∧
  a.SatisfactionRate =
    (if a.TotalFeedbacks = 0 then 1
     else ((a.TotalFeedbacks : ℚ) - (a.TotalUnsatisfied : ℚ)) / (a.TotalFeedbacks : ℚ)) ∧
  a.RuleAbidingRate =
    (if a.TotalRuleViolations = 0 then 1
     else ((a.TotalRuleViolations : ℚ) - (a.TotalRuleViolationWithoutCompensations : ℚ)) /
       (a.TotalRuleViolations : ℚ))

/-- The agreement after one more feedback, as `EvaluateSLA` and
`HandleSatisfactionEvaluationEvent` leave it. -/
def Agreement.withFeedback (agreement : Agreement) (satisfied : Bool) (atTime : String) :
    Agreement :=
  { agreement with
      TotalFeedbacks := agreement.TotalFeedbacks + 1,
      TotalUnsatisfied :=
        if satisfied = false then agreement.TotalUnsatisfied + 1 else agreement.TotalUnsatisfied,
      SatisfactionRate :=
        ((agreement.TotalFeedbacks + 1 -
            (if satisfied = false then agreement.TotalUnsatisfied + 1
             else agreement.TotalUnsatisfied) : Nat) : ℚ) /
          ((agreement.TotalFeedbacks + 1 : Nat) : ℚ),
      LastEvaluationAt := atTime }

/-- The agreement after one more rule violation, as `UpdateRuleAbidingRate` and
`HandlePenaltyRuleEvaluationEvent` leave it. -/
def Agreement.withRuleViolation (agreement : Agreement) (compensated : Bool) (atTime : String) :
    Agreement :=
  { agreement with
      TotalRuleViolations := agreement.TotalRuleViolations + 1,
      TotalRuleViolationWithoutCompensations :=
        if compensated = false then agreement.TotalRuleViolationWithoutCompensations + 1
        else agreement.TotalRuleViolationWithoutCompensations,
      RuleAbidingRate :=
        ((agreement.TotalRuleViolations + 1 -
            (if compensated = false then agreement.TotalRuleViolationWithoutCompensations + 1
             else agreement.TotalRuleViolationWithoutCompensations) : Nat) : ℚ) /
          ((agreement.TotalRuleViolations + 1 : Nat) : ℚ),
      LastEvaluationAt := atTime }

/-- The service after a feedback on the agreement at `aIndex`. -/
def Service.withFeedback (service : Service) (aIndex : Nat) (agreement first : Agreement)
    (satisfied : Bool) (atTime : String) : Service :=
  { service with
      Agreements := service.Agreements.set aIndex (agreement.withFeedback satisfied atTime),
      SatisfactionRate :=
        minSatisfactionRate first.SatisfactionRate
          (service.Agreements.set aIndex (agreement.withFeedback satisfied atTime)),
      NumberOfEvaluations := service.NumberOfEvaluations + 1,
      LastEvaluationAt := atTime }

/-- The service after a rule violation on the agreement at `aIndex`. -/
def Service.withRuleViolation (service : Service) (aIndex : Nat) (agreement first : Agreement)
    (compensated : Bool) (atTime : String) : Service :=
  { service with
      Agreements := service.Agreements.set aIndex (agreement.withRuleViolation compensated atTime),
      RuleAbidingRate :=
        minRuleAbidingRate first.RuleAbidingRate
          (service.Agreements.set aIndex (agreement.withRuleViolation compensated atTime)),
      NumberOfEvaluations := service.NumberOfEvaluations + 1,
      LastEvaluationAt := atTime }

/-- The agreement `AddAgreement` creates. -/
def newAgreement (aid cat : String) (hasPenalty : Bool) (aItems : List AgreementItem)
    (aPenaltyRules : List PenaltyRule) : Agreement :=
  { AgreementID := aid, Category := cat, Items := aItems, TotalFeedbacks := 0,
    TotalUnsatisfied := 0, TotalRuleViolations := 0,
    TotalRuleViolationWithoutCompensations := 0, HasPenaltyRule := hasPenalty,
    PenaltyRules := aPenaltyRules, LastEvaluationAt := "", RuleAbidingRate := 1,
    SatisfactionRate := 1 }

/-- The service `CreateService` stores. -/
def newService (id : String) : Service :=
  { DocType := "Service", ServiceID := id, SatisfactionRate := 1, RuleAbidingRate := 1,
    NumberOfEvaluations := 0, LastEvaluationAt := "", Agreements := [] }

/-- The service `RemoveAgreement` stores. -/
def Service.withoutAgreement (service : Service) (aIndex : Nat) : Service :=
  { service with
      Agreements := service.Agreements.eraseIdx aIndex,
      SatisfactionRate :=
        minSatisfactionRate
          (match service.Agreements.eraseIdx aIndex with
           | [] => ((1 : ℚ), (1 : ℚ))
           | first :: _ => (first.SatisfactionRate, first.RuleAbidingRate)).1
          (service.Agreements.eraseIdx aIndex),
      RuleAbidingRate :=
        minRuleAbidingRate
          (match service.Agreements.eraseIdx aIndex with
           | [] => ((1 : ℚ), (1 : ℚ))
           | first :: _ => (first.SatisfactionRate, first.RuleAbidingRate)).2
          (service.Agreements.eraseIdx aIndex) }

/-- The world state after the three writes that end an evaluation: the service,
the audit record and its index entry. -/
def recordEvaluation (ctx : TransactionContext) (w : World) (sid aid eid hash : String)
    (service1 : Service) : World :=
  (PutState ctx
    (PutState ctx (PutState ctx w (.simple sid) (.service service1)).2 (.simple eid)
      (.evaluation { DocType := "Evaluation", EvaluationID := eid, ServiceID := sid,
                     AgreementID := aid, TxID := ctx.TxID, Hash := hash })).2
    (.composite evaluationIndex ["Evaluation", eid]) .indexEntry).2

/-- A property of every document of a world state. -/
def World.Holds (P : Key → Stored → Prop) (w : World) : Prop :=
  ∀ key value, w key = some value → P key value

/-- Every agreement of a stored service is consistent. -/
def ConsistentDocument (_key : Key) : Stored → Prop
  | .service s => ∀ a ∈ s.Agreements, a.Consistent
  | _ => True

/-- The rollup rates of a service are those of its agreements. -/
def Service.RolledUp (s : Service) : Prop :=
  IsRollup s.SatisfactionRate (s.Agreements.map (fun a => a.SatisfactionRate)) ∧
  IsRollup s.RuleAbidingRate (s.Agreements.map (fun a => a.RuleAbidingRate))

/-- The documents of a ledger whose audit records sit under the keys
`evaluationKeys` only: stored services are rolled up and consistent. -/
def SeparatedDocument (evaluationKeys : List String) (key : Key) : Stored → Prop
  | .service s => s.RolledUp ∧ ∀ a ∈ s.Agreements, a.Consistent
  | .evaluation _ => ∃ k ∈ evaluationKeys, key = .simple k
  | .accessKey _ => False
  | .indexEntry => True

/-- The evaluation ids supplied by a sequence of calls. -/
def evaluationIds (calls : List (TransactionContext × Call)) : List String :=
  calls.filterMap (fun c => c.2.evaluationId)

/-- The service ids addressed by a sequence of calls. -/
def serviceIds (calls : List (TransactionContext × Call)) : List String :=
  calls.map (fun c => c.2.serviceId)

/-! ## Data of the worked examples -/

/-- An airport-shuttle agreement item: driver waits 5 minutes, customer waits 10
or 15 minutes. -/
def shuttleItem : AgreementItem :=
  { Code := "SAS001", Quantity := 0, DriverMaxWaitTime := 5, CustomerShortWaitTime := 10,
    CustomerLongWaitTime := 15, MaxFailures := 0, MinTimeBetween2Failures := 0, Value := .null }

/-- A sauna agreement item: one failure allowed, ten minutes between failures. -/
def saunaItem : AgreementItem :=
  { Code := "SSA001", Quantity := 0, DriverMaxWaitTime := 0, CustomerShortWaitTime := 0,
    CustomerLongWaitTime := 0, MaxFailures := 1, MinTimeBetween2Failures := 10, Value := .null }

/-- An agreement item that only has a code and a quantity. -/
def plainItem (code : String) (quantity : Int) : AgreementItem :=
  { Code := code, Quantity := quantity, DriverMaxWaitTime := 0, CustomerShortWaitTime := 0,
    CustomerLongWaitTime := 0, MaxFailures := 0, MinTimeBetween2Failures := 0, Value := .null }

/-- A fresh agreement with three penalty rules. -/
def sampleAgreement (category : String) (items : List AgreementItem) : Agreement :=
  { AgreementID := "a", Category := category, Items := items, TotalFeedbacks := 0,
    TotalUnsatisfied := 0, TotalRuleViolations := 0, TotalRuleViolationWithoutCompensations := 0,
    HasPenaltyRule := true,
    PenaltyRules := [⟨"discount", 10⟩, ⟨"discount", 20⟩, ⟨"upgrade_level", 0⟩],
    LastEvaluationAt := "", RuleAbidingRate := 1, SatisfactionRate := 1 }

/-- Evidence of a shuttle ride; the three times are minutes after midnight. -/
def shuttleRide (status : String) (pickUp arrive notify : Int) : EvaluationData :=
  { Code := "SAS001", Name := "", Quantity := 0, PickUpTime := ⟨pickUp * 60000000000⟩,
    DriverArriveAt := ⟨arrive * 60000000000⟩, CustomerCheckInAt := ⟨0⟩,
    LastUpdatedArrivalTimeByCustomerAt := ⟨0⟩,
    DriverNotifyCustomerDoNotShowUpAt := ⟨notify * 60000000000⟩, Status := status,
    SaunaRequests := [], Fulfilled := "", Value := .null }

/-- An airport-shuttle agreement item whose three waiting times are 262144
minutes (`2^18`). -/
def patientShuttleItem : AgreementItem :=
  { shuttleItem with DriverMaxWaitTime := 262144, CustomerShortWaitTime := 262144,
                     CustomerLongWaitTime := 262144 }

/-- A sauna agreement item: one failure allowed, 262145 minutes between
failures. -/
def patientSaunaItem : AgreementItem := { saunaItem with MinTimeBetween2Failures := 262145 }

/-- Evidence of a shuttle ride picked up at instant zero; the two other times
are nanoseconds after the pick-up time. -/
def shuttleRideAt (status : String) (arrive notify : Int) : EvaluationData :=
  { shuttleRide status 0 0 0 with
      DriverArriveAt := ⟨arrive⟩, DriverNotifyCustomerDoNotShowUpAt := ⟨notify⟩ }

/-- Evidence of sauna requests. -/
def saunaEvidence (requests : List SaunaRequest) : EvaluationData :=
  { Code := "SSA001", Name := "", Quantity := 0, PickUpTime := ⟨0⟩,
    DriverArriveAt := ⟨0⟩, CustomerCheckInAt := ⟨0⟩,
    LastUpdatedArrivalTimeByCustomerAt := ⟨0⟩,
    DriverNotifyCustomerDoNotShowUpAt := ⟨0⟩, Status := "",
    SaunaRequests := requests, Fulfilled := "", Value := .null }

/-- Evidence that only has a code and a quantity. -/
def plainEvidence (code : String) (quantity : Int) : EvaluationData :=
  { Code := code, Name := "", Quantity := quantity, PickUpTime := ⟨0⟩,
    DriverArriveAt := ⟨0⟩, CustomerCheckInAt := ⟨0⟩,
    LastUpdatedArrivalTimeByCustomerAt := ⟨0⟩,
    DriverNotifyCustomerDoNotShowUpAt := ⟨0⟩, Status := "",
    SaunaRequests := [], Fulfilled := "", Value := .null }

/-- A transaction context in which no access to the store fails. -/
def reliableContext : TransactionContext :=
  { TxID := "tx", GetStateErr := fun _ => false, PutStateErr := fun _ => false,
    DelStateErr := fun _ => false, CreateCompositeKeyErr := fun _ _ => false }

/-- A service with one agreement receives an unsatisfied feedback recorded
under the evaluation id `e1`. -/
def feedbackCalls : List (TransactionContext × Call) :=
  [(reliableContext, .CreateService "s"),
   (reliableContext, .AddAgreement "s" "a" "view" false (some []) (some [])),
   (reliableContext, .HandleSatisfactionEvaluationEvent "s" "a" "e1" "r" "h" "t" false false)]

/-- The same calls with the feedback recorded under the evaluation id `s`, the
key of the service, followed by the addition of a second agreement. -/
def collidingCalls : List (TransactionContext × Call) :=
  [(reliableContext, .CreateService "s"),
   (reliableContext, .AddAgreement "s" "a" "view" false (some []) (some [])),
   (reliableContext, .HandleSatisfactionEvaluationEvent "s" "a" "s" "r" "h" "t" false false),
   (reliableContext, .AddAgreement "s" "b" "view" false (some []) (some []))]

/-- The agreement of the service after `feedbackCalls`. -/
def feedbackAgreement : Agreement :=
  { AgreementID := "a", Category := "view", Items := [], TotalFeedbacks := 1,
    TotalUnsatisfied := 1, TotalRuleViolations := 0,
    TotalRuleViolationWithoutCompensations := 0, HasPenaltyRule := false,
    PenaltyRules := [], LastEvaluationAt := "t", RuleAbidingRate := 1,
    SatisfactionRate := 0 }

/-- The service after `feedbackCalls`. -/
def feedbackService : Service :=
  { DocType := "Service", ServiceID := "s", SatisfactionRate := 0, RuleAbidingRate := 1,
    NumberOfEvaluations := 1, LastEvaluationAt := "t", Agreements := [feedbackAgreement] }

/-- The world state after `feedbackCalls`. -/
def feedbackWorld : World := (runCalls World.empty feedbackCalls).getD World.empty

/-- The document under the key `s` after `collidingCalls`: the audit record
overwrote the service, was read back as a service without agreements and with
both rates 0, and received the agreement `b`. -/
def collidedService : Service :=
  { DocType := "Evaluation", ServiceID := "s", SatisfactionRate := 0, RuleAbidingRate := 0,
    NumberOfEvaluations := 0, LastEvaluationAt := "",
    Agreements := [newAgreement "b" "view" false [] []] }

/-- The world state after `collidingCalls`. -/
def collidedWorld : World := (runCalls World.empty collidingCalls).getD World.empty

/-- A fresh agreement without penalty rules. -/
def bareAgreement (category : String) (items : List AgreementItem) : Agreement :=
  { AgreementID := "a", Category := category, Items := items, TotalFeedbacks := 0,
    TotalUnsatisfied := 0, TotalRuleViolations := 0, TotalRuleViolationWithoutCompensations := 0,
    HasPenaltyRule := false, PenaltyRules := [],
    LastEvaluationAt := "", RuleAbidingRate := 1, SatisfactionRate := 1 }

/-- A room-size agreement item requiring the given size. -/
def roomItem (size : ℚ) : AgreementItem :=
  { Code := "RSI001", Quantity := 0, DriverMaxWaitTime := 0, CustomerShortWaitTime := 0,
    CustomerLongWaitTime := 0, MaxFailures := 0, MinTimeBetween2Failures := 0,
    Value := .number size }

/-- Evidence of a measured value under the given code. -/
def roomEvidence (code : String) (size : ℚ) : EvaluationData :=
  { Code := code, Name := "", Quantity := 0, PickUpTime := ⟨0⟩,
    DriverArriveAt := ⟨0⟩, CustomerCheckInAt := ⟨0⟩,
    LastUpdatedArrivalTimeByCustomerAt := ⟨0⟩,
    DriverNotifyCustomerDoNotShowUpAt := ⟨0⟩, Status := "",
    SaunaRequests := [], Fulfilled := "", Value := .number size }

/-- An agreement with five feedbacks, three of them unsatisfied: rate 0.4. -/
def lowRatedAgreement : Agreement :=
  { AgreementID := "a", Category := "view", Items := [], TotalFeedbacks := 5,
    TotalUnsatisfied := 3, TotalRuleViolations := 0,
    TotalRuleViolationWithoutCompensations := 0, HasPenaltyRule := false,
    PenaltyRules := [], LastEvaluationAt := "t", RuleAbidingRate := 1,
    SatisfactionRate := 2 / 5 }

/-- A service of rate 0.4 whose only agreement is `lowRatedAgreement`. -/
def lowRatedService : Service :=
  { DocType := "Service", ServiceID := "s", SatisfactionRate := 2 / 5, RuleAbidingRate := 1,
    NumberOfEvaluations := 5, LastEvaluationAt := "t", Agreements := [lowRatedAgreement] }

/-- The world state that holds the one service given, under its id. -/
def worldWith (service : Service) : World :=
  fun key => if key = .simple service.ServiceID then some (.service service) else none

/-- A service whose only agreement is an airport-shuttle agreement. -/
def shuttleService : Service :=
  { DocType := "Service", ServiceID := "s", SatisfactionRate := 1, RuleAbidingRate := 1,
    NumberOfEvaluations := 0, LastEvaluationAt := "",
    Agreements := [sampleAgreement "service" [shuttleItem]] }

/-! ## Operations beside the eight calls -/

/-- The method `DeleteService`. -/
def DeleteService (ctx : TransactionContext) (w : World) (id : String) :
    Except Failure Unit × World :=
  match ReadService ctx w id with
  | .error e => (.error e, w)
  | .ok service =>
    match DelState ctx w (.simple id) with
    | (.error _, w1) => (.error .StorageError, w1)
    | (.ok _, w1) =>
      match CreateCompositeKey ctx serviceIndex [service.DocType, service.ServiceID] with
      | .error e => (.error e, w1)
      | .ok docServiceIndexKey => DelState ctx w1 docServiceIndexKey

/-- The method `CreateOrUpdateInternalServiceAccessKey`. -/
def CreateOrUpdateInternalServiceAccessKey (ctx : TransactionContext) (w : World)
    (token : String) : Except Failure Unit × World :=
  PutState ctx w (.simple JWTInternalServiceAccessKey)
    (.accessKey { KeyType := "Bearer", Token := token })

/-- Decoding of a stored document as an `AccessKey` (`json.Unmarshal`): the
members `type` and `key` are read and the others are dropped, so a `Service` or
`Evaluation` document fills nothing; the zero byte of an index entry is not
JSON. -/
def unmarshalAccessKey : Stored → Except Failure AccessKey
  | .accessKey k => .ok k
  | .service _ => .ok { KeyType := "", Token := "" }
  | .evaluation _ => .ok { KeyType := "", Token := "" }
  | .indexEntry => .error .DecodeError

/-- The method `ReadInternalServiceAccessKey`. -/
def ReadInternalServiceAccessKey (ctx : TransactionContext) (w : World) :
    Except Failure AccessKey :=
  match GetState ctx w (.simple JWTInternalServiceAccessKey) with
  | .error e => .error e
  | .ok none => .error .NotFound
  | .ok (some jAccessKey) => unmarshalAccessKey jAccessKey

/-! ## Penalty dispatcher (`helper.go`) -/

/-- The record `EnforcePenaltyRulesRequest`; an entry of `PenaltyRules` is a
pointer that may be nil. -/
structure EnforcePenaltyRulesRequest where
  EvaluationID : String
  ReservationID : String
  AgreementID : String
  PenaltyRules : List (Option PenaltyRule)
  Reason : String
deriving DecidableEq, Repr

/-- The ways the call of the penalty service fails: no response, or a response
whose status is not 200. -/
inductive DispatchFailure where
  | Transport
  | Status (code : Nat)
deriving DecidableEq, Repr

/-- Modelled from the spec: the external penalty service, as the status code it
answers to a request sent with a bearer token, `none` when no response
arrives. -/
abbrev PenaltyService : Type := EnforcePenaltyRulesRequest → String → Option Nat

/-- The function `EnforcePenaltyRules`. -/
def EnforcePenaltyRules (penaltyService : PenaltyService) (req : EnforcePenaltyRulesRequest)
    (token : String) : Except DispatchFailure Unit :=
  match penaltyService req token with
  | none => .error .Transport
  | some code => if code ≠ 200 then .error (.Status code) else .ok ()

/-- The request `EnforcePenaltyRuleFromBlockChain` builds. -/
def enforcePenaltyRulesRequest (rid aid : String) (eResult : Option EvaluationResult) :
    EnforcePenaltyRulesRequest :=
  match eResult with
  | none =>
    { EvaluationID := "", ReservationID := rid, AgreementID := aid, PenaltyRules := [],
      Reason := "" }
  | some result =>
    { EvaluationID := "", ReservationID := rid, AgreementID := aid,
      PenaltyRules := [result.PenaltyRule], Reason := result.FailureReason }

/-- The method `EnforcePenaltyRuleFromBlockChain`. -/
def EnforcePenaltyRuleFromBlockChain (penaltyService : PenaltyService) (rid aid : String)
    (eResult : Option EvaluationResult) (token : String) : Except DispatchFailure Unit :=
  EnforcePenaltyRules penaltyService (enforcePenaltyRulesRequest rid aid eResult) token

/-- One call of the penalty service made by an invocation: what was sent and
what came of it. -/
structure Dispatch where
  Request : EnforcePenaltyRulesRequest
  Token : String
  Outcome : Except DispatchFailure Unit

/-- The body of the branch `if agreement.HasPenaltyRule && enforcePenaltyRule`
of `HandleSatisfactionEvaluationEvent`: the access key is read and, when that
succeeds, the penalty service is called once, with a request that carries no
verdict; the caller drops the outcome. -/
def enforceFromEvent (penaltyService : PenaltyService) (ctx : TransactionContext) (w : World)
    (rid aid : String) : List Dispatch :=
  match ReadInternalServiceAccessKey ctx w with
  | .error _ => []
  | .ok accessKey =>
    [{ Request := enforcePenaltyRulesRequest rid aid none, Token := accessKey.Token,
       Outcome := EnforcePenaltyRuleFromBlockChain penaltyService rid aid none accessKey.Token }]

/-- The method `HandleSatisfactionEvaluationEvent` together with its calls of
the penalty service: the result, the world state holding the writes issued,
and the calls made, in order. -/
def HandleSatisfactionEvaluationEventTraced (penaltyService : PenaltyService)
    (ctx : TransactionContext) (w : World)
    (sid aid eid rid hash atTime : String) (satisfied enforcePenaltyRule : Bool) :
    (Except Failure Service × World) × List Dispatch :=
  match ServiceExists ctx w sid with
  | .error e => ((.error e, w), [])
  | .ok false => ((.error .NotFound, w), [])
  | .ok true =>
  match ReadService ctx w sid with
  | .error e => ((.error e, w), [])
  | .ok service =>
  match findAgreement aid service.Agreements with
  | none => ((.error .NotFound, w), [])
  | some aIndex =>
  match index service.Agreements aIndex with
  | .error e => ((.error e, w), [])
  | .ok agreement =>
    let totalFeedbacks : Nat := agreement.TotalFeedbacks + 1
    let unsatisfied : Nat × List Dispatch :=
      if satisfied = false then
        (agreement.TotalUnsatisfied + 1,
          if agreement.HasPenaltyRule = true ∧ enforcePenaltyRule = true then
            enforceFromEvent penaltyService ctx w rid aid
          else [])
      else (agreement.TotalUnsatisfied, [])
    let totalUnsatisfied : Nat := unsatisfied.1
    let calls : List Dispatch := unsatisfied.2
    let agreement1 : Agreement :=
      { agreement with
          TotalFeedbacks := totalFeedbacks, TotalUnsatisfied := totalUnsatisfied,
          SatisfactionRate := ((totalFeedbacks - totalUnsatisfied : Nat) : ℚ) / (totalFeedbacks : ℚ),
          LastEvaluationAt := atTime }
    let agreements := service.Agreements.set aIndex agreement1
    match index agreements 0 with
    | .error e => ((.error e, w), calls)
    | .ok first =>
    let service1 : Service :=
      { service with
          Agreements := agreements,
          SatisfactionRate := minSatisfactionRate first.SatisfactionRate agreements,
          NumberOfEvaluations := service.NumberOfEvaluations + 1,
          LastEvaluationAt := atTime }
    match PutState ctx w (.simple sid) (.service service1) with
    | (.error _, w1) => ((.error .StorageError, w1), calls)
    | (.ok _, w1) =>
      let evaluation : Evaluation :=
        { DocType := "Evaluation", EvaluationID := eid, ServiceID := sid, AgreementID := aid,
          TxID := ctx.TxID, Hash := hash }
      let w2 := (PutState ctx w1 (.simple eid) (.evaluation evaluation)).2
      match CreateCompositeKey ctx evaluationIndex [evaluation.DocType, evaluation.EvaluationID] with
      | .error e => ((.error e, w2), calls)
      | .ok docEvaluationIndexKey =>
        match PutState ctx w2 docEvaluationIndexKey .indexEntry with
        | (.error e, w3) => ((.error e, w3), calls)
        | (.ok _, w3) => ((.ok service1, w3), calls)

/-! ## Invocations -/

/-- Modelled from the spec: the world state after an invocation.  The platform
applies the writes of an invocation that returned without error and discards
the pending write set of one that returned an error. -/
def persisted {α : Type} (w : World) : Except Failure α × World → World
  | (.ok _, w1) => w1
  | (.error _, _) => w

/-- An invocation is all-or-nothing: when it returns an error the world state
after it is the world state before it, and unless the error is a storage error
it has not even issued a write. -/
def AllOrNothing {α : Type} (w : World) (r : Except Failure α × World) : Prop :=
  ∀ e w1, r = (.error e, w1) → persisted w r = w ∧ (e ≠ .StorageError → w1 = w)

/-- An invocation of one of the operations that write to the world state. -/
inductive Operation where
  | call (c : Call)
  | DeleteService (id : String)
  | CreateOrUpdateInternalServiceAccessKey (token : String)

/-- The world state after one invocation, successful or not. -/
def Operation.run (ctx : TransactionContext) (w : World) : Operation → World
  | .call c => (c.invoke ctx w).getD w
  | .DeleteService id => persisted w (SmartContract.DeleteService ctx w id)
  | .CreateOrUpdateInternalServiceAccessKey token =>
    persisted w (SmartContract.CreateOrUpdateInternalServiceAccessKey ctx w token)

/-- The world state after a sequence of invocations, each with its own
transaction context. -/
def runOperations : World → List (TransactionContext × Operation) → World
  | w, [] => w
  | w, (ctx, op) :: rest => runOperations (op.run ctx w) rest

/-- The agreement ids of a stored service are pairwise distinct. -/
def UniqueIdsDocument (_key : Key) : Stored → Prop
  | .service s => (s.Agreements.map (fun a => a.AgreementID)).Nodup
  | _ => True

/-- The difference between two world states is one `Evaluation` record under
the key `eid`, with the given ids, the transaction id and the hash, one index
entry under the composite key of `eid`, and at most a service document under
the key `sid`. -/
def RecordsEvaluation (ctx : TransactionContext) (w w1 : World) (sid aid eid hash : String) :
    Prop :=
  w1 (.simple eid) =
    some (.evaluation { DocType := "Evaluation", EvaluationID := eid, ServiceID := sid,
                        AgreementID := aid, TxID := ctx.TxID, Hash := hash }) ∧
  w1 (.composite evaluationIndex ["Evaluation", eid]) = some .indexEntry ∧
  ∀ key, key ≠ .simple eid → key ≠ .composite evaluationIndex ["Evaluation", eid] →
    w1 key = w key ∨ (key = .simple sid ∧ ∃ s, w1 key = some (.service s))

/-! ## Further data of the worked examples -/

/-- A sauna agreement item whose `MaxFailures` was omitted. -/
def unlimitedSaunaItem : AgreementItem := { saunaItem with MaxFailures := 0 }

/-- The service `lowRatedService` after one more feedback, a satisfied one, at
the time `t2`. -/
def creditedService : Service :=
  lowRatedService.withFeedback 0 lowRatedAgreement (lowRatedAgreement.withFeedback true "t2")
    true "t2"

/-- The document an `Evaluation` record stored under the key `s` is read back
as by `ReadService`. -/
def hollowService : Service :=
  { DocType := "Evaluation", ServiceID := "s", SatisfactionRate := 0, RuleAbidingRate := 0,
    NumberOfEvaluations := 0, LastEvaluationAt := "", Agreements := [] }

/-- A transaction context whose store rejects a write under the empty key and
nothing else. -/
def strictContext : TransactionContext :=
  { TxID := "tx", GetStateErr := fun _ => false,
    PutStateErr := fun key => decide (key = .simple ""),
    DelStateErr := fun _ => false, CreateCompositeKeyErr := fun _ _ => false }

/-- The service `lowRatedService` after its agreement was given new terms: a
twin bed and one penalty rule. -/
def retermedService : Service :=
  { lowRatedService with
      Agreements :=
        [{ lowRatedAgreement with
             Category := "bed", Items := [plainItem "BE001" 1], HasPenaltyRule := true,
             PenaltyRules := [⟨"discount", 10⟩] }] }

/-- The world state that holds the shuttle service and an internal access key. -/
def keyedWorld : World :=
  (CreateOrUpdateInternalServiceAccessKey reliableContext (worldWith shuttleService) "token").2

/-- A penalty service that answers every request with status 200. -/
def acceptingService : PenaltyService := fun _ _ => some 200

/-- A penalty service that cannot be reached. -/
def unreachableService : PenaltyService := fun _ _ => none

/-- A transaction context in which no composite key can be built. -/
def brokenIndexContext : TransactionContext :=
  { TxID := "tx", GetStateErr := fun _ => false, PutStateErr := fun _ => false,
    DelStateErr := fun _ => false, CreateCompositeKeyErr := fun _ _ => true }

/-- A service is created, receives the agreements `a` and `b`, is refused a
second agreement `b` and loses the agreement `a`. -/
def registryOperations : List (TransactionContext × Operation) :=
  [(reliableContext, .call (.CreateService "s")),
   (reliableContext, .call (.AddAgreement "s" "a" "view" false (some []) (some []))),
   (reliableContext, .call (.AddAgreement "s" "b" "view" false (some []) (some []))),
   (reliableContext, .call (.AddAgreement "s" "b" "bed" false (some []) (some []))),
   (reliableContext, .call (.RemoveAgreement "s" "a"))]

/-- The service stored after `registryOperations`: only the agreement `b`, as it
was first added, is left. -/
def registryService : Service :=
  { DocType := "Service", ServiceID := "s", SatisfactionRate := 1, RuleAbidingRate := 1,
    NumberOfEvaluations := 0, LastEvaluationAt := "",
    Agreements := [newAgreement "b" "view" false [] []] }

/-- What a satisfaction evaluation of the agreement at `aIndex` leaves alone,
between the service read and the service written: every other agreement, the
rule-abiding side and the terms of the agreement, and the rule-abiding rate of
the service. -/
def SatisfactionFrame (service service1 : Service) (aIndex : Nat) : Prop :=
  ∃ agreement agreement1,
    index service.Agreements aIndex = .ok agreement ∧
    index service1.Agreements aIndex = .ok agreement1 ∧
    service1.Agreements.length = service.Agreements.length ∧
    (∀ j, j ≠ aIndex → index service1.Agreements j = index service.Agreements j) ∧
    agreement1.TotalRuleViolations = agreement.TotalRuleViolations ∧
    agreement1.TotalRuleViolationWithoutCompensations =
      agreement.TotalRuleViolationWithoutCompensations ∧
    agreement1.RuleAbidingRate = agreement.RuleAbidingRate ∧
    agreement1.AgreementID = agreement.AgreementID ∧
    agreement1.Category = agreement.Category ∧
    agreement1.Items = agreement.Items ∧
    agreement1.HasPenaltyRule = agreement.HasPenaltyRule ∧
    agreement1.PenaltyRules = agreement.PenaltyRules ∧
    service1.RuleAbidingRate = service.RuleAbidingRate

/-- What a rule-abiding update of the agreement at `aIndex` leaves alone,
between the service read and the service written: every other agreement, the
satisfaction side and the terms of the agreement, and the satisfaction rate of
the service. -/
def RuleAbidingFrame (service service1 : Service) (aIndex : Nat) : Prop :=
  ∃ agreement agreement1,
    index service.Agreements aIndex = .ok agreement ∧
    index service1.Agreements aIndex = .ok agreement1 ∧
    service1.Agreements.length = service.Agreements.length ∧
    (∀ j, j ≠ aIndex → index service1.Agreements j = index service.Agreements j) ∧
    agreement1.TotalFeedbacks = agreement.TotalFeedbacks ∧
    agreement1.TotalUnsatisfied = agreement.TotalUnsatisfied ∧
    agreement1.SatisfactionRate = agreement.SatisfactionRate ∧
    agreement1.AgreementID = agreement.AgreementID ∧
    agreement1.Category = agreement.Category ∧
    agreement1.Items = agreement.Items ∧
    agreement1.HasPenaltyRule = agreement.HasPenaltyRule ∧
    agreement1.PenaltyRules = agreement.PenaltyRules ∧
    service1.SatisfactionRate = service.SatisfactionRate

/-- The six codes that are keys of `ViewLevelMapping`. -/
def IsViewCode (code : String) : Prop :=
  code ∈ [AgreementItemCodeViewMountain, AgreementItemCodeViewCity,
    AgreementItemCodeViewGarden, AgreementItemCodeViewPool, AgreementItemCodeViewRiver,
    AgreementItemCodeViewSea]

instance (code : String) : Decidable (IsViewCode code) := by unfold IsViewCode; infer_instance

/-! # Theorems -/

/-! ## Rounding to `float64` -/

/-- A rational within a half of an integer rounds to it. -/
theorem roundNearestEven_of_abs_sub_lt (x : ℚ) (k : Int) (h : |x - k| < 1 / 2) :
    roundNearestEven x = k := by
  rw [abs_lt] at h
  obtain ⟨h1, h2⟩ := h
  unfold roundNearestEven
  by_cases hk : (k : ℚ) ≤ x
  · have hfloor : ⌊x⌋ = k := by
      rw [Int.floor_eq_iff]
      constructor
      · exact hk
      · linarith
    rw [hfloor, if_pos (by linarith)]
  · have hfloor : ⌊x⌋ = k - 1 := by
      rw [Int.floor_eq_iff]
      push_cast
      constructor
      · linarith
      · push_neg at hk
        linarith
    rw [hfloor]
    push_cast
    rw [if_neg (by linarith), if_pos (by linarith)]
    ring

/-- An integer rounds to itself. -/
theorem roundNearestEven_intCast (k : Int) : roundNearestEven (k : ℚ) = k :=
  roundNearestEven_of_abs_sub_lt _ k (by simp)

/-- Zero is a `float64`. -/
theorem float64_zero : float64 0 = 0 := by simp [float64]

/-- The binary exponent of a rational between two consecutive powers of two. -/
theorem log_eq_of_bounds (x : ℚ) (e : Int) (h1 : (2 : ℚ) ^ e ≤ |x|)
    (h2 : |x| < (2 : ℚ) ^ (e + 1)) : Int.log 2 |x| = e := by
  have hpos : (0 : ℚ) < |x| := lt_of_lt_of_le (by positivity) h1
  have ha : e ≤ Int.log 2 |x| := by
    rw [← Int.zpow_le_iff_le_log (by norm_num) hpos]
    exact_mod_cast h1
  have hb : Int.log 2 |x| < e + 1 := by
    rw [← Int.lt_zpow_iff_log_lt (by norm_num) hpos]
    exact_mod_cast h2
  omega

/-- The `float64` of a rational whose binary exponent is `e` and whose
significand is within a half of `k`. -/
theorem float64_eq_of_bounds (x : ℚ) (e k : Int) (h1 : (2 : ℚ) ^ e ≤ |x|)
    (h2 : |x| < (2 : ℚ) ^ (e + 1)) (hk : |x / 2 ^ (e - 52) - k| < 1 / 2) :
    float64 x = k * 2 ^ (e - 52) := by
  have hpos : (0 : ℚ) < |x| := lt_of_lt_of_le (by positivity) h1
  have hx : x ≠ 0 := abs_pos.mp hpos
  unfold float64
  rw [if_neg hx, log_eq_of_bounds x e h1 h2, roundNearestEven_of_abs_sub_lt _ k hk]

/-- An integer below `2^53` in magnitude is a `float64`. -/
theorem float64_intCast (k : Int) (h : |k| < 2 ^ 53) : float64 (k : ℚ) = k := by
  by_cases hk : k = 0
  · subst hk
    simp [float64]
  · have hx : (k : ℚ) ≠ 0 := by exact_mod_cast hk
    have hpos : (0 : ℚ) < |(k : ℚ)| := abs_pos.mpr hx
    have hlog : Int.log 2 |(k : ℚ)| < 53 := by
      rw [← Int.lt_zpow_iff_log_lt (by norm_num) hpos]
      have : |(k : ℚ)| < 2 ^ 53 := by exact_mod_cast h
      exact_mod_cast this
    obtain ⟨n, hn⟩ : ∃ n : ℕ, Int.log 2 |(k : ℚ)| - 52 = -(n : Int) :=
      ⟨(52 - Int.log 2 |(k : ℚ)|).toNat, by omega⟩
    unfold float64
    rw [if_neg hx, hn, zpow_neg, zpow_natCast, div_inv_eq_mul]
    have hcast : (k : ℚ) * 2 ^ n = ((k * 2 ^ n : Int) : ℚ) := by push_cast; ring
    rw [hcast, roundNearestEven_intCast]
    push_cast
    field_simp

/-- A duration of whole minutes has exactly that many minutes. -/
theorem minutes_of_whole (d : Duration) (k : Int) (hd : d.nanoseconds = k * 60000000000)
    (hk : |k| < 2 ^ 53) : d.Minutes = k := by
  unfold Duration.Minutes
  simp only [hd]
  rw [Int.mul_tdiv_cancel _ (by norm_num), Int.mul_tmod_left]
  simp only [Int.cast_zero, float64_zero, zero_div, add_zero]
  rw [float64_intCast k hk, float64_intCast k hk]

/-- Rounding does not go below the floor. -/
theorem floor_le_roundNearestEven (x : ℚ) : ⌊x⌋ ≤ roundNearestEven x := by
  unfold roundNearestEven
  split_ifs <;> omega

/-- Rounding does not go above the floor plus one. -/
theorem roundNearestEven_le_floor_add_one (x : ℚ) : roundNearestEven x ≤ ⌊x⌋ + 1 := by
  unfold roundNearestEven
  split_ifs <;> omega

/-- Rounding does not cross an integer below. -/
theorem le_roundNearestEven (x : ℚ) (k : Int) (h : (k : ℚ) ≤ x) : k ≤ roundNearestEven x :=
  le_trans (Int.le_floor.mpr h) (floor_le_roundNearestEven x)

/-- Rounding does not cross an integer above. -/
theorem roundNearestEven_le (x : ℚ) (k : Int) (h : x ≤ (k : ℚ)) : roundNearestEven x ≤ k := by
  rcases eq_or_lt_of_le h with heq | hlt
  · rw [heq, roundNearestEven_intCast]
  · have : ⌊x⌋ < k := Int.floor_lt.mpr hlt
    have := roundNearestEven_le_floor_add_one x
    omega

/-- The rounding of a positive rational stays between the powers of two that
enclose it. -/
theorem float64_pos_bounds (x : ℚ) (hx : 0 < x) :
    (2 : ℚ) ^ Int.log 2 x ≤ float64 x ∧ float64 x ≤ (2 : ℚ) ^ (Int.log 2 x + 1) := by
  have habs : |x| = x := abs_of_pos hx
  have hlo : (2 : ℚ) ^ Int.log 2 x ≤ x := by
    have := Int.zpow_log_le_self (b := 2) (by norm_num) hx
    exact_mod_cast this
  have hhi : x < (2 : ℚ) ^ (Int.log 2 x + 1) := by
    have := Int.lt_zpow_succ_log_self (b := 2) (by norm_num) x
    exact_mod_cast this
  have hu : (0 : ℚ) < 2 ^ (Int.log 2 x - 52) := by positivity
  unfold float64
  rw [if_neg (ne_of_gt hx), habs]
  have e1 : (2 : ℚ) ^ Int.log 2 x = ((2 ^ 52 : Int) : ℚ) * 2 ^ (Int.log 2 x - 52) := by
    rw [zpow_sub₀ (by norm_num)]
    push_cast
    field_simp
    norm_num
    ring
  have e2 : (2 : ℚ) ^ (Int.log 2 x + 1) = ((2 ^ 53 : Int) : ℚ) * 2 ^ (Int.log 2 x - 52) := by
    rw [zpow_sub₀ (by norm_num), zpow_add₀ (by norm_num)]
    push_cast
    field_simp
    ring
  constructor
  · rw [e1]
    apply mul_le_mul_of_nonneg_right _ hu.le
    have : (2 ^ 52 : Int) ≤ roundNearestEven (x / 2 ^ (Int.log 2 x - 52)) := by
      apply le_roundNearestEven
      rw [le_div_iff₀ hu, ← e1]
      exact hlo
    exact_mod_cast this
  · rw [e2]
    apply mul_le_mul_of_nonneg_right _ hu.le
    have : roundNearestEven (x / 2 ^ (Int.log 2 x - 52)) ≤ (2 ^ 53 : Int) := by
      apply roundNearestEven_le
      rw [div_le_iff₀ hu, ← e2]
      exact hhi.le
    exact_mod_cast this

/-- The rounding of a negative rational stays between the powers of two that
enclose it. -/
theorem float64_neg_bounds (x : ℚ) (hx : x < 0) :
    -(2 : ℚ) ^ (Int.log 2 (-x) + 1) ≤ float64 x ∧ float64 x ≤ -(2 : ℚ) ^ Int.log 2 (-x) := by
  have hx' : 0 < -x := by linarith
  have habs : |x| = -x := abs_of_neg hx
  have hlo : (2 : ℚ) ^ Int.log 2 (-x) ≤ -x := by
    have := Int.zpow_log_le_self (b := 2) (by norm_num) hx'
    exact_mod_cast this
  have hhi : -x < (2 : ℚ) ^ (Int.log 2 (-x) + 1) := by
    have := Int.lt_zpow_succ_log_self (b := 2) (by norm_num) (-x)
    exact_mod_cast this
  have hu : (0 : ℚ) < 2 ^ (Int.log 2 (-x) - 52) := by positivity
  unfold float64
  rw [if_neg (ne_of_lt hx), habs]
  have e1 : (2 : ℚ) ^ Int.log 2 (-x) = ((2 ^ 52 : Int) : ℚ) * 2 ^ (Int.log 2 (-x) - 52) := by
    rw [zpow_sub₀ (by norm_num)]
    push_cast
    field_simp
    norm_num
    ring
  have e2 : (2 : ℚ) ^ (Int.log 2 (-x) + 1) =
      ((2 ^ 53 : Int) : ℚ) * 2 ^ (Int.log 2 (-x) - 52) := by
    rw [zpow_sub₀ (by norm_num), zpow_add₀ (by norm_num)]
    push_cast
    field_simp
    ring
  constructor
  · rw [e2, ← neg_mul]
    apply mul_le_mul_of_nonneg_right _ hu.le
    have : (-(2 ^ 53) : Int) ≤ roundNearestEven (x / 2 ^ (Int.log 2 (-x) - 52)) := by
      apply le_roundNearestEven
      rw [le_div_iff₀ hu]
      push_cast
      rw [neg_mul]
      have := e2
      push_cast at this
      rw [← this]
      linarith
    exact_mod_cast this
  · rw [e1, ← neg_mul]
    apply mul_le_mul_of_nonneg_right _ hu.le
    have : roundNearestEven (x / 2 ^ (Int.log 2 (-x) - 52)) ≤ (-(2 ^ 52) : Int) := by
      apply roundNearestEven_le
      rw [div_le_iff₀ hu]
      push_cast
      rw [neg_mul]
      have := e1
      push_cast at this
      rw [← this]
      linarith
    exact_mod_cast this



/-- Rounding does not cross a power of two upwards in magnitude. -/
theorem float64_abs_le (x : ℚ) (n : Int) (h : |x| < (2 : ℚ) ^ n) : |float64 x| ≤ (2 : ℚ) ^ n := by
  rcases lt_trichotomy x 0 with hx | hx | hx
  · have hx' : 0 < -x := by linarith
    rw [abs_of_neg hx] at h
    have hlog : Int.log 2 (-x) < n := by
      rw [← Int.lt_zpow_iff_log_lt (by norm_num) hx']
      exact_mod_cast h
    obtain ⟨h1, h2⟩ := float64_neg_bounds x hx
    have h3 : (2 : ℚ) ^ (Int.log 2 (-x) + 1) ≤ 2 ^ n :=
      zpow_le_zpow_right₀ (by norm_num) (by omega)
    have h4 : (0 : ℚ) < 2 ^ Int.log 2 (-x) := by positivity
    rw [abs_le]
    constructor <;> linarith
  · subst hx
    rw [float64_zero, abs_zero]
    positivity
  · rw [abs_of_pos hx] at h
    have hlog : Int.log 2 x < n := by
      rw [← Int.lt_zpow_iff_log_lt (by norm_num) hx]
      exact_mod_cast h
    obtain ⟨h1, h2⟩ := float64_pos_bounds x hx
    have h3 : (2 : ℚ) ^ (Int.log 2 x + 1) ≤ 2 ^ n :=
      zpow_le_zpow_right₀ (by norm_num) (by omega)
    have h4 : (0 : ℚ) < 2 ^ Int.log 2 x := by positivity
    rw [abs_le]
    constructor <;> linarith

/-- Rounding does not cross a power of two downwards. -/
theorem le_float64_of_le (x : ℚ) (n : Int) (h : (2 : ℚ) ^ n ≤ x) : (2 : ℚ) ^ n ≤ float64 x := by
  have hx : 0 < x := lt_of_lt_of_le (by positivity) h
  have hlog : n ≤ Int.log 2 x := by
    rw [← Int.zpow_le_iff_le_log (by norm_num) hx]
    exact_mod_cast h
  have h3 : (2 : ℚ) ^ n ≤ 2 ^ Int.log 2 x := zpow_le_zpow_right₀ (by norm_num) hlog
  exact le_trans h3 (float64_pos_bounds x hx).1

/-- Rounding does not cross the negative of a power of two upwards. -/
theorem float64_le_of_le (x : ℚ) (n : Int) (h : x ≤ -(2 : ℚ) ^ n) : float64 x ≤ -(2 : ℚ) ^ n := by
  have hp : (0 : ℚ) < 2 ^ n := by positivity
  have hx : x < 0 := by linarith
  have hx' : 0 < -x := by linarith
  have hlog : n ≤ Int.log 2 (-x) := by
    rw [← Int.zpow_le_iff_le_log (by norm_num) hx']
    have : (2 : ℚ) ^ n ≤ -x := by linarith
    exact_mod_cast this
  have h3 : (2 : ℚ) ^ n ≤ 2 ^ Int.log 2 (-x) := zpow_le_zpow_right₀ (by norm_num) hlog
  have := (float64_neg_bounds x hx).2
  linarith

/-- For a `float64` number `m` below `2^53` in magnitude, the comparisons with
an integer and with its conversion to `float64` agree. -/
theorem float64_threshold (m : ℚ) (n : Int) (hm : |m| < 2 ^ 53) :
    (m ≤ float64 (n : ℚ) ↔ m ≤ (n : ℚ)) ∧ (float64 (n : ℚ) ≤ m ↔ (n : ℚ) ≤ m) := by
  rw [abs_lt] at hm
  by_cases h1 : |n| < 2 ^ 53
  · rw [float64_intCast n h1]
    exact ⟨Iff.rfl, Iff.rfl⟩
  · by_cases h2 : 0 ≤ n
    · have hn : (2 : ℚ) ^ (53 : Int) ≤ (n : ℚ) := by
        have : (2 : Int) ^ 53 ≤ n := by
          rw [abs_of_nonneg h2] at h1
          omega
        have h3 : ((2 ^ 53 : Int) : ℚ) ≤ (n : ℚ) := by exact_mod_cast this
        norm_num at h3 ⊢
        exact h3
      have hf := le_float64_of_le _ 53 hn
      have e : (2 : ℚ) ^ (53 : Int) = 2 ^ 53 := by norm_num
      rw [e] at hn hf
      constructor
      · exact ⟨fun _ => by linarith, fun _ => by linarith⟩
      · exact ⟨fun h => by linarith, fun h => by linarith⟩
    · have hn : (n : ℚ) ≤ -(2 : ℚ) ^ (53 : Int) := by
        have : n ≤ -(2 : Int) ^ 53 := by
          rw [abs_of_neg (by omega)] at h1
          omega
        have h3 : (n : ℚ) ≤ ((-(2 ^ 53) : Int) : ℚ) := by exact_mod_cast this
        norm_num at h3 ⊢
        exact h3
      have hf := float64_le_of_le _ 53 hn
      have e : (2 : ℚ) ^ (53 : Int) = 2 ^ 53 := by norm_num
      rw [e] at hn hf
      constructor
      · exact ⟨fun h => by linarith, fun h => by linarith⟩
      · exact ⟨fun _ => by linarith, fun _ => by linarith⟩

/-- Bounds of the whole minutes and of the remaining nanoseconds of a
duration. -/
theorem tdiv_tmod_bounds (d : Int) (h1 : minDuration ≤ d) (h2 : d ≤ maxDuration) :
    |d.tdiv 60000000000| < 2 ^ 53 ∧ |d.tmod 60000000000| < 2 ^ 53 ∧
    |d.tdiv 60000000000| ≤ 153722867 ∧ |d.tmod 60000000000| < 60000000000 := by
  unfold minDuration at h1
  unfold maxDuration at h2
  have hq : |d.tdiv 60000000000| ≤ 153722867 ∧ |d.tmod 60000000000| < 60000000000 := by
    rcases le_or_lt 0 d with hd | hd
    · rw [Int.tdiv_eq_ediv hd (by norm_num), Int.tmod_eq_emod hd (by norm_num)]
      rw [abs_le, abs_lt]
      omega
    · obtain ⟨k, rfl⟩ : ∃ k : Int, d = -k := ⟨-d, by omega⟩
      have hk : 0 ≤ k := by omega
      rw [Int.tmod_def, Int.neg_tdiv, Int.tdiv_eq_ediv hk (by norm_num)]
      rw [abs_le, abs_lt]
      omega
  obtain ⟨ha, hb⟩ := hq
  refine ⟨?_, ?_, ha, hb⟩
  · exact lt_of_le_of_lt ha (by norm_num)
  · exact lt_trans hb (by norm_num)

/-- The result of `Time.Sub` is a duration of 64 bits. -/
theorem Sub_bounds (t u : Time) :
    minDuration ≤ (t.Sub u).nanoseconds ∧ (t.Sub u).nanoseconds ≤ maxDuration := by
  unfold Time.Sub
  split_ifs with h1 h2
  · simp [minDuration, maxDuration]
  · simp [minDuration, maxDuration]
  · simp only
    omega

/-- The number of minutes of a duration fits well within the 53-bit
significand. -/
theorem minutes_abs_lt (d : Duration) (h1 : minDuration ≤ d.nanoseconds)
    (h2 : d.nanoseconds ≤ maxDuration) : |d.Minutes| < 2 ^ 53 := by
  obtain ⟨ha, hb, hc, hd⟩ := tdiv_tmod_bounds d.nanoseconds h1 h2
  unfold Duration.Minutes
  simp only
  rw [float64_intCast _ ha, float64_intCast _ hb]
  have hq : |((d.nanoseconds.tmod 60000000000 : Int) : ℚ) / 60000000000| < (2 : ℚ) ^ (0 : Int) := by
    have : |((d.nanoseconds.tmod 60000000000 : Int) : ℚ)| < 60000000000 := by exact_mod_cast hd
    rw [abs_div, zpow_zero, div_lt_one (by norm_num)]
    simpa using this
  have hq2 := float64_abs_le _ 0 hq
  rw [zpow_zero] at hq2
  have hs : |((d.nanoseconds.tdiv 60000000000 : Int) : ℚ) +
      float64 (((d.nanoseconds.tmod 60000000000 : Int) : ℚ) / 60000000000)| < (2 : ℚ) ^ (28 : Int) := by
    have : |((d.nanoseconds.tdiv 60000000000 : Int) : ℚ)| ≤ 153722867 := by exact_mod_cast hc
    have h3 := abs_add ((d.nanoseconds.tdiv 60000000000 : Int) : ℚ)
      (float64 (((d.nanoseconds.tmod 60000000000 : Int) : ℚ) / 60000000000))
    have : (153722867 : ℚ) + 1 < (2 : ℚ) ^ (28 : Int) := by norm_num
    linarith
  have := float64_abs_le _ 28 hs
  have h5 : (2 : ℚ) ^ (28 : Int) < 2 ^ 53 := by norm_num
  linarith

/-- The number of minutes between two times fits well within the 53-bit
significand. -/
theorem minutes_sub_abs_lt (t u : Time) : |(t.Sub u).Minutes| < 2 ^ 53 :=
  minutes_abs_lt _ (Sub_bounds t u).1 (Sub_bounds t u).2

/-- A number of minutes is at most the conversion of an integer exactly when
it is at most the integer. -/
theorem minutes_le_float64 (t u : Time) (n : Int) :
    (t.Sub u).Minutes ≤ float64 (n : ℚ) ↔ (t.Sub u).Minutes ≤ (n : ℚ) :=
  (float64_threshold _ n (minutes_sub_abs_lt t u)).1

/-- A number of minutes is at least the conversion of an integer exactly when
it is at least the integer. -/
theorem float64_le_minutes (t u : Time) (n : Int) :
    float64 (n : ℚ) ≤ (t.Sub u).Minutes ↔ (n : ℚ) ≤ (t.Sub u).Minutes :=
  (float64_threshold _ n (minutes_sub_abs_lt t u)).2

/-- A number of minutes exceeds the conversion of an integer exactly when it
exceeds the integer. -/
theorem float64_lt_minutes (t u : Time) (n : Int) :
    float64 (n : ℚ) < (t.Sub u).Minutes ↔ (n : ℚ) < (t.Sub u).Minutes := by
  rw [← not_le, ← not_le, minutes_le_float64]

/-- A number of minutes is below the conversion of an integer exactly when it
is below the integer. -/
theorem minutes_lt_float64 (t u : Time) (n : Int) :
    (t.Sub u).Minutes < float64 (n : ℚ) ↔ (t.Sub u).Minutes < (n : ℚ) := by
  rw [← not_le, ← not_le, float64_le_minutes]

/-- The thresholds of the worked examples are `float64` numbers. -/
theorem float64_examples :
    float64 5 = 5 ∧ float64 10 = 10 ∧ float64 15 = 15 ∧ float64 262144 = 262144 ∧
      float64 262145 = 262145 := by
  refine ⟨?_, ?_, ?_, ?_, ?_⟩
  · simpa using float64_intCast 5 (by norm_num)
  · simpa using float64_intCast 10 (by norm_num)
  · simpa using float64_intCast 15 (by norm_num)
  · simpa using float64_intCast 262144 (by norm_num)
  · simpa using float64_intCast 262145 (by norm_num)

/-- Three minutes. -/
theorem minutes_three : Duration.Minutes ⟨180000000000⟩ = 3 := by
  simpa using minutes_of_whole ⟨180000000000⟩ 3 (by norm_num) (by norm_num)

/-- Five minutes. -/
theorem minutes_five : Duration.Minutes ⟨300000000000⟩ = 5 := by
  simpa using minutes_of_whole ⟨300000000000⟩ 5 (by norm_num) (by norm_num)

/-- Fifteen minutes. -/
theorem minutes_fifteen : Duration.Minutes ⟨900000000000⟩ = 15 := by
  simpa using minutes_of_whole ⟨900000000000⟩ 15 (by norm_num) (by norm_num)

/-- Twenty minutes. -/
theorem minutes_twenty : Duration.Minutes ⟨1200000000000⟩ = 20 := by
  simpa using minutes_of_whole ⟨1200000000000⟩ 20 (by norm_num) (by norm_num)

/-- One nanosecond, in minutes, as a `float64`. -/
theorem float64_nanosecond :
    float64 (1 / 60000000000) = 5158083497022418 * 2 ^ (-88 : Int) := by
  have h := float64_eq_of_bounds (1 / 60000000000) (-36) 5158083497022418
    (by norm_num [abs_of_pos]) (by norm_num [abs_of_pos]) (by norm_num [abs_lt])
  norm_num at h ⊢
  exact h

/-- One nanosecond more than `2^18` minutes is rounded down to `2^18` minutes. -/
theorem minutes_nanosecond_over : Duration.Minutes ⟨15728640000000001⟩ = 262144 := by
  have hdiv : (15728640000000001 : Int).tdiv 60000000000 = 262144 := by decide
  have hmod : (15728640000000001 : Int).tmod 60000000000 = 1 := by decide
  unfold Duration.Minutes
  simp only [hdiv, hmod]
  rw [float64_intCast 262144 (by norm_num), float64_intCast 1 (by norm_num)]
  have hq : float64 (((1 : Int) : ℚ) / 60000000000) = 5158083497022418 * 2 ^ (-88 : Int) := by
    have := float64_nanosecond
    simpa using this
  rw [hq]
  have h := float64_eq_of_bounds
    (((262144 : Int) : ℚ) + 5158083497022418 * 2 ^ (-88 : Int)) 18 4503599627370496
    (by norm_num [abs_of_pos]) (by norm_num [abs_of_pos]) (by norm_num [abs_lt])
  rw [h]
  norm_num

/-- One nanosecond less than `2^18 + 1` minutes is rounded up to `2^18 + 1`
minutes. -/
theorem minutes_nanosecond_under : Duration.Minutes ⟨15728699999999999⟩ = 262145 := by
  have hdiv : (15728699999999999 : Int).tdiv 60000000000 = 262144 := by decide
  have hmod : (15728699999999999 : Int).tmod 60000000000 = 59999999999 := by decide
  unfold Duration.Minutes
  simp only [hdiv, hmod]
  rw [float64_intCast 262144 (by norm_num), float64_intCast 59999999999 (by norm_num)]
  have hq : float64 (((59999999999 : Int) : ℚ) / 60000000000) =
      9007199254590872 * 2 ^ (-53 : Int) := by
    have h := float64_eq_of_bounds (((59999999999 : Int) : ℚ) / 60000000000) (-1)
      9007199254590872
      (by norm_num [abs_of_pos]) (by norm_num [abs_of_pos]) (by norm_num [abs_lt])
    rw [h]
    norm_num
  rw [hq]
  have h := float64_eq_of_bounds
    (((262144 : Int) : ℚ) + 9007199254590872 * 2 ^ (-53 : Int)) 18 4503616807239680
    (by norm_num [abs_of_pos]) (by norm_num [abs_of_pos]) (by norm_num [abs_lt])
  rw [h]
  norm_num

/-! ## Airport shuttle -/

/-- C4 as amended: for airport-shuttle evidence whose status is none of canceled,
not_served, waiting_time_exceeded, driver_waiting, in_service, and an agreement
with a first item and at least three penalty rules, with delay the `float64`
number of minutes that `Duration.Minutes` returns for
`DriverArriveAt.Sub(PickUpTime)`: the verdict is satisfied without penalty rule
when delay <= CustomerShortWaitTime, unsatisfied with `PenaltyRules[1]` when
CustomerShortWaitTime < delay <= CustomerLongWaitTime, and unsatisfied with
`PenaltyRules[2]` when delay exceeds both. -/
theorem VerifyAirportShuttleAgreement_completed (a : Agreement) (data : EvaluationData)
    (item : AgreementItem) (items : List AgreementItem)
    (p0 p1 p2 : PenaltyRule) (rules : List PenaltyRule)
    (hcode : data.Code = AgreementItemCodeServiceAirportShuttle)
    (hcanceled : data.Status ≠ AirportShuttleStatusCanceled)
    (hnotserved : data.Status ≠ AirportShuttleStatusNotServed)
    (hexceeded : data.Status ≠ AirportShuttleStatusWaitingTimeExceeded)
    (hwaiting : data.Status ≠ AirportShuttleStatusDriverWaiting)
    (hinservice : data.Status ≠ AirportShuttleStatusInService)
    (hitems : a.Items = item :: items)
    (hrules : a.PenaltyRules = p0 :: p1 :: p2 :: rules) :
    ((data.DriverArriveAt.Sub data.PickUpTime).Minutes ≤ (item.CustomerShortWaitTime : ℚ) →
      VerifyAirportShuttleAgreement a data =
        .ok { Satisfied := true, PenaltyRule := none, FailureReason := "" }) ∧
    ((item.CustomerShortWaitTime : ℚ) < (data.DriverArriveAt.Sub data.PickUpTime).Minutes →
      (data.DriverArriveAt.Sub data.PickUpTime).Minutes ≤ (item.CustomerLongWaitTime : ℚ) →
      VerifyAirportShuttleAgreement a data =
        .ok { Satisfied := false, PenaltyRule := some p1,
              FailureReason := "the driver came to pick up the passenger late" }) ∧
    ((item.CustomerShortWaitTime : ℚ) < (data.DriverArriveAt.Sub data.PickUpTime).Minutes →
      (item.CustomerLongWaitTime : ℚ) < (data.DriverArriveAt.Sub data.PickUpTime).Minutes →
      VerifyAirportShuttleAgreement a data =
        .ok { Satisfied := false, PenaltyRule := some p2,
              FailureReason := "the driver came to pick up the passenger late" }) := by
  refine ⟨fun h => ?_, fun h1 h2 => ?_, fun h1 h2 => ?_⟩
  · simp [VerifyAirportShuttleAgreement, hcode, hcanceled, hnotserved, hexceeded, hwaiting,
      hinservice, hitems, index, minutes_le_float64, h]
  · simp [VerifyAirportShuttleAgreement, hcode, hcanceled, hnotserved, hexceeded, hwaiting,
      hinservice, hitems, hrules, index, minutes_le_float64, h2, not_le.mpr h1]
  · simp [VerifyAirportShuttleAgreement, hcode, hcanceled, hnotserved, hexceeded, hwaiting,
      hinservice, hitems, hrules, index, minutes_le_float64, not_le.mpr h1, not_le.mpr h2]

/-- Witness of C4: pickup 10:00, short wait 10, long wait 15; arrival 10:05 is
satisfied and arrival 10:20 is unsatisfied with the third penalty rule. -/
theorem VerifyAirportShuttleAgreement_completed_witness :
    VerifyAirportShuttleAgreement (sampleAgreement "service" [shuttleItem])
        (shuttleRide "completed" 600 605 0) =
      .ok { Satisfied := true, PenaltyRule := none, FailureReason := "" } ∧
    VerifyAirportShuttleAgreement (sampleAgreement "service" [shuttleItem])
        (shuttleRide "completed" 600 620 0) =
      .ok { Satisfied := false, PenaltyRule := some ⟨"upgrade_level", 0⟩,
            FailureReason := "the driver came to pick up the passenger late" } :=
  ⟨(VerifyAirportShuttleAgreement_completed (sampleAgreement "service" [shuttleItem])
      (shuttleRide "completed" 600 605 0) shuttleItem []
      ⟨"discount", 10⟩ ⟨"discount", 20⟩ ⟨"upgrade_level", 0⟩ []
      (by decide) (by decide) (by decide) (by decide) (by decide) (by decide) rfl rfl).1
      (by norm_num [shuttleRide, shuttleItem, Time.Sub, minutes_three, minutes_five,
        minutes_fifteen, minutes_twenty, maxDuration, minDuration]),
   (VerifyAirportShuttleAgreement_completed (sampleAgreement "service" [shuttleItem])
      (shuttleRide "completed" 600 620 0) shuttleItem []
      ⟨"discount", 10⟩ ⟨"discount", 20⟩ ⟨"upgrade_level", 0⟩ []
      (by decide) (by decide) (by decide) (by decide) (by decide) (by decide) rfl rfl).2.2
      (by norm_num [shuttleRide, shuttleItem, Time.Sub, minutes_three, minutes_five,
        minutes_fifteen, minutes_twenty, maxDuration, minDuration])
      (by norm_num [shuttleRide, shuttleItem, Time.Sub, minutes_three, minutes_five,
        minutes_fifteen, minutes_twenty, maxDuration, minDuration])⟩

/-- Counterexample to C4 as stated: waiting times of 262144 minutes and a driver
who arrives 262144 minutes and one nanosecond after the pick-up time.  The exact
delay exceeds CustomerShortWaitTime and CustomerLongWaitTime, yet the verdict is
satisfied: `Duration.Minutes` rounds the delay to 262144. -/
theorem VerifyAirportShuttleAgreement_delay_rounded_down :
    (patientShuttleItem.CustomerShortWaitTime : ℚ) <
      exactMinutes (shuttleRideAt "completed" 15728640000000001 0).DriverArriveAt
        (shuttleRideAt "completed" 15728640000000001 0).PickUpTime ∧
    (patientShuttleItem.CustomerLongWaitTime : ℚ) <
      exactMinutes (shuttleRideAt "completed" 15728640000000001 0).DriverArriveAt
        (shuttleRideAt "completed" 15728640000000001 0).PickUpTime ∧
    VerifyAirportShuttleAgreement (sampleAgreement "service" [patientShuttleItem])
        (shuttleRideAt "completed" 15728640000000001 0) =
      .ok { Satisfied := true, PenaltyRule := none, FailureReason := "" } := by
  refine ⟨?_, ?_, ?_⟩
  · norm_num [patientShuttleItem, shuttleRideAt, shuttleRide, exactMinutes]
  · norm_num [patientShuttleItem, shuttleRideAt, shuttleRide, exactMinutes]
  · simp [VerifyAirportShuttleAgreement, sampleAgreement, patientShuttleItem, shuttleItem,
      shuttleRideAt, shuttleRide, index, AgreementItemCodeServiceAirportShuttle,
      AirportShuttleStatusDriverWaiting, AirportShuttleStatusInService,
      AirportShuttleStatusCanceled, AirportShuttleStatusNotServed,
      AirportShuttleStatusWaitingTimeExceeded, Time.Sub, maxDuration, minDuration,
      minutes_nanosecond_over, float64_examples]

/-- C5 as amended: for airport-shuttle evidence with status waiting_time_exceeded
and an agreement with a first item and at least one penalty rule, the verdict is
satisfied without penalty rule exactly when the `float64` number of minutes that
`Duration.Minutes` returns for `DriverNotifyCustomerDoNotShowUpAt.Sub(PickUpTime)`
exceeds DriverMaxWaitTime and the one it returns for
`DriverArriveAt.Sub(PickUpTime)` is at most CustomerShortWaitTime; otherwise it
is unsatisfied with `PenaltyRules[0]`. -/
theorem VerifyAirportShuttleAgreement_waiting_time_exceeded (a : Agreement)
    (data : EvaluationData) (item : AgreementItem) (items : List AgreementItem)
    (p0 : PenaltyRule) (rules : List PenaltyRule)
    (hcode : data.Code = AgreementItemCodeServiceAirportShuttle)
    (hstatus : data.Status = AirportShuttleStatusWaitingTimeExceeded)
    (hitems : a.Items = item :: items)
    (hrules : a.PenaltyRules = p0 :: rules) :
    VerifyAirportShuttleAgreement a data =
      if (data.DriverNotifyCustomerDoNotShowUpAt.Sub data.PickUpTime).Minutes
            > (item.DriverMaxWaitTime : ℚ) ∧
          (data.DriverArriveAt.Sub data.PickUpTime).Minutes
            ≤ (item.CustomerShortWaitTime : ℚ)
      then .ok { Satisfied := true, PenaltyRule := none, FailureReason := "" }
      else .ok { Satisfied := false, PenaltyRule := some p0,
                 FailureReason := "the driver came to pick up the passenger late" } := by
  have h1 : ¬ (AirportShuttleStatusWaitingTimeExceeded = AirportShuttleStatusDriverWaiting ∨
      AirportShuttleStatusWaitingTimeExceeded = AirportShuttleStatusInService) := by decide
  have h2 : AirportShuttleStatusWaitingTimeExceeded ≠ AirportShuttleStatusCanceled := by decide
  have h3 : AirportShuttleStatusWaitingTimeExceeded ≠ AirportShuttleStatusNotServed := by decide
  simp only [VerifyAirportShuttleAgreement, hcode, hstatus, hitems, hrules, index, ne_eq,
    not_true_eq_false, if_false, if_neg h1, if_neg h2, if_neg h3, if_true,
    List.get?_cons_zero, float64_lt_minutes, minutes_le_float64]

/-- Witness of C5: pickup 10:00, no-show notice 10:20, arrival 10:05 is
satisfied; with the notice at 10:03 the verdict is unsatisfied with the first
penalty rule. -/
theorem VerifyAirportShuttleAgreement_waiting_time_exceeded_witness :
    VerifyAirportShuttleAgreement (sampleAgreement "service" [shuttleItem])
        (shuttleRide "waiting_time_exceeded" 600 605 620) =
      .ok { Satisfied := true, PenaltyRule := none, FailureReason := "" } ∧
    VerifyAirportShuttleAgreement (sampleAgreement "service" [shuttleItem])
        (shuttleRide "waiting_time_exceeded" 600 605 603) =
      .ok { Satisfied := false, PenaltyRule := some ⟨"discount", 10⟩,
            FailureReason := "the driver came to pick up the passenger late" } := by
  constructor
  · rw [VerifyAirportShuttleAgreement_waiting_time_exceeded
      (sampleAgreement "service" [shuttleItem]) (shuttleRide "waiting_time_exceeded" 600 605 620)
      shuttleItem [] ⟨"discount", 10⟩ [⟨"discount", 20⟩, ⟨"upgrade_level", 0⟩] rfl rfl rfl rfl]
    norm_num [shuttleRide, shuttleItem, Time.Sub, minutes_three, minutes_five,
      minutes_fifteen, minutes_twenty, maxDuration, minDuration]
  · rw [VerifyAirportShuttleAgreement_waiting_time_exceeded
      (sampleAgreement "service" [shuttleItem]) (shuttleRide "waiting_time_exceeded" 600 605 603)
      shuttleItem [] ⟨"discount", 10⟩ [⟨"discount", 20⟩, ⟨"upgrade_level", 0⟩] rfl rfl rfl rfl]
    norm_num [shuttleRide, shuttleItem, Time.Sub, minutes_three, minutes_five,
      minutes_fifteen, minutes_twenty, maxDuration, minDuration]

/-- Counterexample to C5 as stated: DriverMaxWaitTime of 262144 minutes, a
no-show notice 262144 minutes and one nanosecond after the pick-up time, and a
driver who arrived at the pick-up time.  The exact minutes of the notice exceed
DriverMaxWaitTime and the arrival is within CustomerShortWaitTime, yet the
verdict is unsatisfied with the first penalty rule: `Duration.Minutes` rounds
the minutes of the notice to 262144. -/
theorem VerifyAirportShuttleAgreement_notice_rounded_down :
    (patientShuttleItem.DriverMaxWaitTime : ℚ) <
      exactMinutes
        (shuttleRideAt "waiting_time_exceeded" 0 15728640000000001).DriverNotifyCustomerDoNotShowUpAt
        (shuttleRideAt "waiting_time_exceeded" 0 15728640000000001).PickUpTime ∧
    exactMinutes (shuttleRideAt "waiting_time_exceeded" 0 15728640000000001).DriverArriveAt
        (shuttleRideAt "waiting_time_exceeded" 0 15728640000000001).PickUpTime ≤
      (patientShuttleItem.CustomerShortWaitTime : ℚ) ∧
    VerifyAirportShuttleAgreement (sampleAgreement "service" [patientShuttleItem])
        (shuttleRideAt "waiting_time_exceeded" 0 15728640000000001) =
      .ok { Satisfied := false, PenaltyRule := some ⟨"discount", 10⟩,
            FailureReason := "the driver came to pick up the passenger late" } := by
  refine ⟨?_, ?_, ?_⟩
  · norm_num [patientShuttleItem, shuttleRideAt, shuttleRide, exactMinutes]
  · norm_num [patientShuttleItem, shuttleRideAt, shuttleRide, exactMinutes]
  · simp [VerifyAirportShuttleAgreement, sampleAgreement, patientShuttleItem, shuttleItem,
      shuttleRideAt, shuttleRide, index, AgreementItemCodeServiceAirportShuttle,
      AirportShuttleStatusDriverWaiting, AirportShuttleStatusInService,
      AirportShuttleStatusCanceled, AirportShuttleStatusNotServed,
      AirportShuttleStatusWaitingTimeExceeded, Time.Sub, maxDuration, minDuration,
      minutes_nanosecond_over, float64_examples]

/-! ## Sauna -/

/-- The order used by the sort is the order of the request times. -/
theorem requestOrder_iff (x y : SaunaRequest) :
    (y.RequestAt.Before x.RequestAt = false) ↔ timeLE x.RequestAt y.RequestAt := by
  simp [Time.Before, timeLE]

/-- In the sorted request list the failed requests appear in ascending order of time. -/
theorem failed_sortRequests (requests : List SaunaRequest) :
    ((sortRequests requests).filter (fun r => r.Status = SaunaRequestStatusFail)).map
      (fun r => r.RequestAt) = failureTimes requests := by
  apply List.eq_of_perm_of_sorted (r := timeLE)
  · refine List.Perm.trans ?_ (List.perm_insertionSort timeLE _).symm
    exact ((List.perm_insertionSort _ requests).filter _).map _
  · have h := List.sorted_insertionSort
      (fun x y : SaunaRequest => y.RequestAt.Before x.RequestAt = false) requests
    have h2 := List.Pairwise.filter (fun r => r.Status = SaunaRequestStatusFail) h
    exact List.Pairwise.map _ (fun x y hxy => (requestOrder_iff x y).mp hxy) h2
  · exact List.sorted_insertionSort timeLE _

/-- The ascending failure times do not depend on the order of the requests. -/
theorem failureTimes_perm (r1 r2 : List SaunaRequest) (h : r1.Perm r2) :
    failureTimes r1 = failureTimes r2 := by
  apply List.eq_of_perm_of_sorted (r := timeLE)
  · refine List.Perm.trans (List.perm_insertionSort timeLE _) ?_
    refine List.Perm.trans ?_ (List.perm_insertionSort timeLE _).symm
    exact (h.filter _).map _
  · exact List.sorted_insertionSort timeLE _
  · exact List.sorted_insertionSort timeLE _

/-- The scan, begun below the threshold, counts the qualifying gaps of the failed
requests that follow the latest failure. -/
theorem saunaScan_eq (a : Agreement) (item : AgreementItem) (items : List AgreementItem)
    (hitems : a.Items = item :: items) (requests : List SaunaRequest) :
    ∀ (idx : Option Time) (numFailures : Int), numFailures < item.MaxFailures →
      saunaScan a idx numFailures requests =
        if numFailures + (qualifyingGaps item.MinTimeBetween2Failures
            (idx.toList ++ (requests.filter (fun r => r.Status = SaunaRequestStatusFail)).map
              (fun r => r.RequestAt)) : Int) ≥ item.MaxFailures
        then saunaUnsatisfied a
        else .ok { Satisfied := true, PenaltyRule := none, FailureReason := "" } := by
  induction requests with
  | nil =>
    intro idx n hn
    have h0 : qualifyingGaps item.MinTimeBetween2Failures idx.toList = 0 := by
      cases idx <;> simp [qualifyingGaps]
    simp [saunaScan, h0, not_le.mpr hn]
  | cons req rest ih =>
    intro idx n hn
    by_cases hfail : req.Status = SaunaRequestStatusFail
    · cases idx with
      | none =>
        have := ih (some req.RequestAt) n hn
        simp only [Option.toList, List.singleton_append] at this
        simp [saunaScan, hfail, hitems, index, not_le.mpr hn, this]
      | some previous =>
        by_cases hgap : (req.RequestAt.Sub previous).Minutes ≥ (item.MinTimeBetween2Failures : ℚ)
        · by_cases hmax : n + 1 ≥ item.MaxFailures
          · have hq : n + ((qualifyingGaps item.MinTimeBetween2Failures
                (previous :: req.RequestAt :: (rest.filter
                  (fun r => r.Status = SaunaRequestStatusFail)).map (fun r => r.RequestAt)) : Nat)
                  : Int) ≥ item.MaxFailures := by
              simp only [qualifyingGaps, if_pos hgap]
              push_cast
              omega
            simp only [Option.toList, List.singleton_append, List.filter_cons, hfail,
              decide_True, if_true, List.map_cons]
            rw [if_pos hq]
            simp [saunaScan, hfail, hitems, index, float64_le_minutes, hgap, hmax]
          · have := ih (some req.RequestAt) (n + 1) (by omega)
            simp only [Option.toList, List.singleton_append] at this
            simp only [Option.toList, List.singleton_append, List.filter_cons, hfail,
              decide_True, if_true, List.map_cons, qualifyingGaps, if_pos hgap]
            simp only [saunaScan, hfail, hitems, index, List.get?_cons_zero, if_true,
              float64_le_minutes, if_pos hgap, if_neg hmax, this]
            push_cast
            simp only [add_assoc]
        · have := ih (some req.RequestAt) n hn
          simp only [Option.toList, List.singleton_append] at this
          simp only [Option.toList, List.singleton_append, List.filter_cons, hfail,
            decide_True, if_true, List.map_cons, qualifyingGaps, if_neg hgap]
          simp only [saunaScan, hfail, hitems, index, List.get?_cons_zero, if_true,
            float64_le_minutes, if_neg hgap, if_neg (not_le.mpr hn), this]
          simp
    · have := ih idx n hn
      simp [saunaScan, hfail, hitems, index, not_le.mpr hn, this]

/-- Without agreement items the scan panics on the first request. -/
theorem saunaScan_no_items (a : Agreement) (hitems : a.Items = [])
    (idx : Option Time) (numFailures : Int) (requests : List SaunaRequest) :
    saunaScan a idx numFailures requests =
      if requests = [] then .ok { Satisfied := true, PenaltyRule := none, FailureReason := "" }
      else .error .IndexOutOfRange := by
  cases requests with
  | nil => simp [saunaScan]
  | cons req rest =>
    by_cases hfail : req.Status = SaunaRequestStatusFail
    · cases idx <;> simp [saunaScan, hfail, hitems, index]
    · simp [saunaScan, hfail, hitems, index]

/-- At or above the threshold the scan stops at the first request. -/
theorem saunaScan_at_threshold (a : Agreement) (item : AgreementItem)
    (items : List AgreementItem) (hitems : a.Items = item :: items)
    (idx : Option Time) (numFailures : Int) (hn : item.MaxFailures ≤ numFailures)
    (requests : List SaunaRequest) :
    saunaScan a idx numFailures requests =
      if requests = [] then .ok { Satisfied := true, PenaltyRule := none, FailureReason := "" }
      else saunaUnsatisfied a := by
  cases requests with
  | nil => simp [saunaScan]
  | cons req rest =>
    have h1 : item.MaxFailures ≤ numFailures + 1 := by omega
    by_cases hfail : req.Status = SaunaRequestStatusFail
    · cases idx with
      | none => simp [saunaScan, hfail, hitems, index, hn]
      | some previous =>
        by_cases hgap : (req.RequestAt.Sub previous).Minutes ≥ (item.MinTimeBetween2Failures : ℚ)
        · simp only [saunaScan, hfail, hitems, index, List.get?_cons_zero, if_true,
            float64_le_minutes, if_pos hgap]
          simp [h1]
        · simp only [saunaScan, hfail, hitems, index, List.get?_cons_zero, if_true,
            float64_le_minutes, if_neg hgap]
          simp [hn]
    · simp [saunaScan, hfail, hitems, index, hn]

/-- Sorting keeps emptiness. -/
theorem sortRequests_eq_nil_iff (requests : List SaunaRequest) :
    sortRequests requests = [] ↔ requests = [] := by
  have h := (List.perm_insertionSort
    (fun x y : SaunaRequest => y.RequestAt.Before x.RequestAt = false) requests)
  constructor
  · intro h0
    rw [sortRequests] at h0
    rw [h0] at h
    exact List.Perm.eq_nil (h.symm)
  · intro h0
    rw [h0]
    rfl

/-- The scan of the sorted requests does not depend on the submission order. -/
theorem saunaScan_perm (a : Agreement) (r1 r2 : List SaunaRequest) (h : r1.Perm r2) :
    saunaScan a none 0 (sortRequests r1) = saunaScan a none 0 (sortRequests r2) := by
  have hnil : (sortRequests r1 = []) ↔ (sortRequests r2 = []) := by
    rw [sortRequests_eq_nil_iff, sortRequests_eq_nil_iff]
    exact ⟨fun h0 => by rw [h0] at h; exact List.Perm.eq_nil h.symm,
           fun h0 => by rw [h0] at h; exact List.Perm.eq_nil h⟩
  cases hitems : a.Items with
  | nil =>
    rw [saunaScan_no_items a hitems, saunaScan_no_items a hitems]
    simp only [hnil]
  | cons item items =>
    by_cases hmax : 0 < item.MaxFailures
    · rw [saunaScan_eq a item items hitems _ none 0 hmax,
        saunaScan_eq a item items hitems _ none 0 hmax]
      simp only [Option.toList, List.nil_append, failed_sortRequests,
        failureTimes_perm r1 r2 h]
    · rw [saunaScan_at_threshold a item items hitems none 0 (by omega),
        saunaScan_at_threshold a item items hitems none 0 (by omega)]
      simp only [hnil]

/-- C6 as amended: for a sauna agreement whose first item has MaxFailures >= 1
(and whose penalty rules are non-empty when HasPenaltyRule is true), with q the
number of consecutive pairs of the ascending failure times whose gap, as the
`float64` number of minutes that `Duration.Minutes` returns for it, is at least
MinTimeBetween2Failures: VerifySaunaAgreement returns unsatisfied, with
`PenaltyRules[0]` iff HasPenaltyRule, when q >= MaxFailures, and satisfied with
no penalty rule otherwise. -/
theorem VerifySaunaAgreement_iff (a : Agreement) (data : EvaluationData)
    (item : AgreementItem) (items : List AgreementItem)
    (hcode : data.Code = AgreementItemCodeServiceSauna)
    (hitems : a.Items = item :: items)
    (hmax : 1 ≤ item.MaxFailures)
    (hrules : a.HasPenaltyRule = true → a.PenaltyRules ≠ []) :
    VerifySaunaAgreement a data =
      if (qualifyingGaps item.MinTimeBetween2Failures (failureTimes data.SaunaRequests) : Int)
          ≥ item.MaxFailures
      then .ok { Satisfied := false,
                 PenaltyRule := if a.HasPenaltyRule then a.PenaltyRules.head? else none,
                 FailureReason := "" }
      else .ok { Satisfied := true, PenaltyRule := none, FailureReason := "" } := by
  have hun : saunaUnsatisfied a =
      .ok { Satisfied := false,
            PenaltyRule := if a.HasPenaltyRule then a.PenaltyRules.head? else none,
            FailureReason := "" } := by
    cases hp : a.HasPenaltyRule with
    | false => simp [saunaUnsatisfied, hp]
    | true =>
      cases hr : a.PenaltyRules with
      | nil => exact absurd hr (hrules hp)
      | cons rule rest => simp [saunaUnsatisfied, hp, hr, index]
  simp only [VerifySaunaAgreement, hcode, ne_eq, not_true_eq_false, if_false]
  rw [saunaScan_eq a item items hitems _ none 0 (by omega)]
  simp only [Option.toList, List.nil_append, failed_sortRequests, zero_add, hun]

/-- Witness of C6: two failed requests five minutes apart, submitted latest
first, with MinTimeBetween2Failures = 10 and MaxFailures = 1, are satisfied; the
same requests fifteen minutes apart are unsatisfied with the first penalty
rule. -/
theorem VerifySaunaAgreement_iff_witness :
    VerifySaunaAgreement (sampleAgreement "service" [saunaItem])
        (saunaEvidence [⟨⟨300000000000⟩, "fail"⟩, ⟨⟨0⟩, "fail"⟩]) =
      .ok { Satisfied := true, PenaltyRule := none, FailureReason := "" } ∧
    VerifySaunaAgreement (sampleAgreement "service" [saunaItem])
        (saunaEvidence [⟨⟨900000000000⟩, "fail"⟩, ⟨⟨0⟩, "fail"⟩]) =
      .ok { Satisfied := false, PenaltyRule := some ⟨"discount", 10⟩, FailureReason := "" } := by
  constructor
  · rw [VerifySaunaAgreement_iff (sampleAgreement "service" [saunaItem])
      (saunaEvidence [⟨⟨300000000000⟩, "fail"⟩, ⟨⟨0⟩, "fail"⟩]) saunaItem [] rfl rfl
      (by decide) (by decide)]
    norm_num [saunaEvidence, saunaItem, failureTimes, qualifyingGaps, SaunaRequestStatusFail,
      timeLE, Time.Sub, minutes_three, minutes_five, minutes_fifteen, minutes_twenty,
      maxDuration, minDuration]
  · rw [VerifySaunaAgreement_iff (sampleAgreement "service" [saunaItem])
      (saunaEvidence [⟨⟨900000000000⟩, "fail"⟩, ⟨⟨0⟩, "fail"⟩]) saunaItem [] rfl rfl
      (by decide) (by decide)]
    norm_num [saunaEvidence, saunaItem, sampleAgreement, failureTimes, qualifyingGaps,
      SaunaRequestStatusFail, timeLE, Time.Sub, minutes_three, minutes_five, minutes_fifteen,
      minutes_twenty, maxDuration, minDuration]

/-- Counterexample to C6 as stated: two failed requests one nanosecond less than
262145 minutes apart, with MinTimeBetween2Failures = 262145 and MaxFailures = 1.
No exact gap reaches MinTimeBetween2Failures minutes, so q = 0 is below
MaxFailures, yet the verdict is unsatisfied with the first penalty rule:
`Duration.Minutes` rounds the gap to 262145. -/
theorem VerifySaunaAgreement_gap_rounded_up :
    exactQualifyingGaps patientSaunaItem.MinTimeBetween2Failures
        (failureTimes (saunaEvidence
          [⟨⟨0⟩, "fail"⟩, ⟨⟨15728699999999999⟩, "fail"⟩]).SaunaRequests) = 0 ∧
    (0 : Int) < patientSaunaItem.MaxFailures ∧
    VerifySaunaAgreement (sampleAgreement "service" [patientSaunaItem])
        (saunaEvidence [⟨⟨0⟩, "fail"⟩, ⟨⟨15728699999999999⟩, "fail"⟩]) =
      .ok { Satisfied := false, PenaltyRule := some ⟨"discount", 10⟩, FailureReason := "" } := by
  refine ⟨?_, by decide, ?_⟩
  · norm_num [saunaEvidence, patientSaunaItem, saunaItem, failureTimes, exactQualifyingGaps,
      exactMinutes, SaunaRequestStatusFail, timeLE]
  · have hsort : sortRequests [⟨⟨0⟩, "fail"⟩, ⟨⟨15728699999999999⟩, "fail"⟩] =
        [⟨⟨0⟩, "fail"⟩, ⟨⟨15728699999999999⟩, "fail"⟩] := by
      simp [sortRequests, Time.Before]
    have hsub : Time.Sub ⟨15728699999999999⟩ ⟨0⟩ = ⟨15728699999999999⟩ := by
      simp [Time.Sub, maxDuration, minDuration]
    have hitem : index (sampleAgreement "service" [patientSaunaItem]).Items 0 =
        .ok patientSaunaItem := rfl
    have hgap : Duration.Minutes ⟨15728699999999999⟩ ≥
        float64 (patientSaunaItem.MinTimeBetween2Failures : ℚ) := by
      rw [minutes_nanosecond_under]
      simp [patientSaunaItem, saunaItem, float64_examples]
    have hcode : (saunaEvidence [⟨⟨0⟩, "fail"⟩, ⟨⟨15728699999999999⟩, "fail"⟩]).Code =
      AgreementItemCodeServiceSauna := rfl
    have hreq : (saunaEvidence [⟨⟨0⟩, "fail"⟩, ⟨⟨15728699999999999⟩, "fail"⟩]).SaunaRequests =
        [⟨⟨0⟩, "fail"⟩, ⟨⟨15728699999999999⟩, "fail"⟩] := rfl
    have hfail : ("fail" : String) = SaunaRequestStatusFail := rfl
    have hmax : ¬ ((0 : Int) ≥ patientSaunaItem.MaxFailures) := by decide
    have hmax1 : (0 : Int) + 1 ≥ patientSaunaItem.MaxFailures := by decide
    rw [VerifySaunaAgreement, if_neg (not_not.mpr hcode), hreq, hsort, saunaScan]
    simp only [hitem, hfail, if_true, if_neg hmax]
    rw [saunaScan]
    simp only [hitem, hsub, if_true, if_pos hgap, if_pos hmax1]
    rfl

/-- C7: for every agreement and every two request lists that are permutations of
each other, equal timestamps included, VerifySaunaAgreement returns the same
outcome. -/
theorem VerifySaunaAgreement_perm (a : Agreement) (data : EvaluationData)
    (requests : List SaunaRequest) (h : data.SaunaRequests.Perm requests) :
    VerifySaunaAgreement a { data with SaunaRequests := requests } =
      VerifySaunaAgreement a data := by
  simp only [VerifySaunaAgreement]
  rw [saunaScan_perm a data.SaunaRequests requests h]

/-- Witness of C7: a failed and a successful request with the same timestamp,
in either order. -/
theorem VerifySaunaAgreement_perm_witness :
    VerifySaunaAgreement (sampleAgreement "service" [saunaItem])
        { saunaEvidence [⟨⟨0⟩, "fail"⟩, ⟨⟨0⟩, "success"⟩] with
            SaunaRequests := [⟨⟨0⟩, "success"⟩, ⟨⟨0⟩, "fail"⟩] } =
      VerifySaunaAgreement (sampleAgreement "service" [saunaItem])
        (saunaEvidence [⟨⟨0⟩, "fail"⟩, ⟨⟨0⟩, "success"⟩]) :=
  VerifySaunaAgreement_perm (sampleAgreement "service" [saunaItem])
    (saunaEvidence [⟨⟨0⟩, "fail"⟩, ⟨⟨0⟩, "success"⟩]) [⟨⟨0⟩, "success"⟩, ⟨⟨0⟩, "fail"⟩]
    (List.Perm.swap _ _ _)

/-! ## Default matcher: view, interior, outdoor -/

/-- The inner loop for the view category finds an evidence entry of sufficient level. -/
theorem matchItem_view_iff (agreementItem : AgreementItem) (eData : List EvaluationData) :
    matchItem AgreementCategoryView agreementItem eData = true ↔
      ∃ e ∈ eData, ViewLevelMapping e.Code ≥ ViewLevelMapping agreementItem.Code := by
  induction eData with
  | nil => simp [matchItem]
  | cons e rest ih =>
    by_cases h : ViewLevelMapping e.Code ≥ ViewLevelMapping agreementItem.Code
    · simp [matchItem, h]
    · simp only [matchItem, if_true, h, if_false, ih, List.mem_cons, exists_eq_or_imp, false_or]

/-- The inner loop for the other categories finds an evidence entry with the code
and enough quantity. -/
theorem matchItem_other_iff (category : String) (agreementItem : AgreementItem)
    (eData : List EvaluationData) (hcat : category ≠ AgreementCategoryView) :
    matchItem category agreementItem eData = true ↔
      ∃ e ∈ eData, e.Code = agreementItem.Code ∧
        (agreementItem.Quantity = 0 ∨ e.Quantity ≥ agreementItem.Quantity) := by
  induction eData with
  | nil => simp [matchItem]
  | cons e rest ih =>
    by_cases h : e.Code = agreementItem.Code ∧
        (agreementItem.Quantity = 0 ∨ e.Quantity ≥ agreementItem.Quantity)
    · simp only [matchItem, if_neg hcat, if_pos h, List.mem_cons, exists_eq_or_imp, h, true_or]
      simp
    · simp only [matchItem, if_neg hcat, if_neg h, ih, List.mem_cons, exists_eq_or_imp, h,
        false_or, if_false]

/-- The outer loop succeeds when every agreement item has a match. -/
theorem matchItems_true_iff (category : String) (eData : List EvaluationData)
    (items : List AgreementItem) :
    matchItems category eData true items = true ↔
      ∀ agreementItem ∈ items, matchItem category agreementItem eData = true := by
  induction items with
  | nil => simp [matchItems]
  | cons it rest ih =>
    by_cases h : matchItem category it eData = true
    · simp [matchItems, h, ih]
    · simp [matchItems, h]

/-- Indexing a non-empty list at zero yields its head. -/
theorem index_zero_of_ne_nil {α : Type} (xs : List α) (h : xs ≠ []) :
    ∃ x, xs.head? = some x ∧ index xs 0 = .ok x := by
  cases xs with
  | nil => exact absurd rfl h
  | cons x rest => exact ⟨x, rfl, rfl⟩

/-- The result of `VerifySLA` in the default branch of its category switch. -/
theorem VerifySLA_default (a : Agreement) (eData : List EvaluationData)
    (hsupported : StringInSlice a.Category SupportedAgreementCategories = true)
    (hservice : a.Category ≠ AgreementCategoryService)
    (hroom : a.Category ≠ AgreementCategoryRoomDesign)
    (hbed : a.Category ≠ AgreementCategoryBed)
    (hdata : eData ≠ [])
    (hrules : a.HasPenaltyRule = true → a.PenaltyRules ≠ []) :
    VerifySLA a eData =
      .ok { Satisfied := matchItems a.Category eData true a.Items,
            PenaltyRule := if a.HasPenaltyRule then a.PenaltyRules.head? else none,
            FailureReason := "" } := by
  cases eData with
  | nil => exact absurd rfl hdata
  | cons first rest =>
    cases hp : a.HasPenaltyRule with
    | false => simp [VerifySLA, hsupported, hservice, hroom, hbed, hp]
    | true =>
      obtain ⟨rule, hhead, hindex⟩ := index_zero_of_ne_nil a.PenaltyRules (hrules hp)
      simp [VerifySLA, hsupported, hservice, hroom, hbed, hp, hindex, hhead]

/-- C9: for an agreement of category view (penalty rules non-empty when
HasPenaltyRule is true) and non-empty evidence, VerifySLA returns a verdict, and
the verdict is satisfied if and only if every agreement item has an evidence
entry whose view level is at least the level of the item. -/
theorem VerifySLA_view (a : Agreement) (eData : List EvaluationData)
    (hcat : a.Category = AgreementCategoryView)
    (hdata : eData ≠ [])
    (hrules : a.HasPenaltyRule = true → a.PenaltyRules ≠ []) :
    ∃ result, VerifySLA a eData = .ok result ∧
      (result.Satisfied = true ↔
        ∀ agreementItem ∈ a.Items, ∃ e ∈ eData,
          ViewLevelMapping e.Code ≥ ViewLevelMapping agreementItem.Code) := by
  refine ⟨_, VerifySLA_default a eData ?_ ?_ ?_ ?_ hdata hrules, ?_⟩
  · rw [hcat]; decide
  · rw [hcat]; decide
  · rw [hcat]; decide
  · rw [hcat]; decide
  · simp only [hcat, matchItems_true_iff, matchItem_view_iff]

/-- Witness of C9: a garden view and a mountain view are required, a pool view
is observed. -/
theorem VerifySLA_view_witness :
    ∃ result, VerifySLA (sampleAgreement "view" [plainItem "V004" 0, plainItem "V006" 0])
        [plainEvidence "V003" 0] = .ok result ∧
      (result.Satisfied = true ↔
        ∀ agreementItem ∈ [plainItem "V004" 0, plainItem "V006" 0],
          ∃ e ∈ [plainEvidence "V003" 0],
            ViewLevelMapping e.Code ≥ ViewLevelMapping agreementItem.Code) :=
  VerifySLA_view (sampleAgreement "view" [plainItem "V004" 0, plainItem "V006" 0])
    [plainEvidence "V003" 0] rfl (by simp) (by simp [sampleAgreement])

/-- C10: for an agreement of category interior or outdoor (penalty rules
non-empty when HasPenaltyRule is true) and non-empty evidence, VerifySLA returns
a verdict, and the verdict is satisfied if and only if every agreement item has
an evidence entry with the same code and, unless the required quantity is 0, at
least the required quantity. -/
theorem VerifySLA_interior_outdoor (a : Agreement) (eData : List EvaluationData)
    (hcat : a.Category = AgreementCategoryInterior ∨ a.Category = AgreementCategoryOutdoor)
    (hdata : eData ≠ [])
    (hrules : a.HasPenaltyRule = true → a.PenaltyRules ≠ []) :
    ∃ result, VerifySLA a eData = .ok result ∧
      (result.Satisfied = true ↔
        ∀ agreementItem ∈ a.Items, ∃ e ∈ eData,
          e.Code = agreementItem.Code ∧
            (agreementItem.Quantity = 0 ∨ e.Quantity ≥ agreementItem.Quantity)) := by
  have hview : a.Category ≠ AgreementCategoryView := by
    rcases hcat with h | h <;> rw [h] <;> decide
  refine ⟨_, VerifySLA_default a eData ?_ ?_ ?_ ?_ hdata hrules, ?_⟩
  · rcases hcat with h | h <;> rw [h] <;> decide
  · rcases hcat with h | h <;> rw [h] <;> decide
  · rcases hcat with h | h <;> rw [h] <;> decide
  · rcases hcat with h | h <;> rw [h] <;> decide
  · simp only [matchItems_true_iff]
    constructor
    · intro h it hit
      exact (matchItem_other_iff a.Category it eData hview).mp (h it hit)
    · intro h it hit
      exact (matchItem_other_iff a.Category it eData hview).mpr (h it hit)

/-- Witness of C10: a bathtub and two flat-screen televisions are required, one
television and a bathtub are observed. -/
theorem VerifySLA_interior_outdoor_witness :
    ∃ result, VerifySLA (sampleAgreement "interior" [plainItem "IBA001" 0, plainItem "ITV001" 2])
        [plainEvidence "ITV001" 1, plainEvidence "IBA001" 1] = .ok result ∧
      (result.Satisfied = true ↔
        ∀ agreementItem ∈ [plainItem "IBA001" 0, plainItem "ITV001" 2],
          ∃ e ∈ [plainEvidence "ITV001" 1, plainEvidence "IBA001" 1],
            e.Code = agreementItem.Code ∧
              (agreementItem.Quantity = 0 ∨ e.Quantity ≥ agreementItem.Quantity)) :=
  VerifySLA_interior_outdoor
    (sampleAgreement "interior" [plainItem "IBA001" 0, plainItem "ITV001" 2])
    [plainEvidence "ITV001" 1, plainEvidence "IBA001" 1] (Or.inl rfl) (by simp)
    (by simp [sampleAgreement])

/-! ## Beds -/

/-- Wrapping an intermediate sum does not change the wrapped total. -/
theorem wrapInt64_add (x y : Int) : wrapInt64 (wrapInt64 x + y) = wrapInt64 (x + y) := by
  unfold wrapInt64
  omega

/-- Wrapping leaves a value of the 64-bit range unchanged. -/
theorem wrapInt64_eq_self (x : Int) (h : inInt64 x) : wrapInt64 x = x := by
  unfold inInt64 at h
  unfold wrapInt64
  omega

/-- The totals the first loop of `VerifyBedAgreement` computes. -/
theorem bedAgreementTotals_eq (items : List AgreementItem) :
    ∀ points beds : Int,
      bedAgreementTotals (points, wrapInt64 beds) items =
        (points + (items.map (fun i => BedPointMapping i.Code)).sum,
         wrapInt64 (beds + (items.map (fun i => i.Quantity)).sum)) := by
  induction items with
  | nil => intro p b; simp [bedAgreementTotals]
  | cons item rest ih =>
    intro p b
    simp only [bedAgreementTotals, wrapInt64_add, ih, List.map_cons, List.sum_cons, add_assoc]

/-- The totals the second loop of `VerifyBedAgreement` computes. -/
theorem bedEvidenceTotals_eq (data : List EvaluationData) :
    ∀ points beds : Int,
      bedEvidenceTotals (points, wrapInt64 beds) data =
        (points + (data.map (fun i => BedPointMapping i.Code)).sum,
         wrapInt64 (beds + (data.map (fun i => i.Quantity)).sum)) := by
  induction data with
  | nil => intro p b; simp [bedEvidenceTotals]
  | cons item rest ih =>
    intro p b
    simp only [bedEvidenceTotals, wrapInt64_add, ih, List.map_cons, List.sum_cons, add_assoc]

/-- Zero wraps to zero. -/
theorem wrapInt64_zero : wrapInt64 0 = 0 := by decide

/-- The result of `VerifySLA` on a bed agreement, with the bed counts as Go
computes them. -/
theorem VerifySLA_bed_eq (a : Agreement) (eData : List EvaluationData)
    (hcat : a.Category = AgreementCategoryBed) (hdata : eData ≠ [])
    (hrules : a.HasPenaltyRule = true → a.PenaltyRules ≠ []) :
    VerifySLA a eData =
      .ok { Satisfied :=
              decide (wrapInt64 ((eData.map (fun i => i.Quantity)).sum) ≥
                wrapInt64 ((a.Items.map (fun i => i.Quantity)).sum)) &&
              decide ((eData.map (fun i => BedPointMapping i.Code)).sum ≥
                (a.Items.map (fun i => BedPointMapping i.Code)).sum),
            PenaltyRule := if a.HasPenaltyRule then a.PenaltyRules.head? else none,
            FailureReason := "" } := by
  have hA := bedAgreementTotals_eq a.Items 0 0
  have hE := bedEvidenceTotals_eq eData 0 0
  rw [wrapInt64_zero] at hA hE
  have hsup : StringInSlice a.Category SupportedAgreementCategories = true := by
    rw [hcat]; decide
  have h1 : a.Category ≠ AgreementCategoryService := by rw [hcat]; decide
  have h2 : a.Category ≠ AgreementCategoryRoomDesign := by rw [hcat]; decide
  cases eData with
  | nil => exact absurd rfl hdata
  | cons first rest =>
    cases hp : a.HasPenaltyRule with
    | false =>
      simp only [VerifySLA, hsup, h1, h2, hp, VerifyBedAgreement, hA, hE]
      simp [hcat]
    | true =>
      cases hr : a.PenaltyRules with
      | nil => exact absurd hr (hrules hp)
      | cons rule more =>
        simp only [VerifySLA, hsup, h1, h2, hp, VerifyBedAgreement, hA, hE, hr, index]
        simp [hcat]

/-- C8 as amended: for a bed agreement (penalty rules non-empty when
HasPenaltyRule is true) and non-empty evidence, when the two sums of Quantity
fit Go's 64-bit `int`, VerifySLA returns a verdict that is satisfied if and only
if the sum of Quantity over the evidence is at least the sum over the agreement
items and the sum of bed points over the evidence is at least the sum over the
agreement items; the verdict carries `PenaltyRules[0]` iff HasPenaltyRule. -/
theorem VerifySLA_bed (a : Agreement) (eData : List EvaluationData)
    (hcat : a.Category = AgreementCategoryBed) (hdata : eData ≠ [])
    (hrules : a.HasPenaltyRule = true → a.PenaltyRules ≠ [])
    (hrequired : inInt64 ((a.Items.map (fun i => i.Quantity)).sum))
    (hobserved : inInt64 ((eData.map (fun i => i.Quantity)).sum)) :
    ∃ result, VerifySLA a eData = .ok result ∧
      (result.Satisfied = true ↔
        (eData.map (fun i => i.Quantity)).sum ≥ (a.Items.map (fun i => i.Quantity)).sum ∧
        (eData.map (fun i => BedPointMapping i.Code)).sum ≥
          (a.Items.map (fun i => BedPointMapping i.Code)).sum) ∧
      result.PenaltyRule = (if a.HasPenaltyRule then a.PenaltyRules.head? else none) := by
  refine ⟨_, VerifySLA_bed_eq a eData hcat hdata hrules, ?_, rfl⟩
  rw [wrapInt64_eq_self _ hrequired, wrapInt64_eq_self _ hobserved]
  simp

/-- Witness of C8 as amended: two queen beds against a requirement of one king
bed; the bed count 2 suffices, the 20 points do not reach 100. -/
theorem VerifySLA_bed_witness :
    ∃ result, VerifySLA (sampleAgreement "bed" [plainItem "BE003" 1])
        [plainEvidence "BE002" 1, plainEvidence "BE002" 1] = .ok result ∧
      (result.Satisfied = true ↔ (2 : Int) ≥ 1 ∧ (20 : Int) ≥ 100) ∧
      result.PenaltyRule = some ⟨"discount", 10⟩ :=
  VerifySLA_bed (sampleAgreement "bed" [plainItem "BE003" 1])
    [plainEvidence "BE002" 1, plainEvidence "BE002" 1]
    rfl (by simp) (by simp [sampleAgreement]) (by decide) (by decide)

/-- Counterexample to C8 as stated: two evidence entries of 2^62 twin beds each
against a requirement of one twin bed.  The observed sum of Quantity, 2^63, and
the observed points, 2, are at least the required 1 and 1, yet the verdict is
unsatisfied: the running bed count wraps to -2^63. -/
theorem VerifySLA_bed_overflow :
    VerifySLA (sampleAgreement "bed" [plainItem "BE001" 1])
        [plainEvidence "BE001" 4611686018427387904,
         plainEvidence "BE001" 4611686018427387904] =
      .ok { Satisfied := false, PenaltyRule := some ⟨"discount", 10⟩, FailureReason := "" } ∧
    ([plainEvidence "BE001" 4611686018427387904,
      plainEvidence "BE001" 4611686018427387904].map (fun i => i.Quantity)).sum ≥
      ([plainItem "BE001" 1].map (fun i => i.Quantity)).sum ∧
    ([plainEvidence "BE001" 4611686018427387904,
      plainEvidence "BE001" 4611686018427387904].map (fun i => BedPointMapping i.Code)).sum ≥
      ([plainItem "BE001" 1].map (fun i => BedPointMapping i.Code)).sum := by
  refine ⟨by rfl, by decide, by decide⟩

/-! ## Rates and rollups -/

/-- The satisfaction rate of a consistent agreement lies between 0 and 1. -/
theorem consistent_satisfaction_bounds {a : Agreement} (h : a.Consistent) :
    0 ≤ a.SatisfactionRate ∧ a.SatisfactionRate ≤ 1 := by
  obtain ⟨h1, -, h3, -⟩ := h
  rw [h3]
  by_cases h0 : a.TotalFeedbacks = 0
  · simp [h0]
  · have hpos : (0 : ℚ) < (a.TotalFeedbacks : ℚ) := by
      exact_mod_cast Nat.pos_of_ne_zero h0
    have hle : (a.TotalUnsatisfied : ℚ) ≤ (a.TotalFeedbacks : ℚ) := by exact_mod_cast h1
    have hnn : (0 : ℚ) ≤ (a.TotalUnsatisfied : ℚ) := by positivity
    rw [if_neg h0]
    constructor
    · apply div_nonneg <;> linarith
    · rw [div_le_one hpos]; linarith

/-- The rule-abiding rate of a consistent agreement lies between 0 and 1. -/
theorem consistent_rule_bounds {a : Agreement} (h : a.Consistent) :
    0 ≤ a.RuleAbidingRate ∧ a.RuleAbidingRate ≤ 1 := by
  obtain ⟨-, h2, -, h4⟩ := h
  rw [h4]
  by_cases h0 : a.TotalRuleViolations = 0
  · simp [h0]
  · have hpos : (0 : ℚ) < (a.TotalRuleViolations : ℚ) := by
      exact_mod_cast Nat.pos_of_ne_zero h0
    have hle : (a.TotalRuleViolationWithoutCompensations : ℚ) ≤ (a.TotalRuleViolations : ℚ) := by
      exact_mod_cast h2
    have hnn : (0 : ℚ) ≤ (a.TotalRuleViolationWithoutCompensations : ℚ) := by positivity
    rw [if_neg h0]
    constructor
    · apply div_nonneg <;> linarith
    · rw [div_le_one hpos]; linarith

/-- A feedback keeps an agreement consistent. -/
theorem agreement_withFeedback_consistent {a : Agreement} (h : a.Consistent)
    (satisfied : Bool) (atTime : String) : (a.withFeedback satisfied atTime).Consistent := by
  obtain ⟨h1, h2, -, h4⟩ := h
  refine ⟨?_, h2, ?_, h4⟩
  · simp only [Agreement.withFeedback]
    split <;> omega
  · simp only [Agreement.withFeedback]
    rw [if_neg (Nat.succ_ne_zero _)]
    cases satisfied
    · simp only [if_true]
      rw [Nat.cast_sub (by omega)]
    · simp only [Bool.true_eq_false, if_false]
      rw [Nat.cast_sub (by omega)]

/-- A rule violation keeps an agreement consistent. -/
theorem agreement_withRuleViolation_consistent {a : Agreement} (h : a.Consistent)
    (compensated : Bool) (atTime : String) :
    (a.withRuleViolation compensated atTime).Consistent := by
  obtain ⟨h1, h2, h3, -⟩ := h
  refine ⟨h1, ?_, h3, ?_⟩
  · simp only [Agreement.withRuleViolation]
    split <;> omega
  · simp only [Agreement.withRuleViolation]
    rw [if_neg (Nat.succ_ne_zero _)]
    cases compensated
    · simp only [if_true]
      rw [Nat.cast_sub (by omega)]
    · simp only [Bool.true_eq_false, if_false]
      rw [Nat.cast_sub (by omega)]



/-- The loop never raises the running minimum. -/
theorem minSatisfactionRate_le_start (l : List Agreement) :
    ∀ m : ℚ, minSatisfactionRate m l ≤ m := by
  induction l with
  | nil => intro m; simp [minSatisfactionRate]
  | cons a rest ih =>
    intro m
    simp only [minSatisfactionRate]
    split
    · exact le_trans (ih _) (le_of_lt (by assumption))
    · exact ih _

/-- The loop ends at or below every rate it met. -/
theorem minSatisfactionRate_le_mem (l : List Agreement) :
    ∀ m : ℚ, ∀ a ∈ l, minSatisfactionRate m l ≤ a.SatisfactionRate := by
  induction l with
  | nil => intro m a ha; simp at ha
  | cons b rest ih =>
    intro m a ha
    simp only [minSatisfactionRate]
    rcases List.mem_cons.mp ha with h | h
    · subst h
      split
      · exact minSatisfactionRate_le_start rest _
      · exact le_trans (minSatisfactionRate_le_start rest _) (not_lt.mp (by assumption))
    · exact ih _ a h

/-- The loop ends at its start value or at a rate it met. -/
theorem minSatisfactionRate_mem (l : List Agreement) :
    ∀ m : ℚ, minSatisfactionRate m l = m ∨
      minSatisfactionRate m l ∈ l.map (fun a => a.SatisfactionRate) := by
  induction l with
  | nil => intro m; simp [minSatisfactionRate]
  | cons b rest ih =>
    intro m
    simp only [minSatisfactionRate, List.map_cons, List.mem_cons]
    split
    · rcases ih b.SatisfactionRate with h | h
      · right; left; exact h
      · right; right; exact h
    · rcases ih m with h | h
      · left; exact h
      · right; right; exact h

/-- The loop never raises the running minimum. -/
theorem minRuleAbidingRate_le_start (l : List Agreement) :
    ∀ m : ℚ, minRuleAbidingRate m l ≤ m := by
  induction l with
  | nil => intro m; simp [minRuleAbidingRate]
  | cons a rest ih =>
    intro m
    simp only [minRuleAbidingRate]
    split
    · exact le_trans (ih _) (le_of_lt (by assumption))
    · exact ih _

/-- The loop ends at or below every rate it met. -/
theorem minRuleAbidingRate_le_mem (l : List Agreement) :
    ∀ m : ℚ, ∀ a ∈ l, minRuleAbidingRate m l ≤ a.RuleAbidingRate := by
  induction l with
  | nil => intro m a ha; simp at ha
  | cons b rest ih =>
    intro m a ha
    simp only [minRuleAbidingRate]
    rcases List.mem_cons.mp ha with h | h
    · subst h
      split
      · exact minRuleAbidingRate_le_start rest _
      · exact le_trans (minRuleAbidingRate_le_start rest _) (not_lt.mp (by assumption))
    · exact ih _ a h

/-- The loop ends at its start value or at a rate it met. -/
theorem minRuleAbidingRate_mem (l : List Agreement) :
    ∀ m : ℚ, minRuleAbidingRate m l = m ∨
      minRuleAbidingRate m l ∈ l.map (fun a => a.RuleAbidingRate) := by
  induction l with
  | nil => intro m; simp [minRuleAbidingRate]
  | cons b rest ih =>
    intro m
    simp only [minRuleAbidingRate, List.map_cons, List.mem_cons]
    split
    · rcases ih b.RuleAbidingRate with h | h
      · right; left; exact h
      · right; right; exact h
    · rcases ih m with h | h
      · left; exact h
      · right; right; exact h

/-- Started from the rate of the first agreement, the loop yields the rollup. -/
theorem minSatisfactionRate_isRollup (l : List Agreement) (first : Agreement)
    (hfirst : index l 0 = .ok first) :
    IsRollup (minSatisfactionRate first.SatisfactionRate l)
      (l.map (fun a => a.SatisfactionRate)) := by
  cases l with
  | nil => simp [index] at hfirst
  | cons b rest =>
    simp only [index, List.get?_cons_zero, Except.ok.injEq] at hfirst
    subst hfirst
    refine ⟨fun h => by simp at h, fun _ => ⟨?_, ?_⟩⟩
    · rcases minSatisfactionRate_mem (b :: rest) b.SatisfactionRate with h | h
      · rw [h]; simp
      · exact h
    · intro r hr
      obtain ⟨a, ha, rfl⟩ := List.mem_map.mp hr
      exact minSatisfactionRate_le_mem _ _ a ha

/-- Started from the rate of the first agreement, the loop yields the rollup. -/
theorem minRuleAbidingRate_isRollup (l : List Agreement) (first : Agreement)
    (hfirst : index l 0 = .ok first) :
    IsRollup (minRuleAbidingRate first.RuleAbidingRate l)
      (l.map (fun a => a.RuleAbidingRate)) := by
  cases l with
  | nil => simp [index] at hfirst
  | cons b rest =>
    simp only [index, List.get?_cons_zero, Except.ok.injEq] at hfirst
    subst hfirst
    refine ⟨fun h => by simp at h, fun _ => ⟨?_, ?_⟩⟩
    · rcases minRuleAbidingRate_mem (b :: rest) b.RuleAbidingRate with h | h
      · rw [h]; simp
      · exact h
    · intro r hr
      obtain ⟨a, ha, rfl⟩ := List.mem_map.mp hr
      exact minRuleAbidingRate_le_mem _ _ a ha

/-- Replacing an element by one with the same image leaves the mapped list unchanged. -/
theorem map_set_of_eq {β : Type} (f : Agreement → β) (l : List Agreement) (i : Nat)
    (a b : Agreement) (hidx : index l i = .ok a) (hf : f b = f a) :
    (l.set i b).map f = l.map f := by
  induction l generalizing i with
  | nil => simp
  | cons x rest ih =>
    cases i with
    | zero =>
      simp only [index, List.get?_cons_zero, Except.ok.injEq] at hidx
      subst hidx
      simp [hf]
    | succ j =>
      have hj : index rest j = .ok a := by
        simpa [index] using hidx
      simp [ih j hj]

/-- Appending a rate `1` to rates that are at most `1` keeps the rollup. -/
theorem isRollup_append_one {m : ℚ} {rates : List ℚ} (h : IsRollup m rates)
    (hle : ∀ r ∈ rates, r ≤ 1) : IsRollup m (rates ++ [1]) := by
  refine ⟨fun h0 => by simp at h0, fun _ => ?_⟩
  by_cases hnil : rates = []
  · subst hnil
    have := h.1 rfl
    subst this
    simp
  · obtain ⟨hmem, hmin⟩ := h.2 hnil
    refine ⟨List.mem_append_left _ hmem, fun r hr => ?_⟩
    rcases List.mem_append.mp hr with h1 | h1
    · exact hmin r h1
    · simp only [List.mem_singleton] at h1
      rw [h1]
      exact hle m hmem


/-- The new agreement of `AddAgreement` is consistent. -/
theorem newAgreement_consistent (aid cat : String) (hasPenalty : Bool)
    (aItems : List AgreementItem) (aPenaltyRules : List PenaltyRule) :
    (newAgreement aid cat hasPenalty aItems aPenaltyRules).Consistent := by
  simp [Agreement.Consistent, newAgreement]

/-- Replacing category, items and penalty rules keeps an agreement consistent. -/
theorem agreement_withTerms_consistent {a : Agreement} (h : a.Consistent) (cat : String)
    (aItems : List AgreementItem) (hasPenalty : Bool) (aPenaltyRules : List PenaltyRule) :
    ({ a with Category := cat, Items := aItems, HasPenaltyRule := hasPenalty,
              PenaltyRules := aPenaltyRules } : Agreement).Consistent := h

/-- The element read at an index belongs to the list. -/
theorem mem_of_index {α : Type} (xs : List α) (i : Nat) (x : α) (h : index xs i = .ok x) :
    x ∈ xs := by
  unfold index at h
  split at h
  · rename_i y hy
    simp only [Except.ok.injEq] at h
    subst h
    exact List.get?_mem hy
  · simp at h

/-- The service `CreateService` stores is rolled up. -/
theorem newService_rolledUp (id : String) : (newService id).RolledUp := by
  simp [Service.RolledUp, newService, IsRollup]

/-- Appending the new agreement keeps a consistent service rolled up. -/
theorem service_append_rolledUp (service : Service) (h : service.RolledUp)
    (hc : ∀ a ∈ service.Agreements, a.Consistent) (aid cat : String) (hasPenalty : Bool)
    (aItems : List AgreementItem) (aPenaltyRules : List PenaltyRule) :
    ({ service with
        Agreements := service.Agreements ++
          [newAgreement aid cat hasPenalty aItems aPenaltyRules] } : Service).RolledUp := by
  obtain ⟨h1, h2⟩ := h
  constructor
  · simp only [List.map_append, List.map_cons, List.map_nil]
    apply isRollup_append_one h1
    intro r hr
    obtain ⟨a, ha, rfl⟩ := List.mem_map.mp hr
    exact (consistent_satisfaction_bounds (hc a ha)).2
  · simp only [List.map_append, List.map_cons, List.map_nil]
    apply isRollup_append_one h2
    intro r hr
    obtain ⟨a, ha, rfl⟩ := List.mem_map.mp hr
    exact (consistent_rule_bounds (hc a ha)).2

/-- The service `RemoveAgreement` stores is rolled up. -/
theorem service_withoutAgreement_rolledUp (service : Service) (aIndex : Nat) :
    (service.withoutAgreement aIndex).RolledUp := by
  unfold Service.withoutAgreement Service.RolledUp
  cases h : service.Agreements.eraseIdx aIndex with
  | nil => simp [minSatisfactionRate, minRuleAbidingRate, IsRollup]
  | cons first rest =>
    exact ⟨minSatisfactionRate_isRollup (first :: rest) first rfl,
           minRuleAbidingRate_isRollup (first :: rest) first rfl⟩

/-- The service after a feedback is rolled up. -/
theorem service_withFeedback_rolledUp (service : Service) (h : service.RolledUp)
    (aIndex : Nat) (agreement first : Agreement) (satisfied : Bool) (atTime : String)
    (hidx : index service.Agreements aIndex = .ok agreement)
    (hfirst : index (service.Agreements.set aIndex (agreement.withFeedback satisfied atTime)) 0
      = .ok first) :
    (service.withFeedback aIndex agreement first satisfied atTime).RolledUp := by
  constructor
  · exact minSatisfactionRate_isRollup _ first hfirst
  · have := map_set_of_eq (fun a => a.RuleAbidingRate) service.Agreements aIndex agreement
      (agreement.withFeedback satisfied atTime) hidx rfl
    simp only [Service.withFeedback, this]
    exact h.2

/-- The service after a rule violation is rolled up. -/
theorem service_withRuleViolation_rolledUp (service : Service) (h : service.RolledUp)
    (aIndex : Nat) (agreement first : Agreement) (compensated : Bool) (atTime : String)
    (hidx : index service.Agreements aIndex = .ok agreement)
    (hfirst : index
      (service.Agreements.set aIndex (agreement.withRuleViolation compensated atTime)) 0
      = .ok first) :
    (service.withRuleViolation aIndex agreement first compensated atTime).RolledUp := by
  constructor
  · have := map_set_of_eq (fun a => a.SatisfactionRate) service.Agreements aIndex agreement
      (agreement.withRuleViolation compensated atTime) hidx rfl
    simp only [Service.withRuleViolation, this]
    exact h.1
  · exact minRuleAbidingRate_isRollup _ first hfirst

/-- Replacing the terms of an agreement keeps the service rolled up. -/
theorem service_withTerms_rolledUp (service : Service) (h : service.RolledUp)
    (aIndex : Nat) (agreement : Agreement) (cat : String) (aItems : List AgreementItem)
    (hasPenalty : Bool) (aPenaltyRules : List PenaltyRule)
    (hidx : index service.Agreements aIndex = .ok agreement) :
    ({ service with
        Agreements := service.Agreements.set aIndex
          { agreement with Category := cat, Items := aItems, HasPenaltyRule := hasPenalty,
                           PenaltyRules := aPenaltyRules } } : Service).RolledUp := by
  have e1 := map_set_of_eq (fun a => a.SatisfactionRate) service.Agreements aIndex agreement
    { agreement with Category := cat, Items := aItems, HasPenaltyRule := hasPenalty,
                     PenaltyRules := aPenaltyRules } hidx rfl
  have e2 := map_set_of_eq (fun a => a.RuleAbidingRate) service.Agreements aIndex agreement
    { agreement with Category := cat, Items := aItems, HasPenaltyRule := hasPenalty,
                     PenaltyRules := aPenaltyRules } hidx rfl
  unfold Service.RolledUp
  simp only [e1, e2]
  exact h

/-! ## What a successful operation reads and writes -/

/-- A successful `CreateService` writes the new service and its index entry. -/
theorem CreateService_committed (ctx : TransactionContext) (w w1 : World) (id : String)
    (h : committed (CreateService ctx w id) = some w1) :
    w1 = (PutState ctx (PutState ctx w (.simple id) (.service (newService id))).2
      (.composite serviceIndex ["Service", id]) .indexEntry).2 := by
  unfold CreateService at h
  split at h
  · simp [committed] at h
  · simp [committed] at h
  · simp only at h
    split at h
    · simp [committed] at h
    · rename_i u wa hput
      simp only [CreateCompositeKey] at h
      split at h
      · simp [committed] at h
      · rename_i key hkey
        have e1 := congrArg Prod.snd hput
        simp only at e1
        split at hkey
        · simp at hkey
        · simp only [Except.ok.injEq] at hkey
          subst hkey
          subst e1
          cases hp : PutState ctx _ (Key.composite serviceIndex ["Service", id])
              Stored.indexEntry with
          | mk r wb =>
            have h2 : committed (r, wb) = some w1 := by
              rw [← hp]
              exact h
            cases r with
            | error e => simp [committed] at h2
            | ok u2 =>
              simp only [committed, Option.some.injEq] at h2
              exact h2.symm

/-- A successful `AddAgreement` reads the service and writes it back with the new
agreement appended. -/
theorem AddAgreement_committed (ctx : TransactionContext) (w w1 : World)
    (sid aid cat : String) (hasPenalty : Bool) (items : Option (List AgreementItem))
    (penaltyRules : Option (List PenaltyRule))
    (h : committed (AddAgreement ctx w sid aid cat hasPenalty items penaltyRules) = some w1) :
    ∃ service aItems aPenaltyRules,
      ReadService ctx w sid = .ok service ∧
      items = some aItems ∧ penaltyRules = some aPenaltyRules ∧
      w1 = (PutState ctx w (.simple sid)
        (.service { service with
          Agreements := service.Agreements ++
            [newAgreement aid cat hasPenalty aItems aPenaltyRules] })).2 := by
  unfold AddAgreement at h
  split at h
  · simp [committed] at h
  · simp [committed] at h
  · split at h
    · simp [committed] at h
    · rename_i service hread
      split at h
      · simp [committed] at h
      · split at h
        · simp [committed] at h
        · rename_i aItems
          split at h
          · simp [committed] at h
          · rename_i aPenaltyRules
            simp only at h
            split at h
            · simp [committed] at h
            · rename_i u wa hput
              simp only [committed, Option.some.injEq] at h
              subst h
              have e1 := congrArg Prod.snd hput
              simp only at e1
              exact ⟨service, aItems, aPenaltyRules, hread, rfl, rfl, e1.symm⟩

/-- A successful `UpdateAgreement` reads the service and writes it back with the
terms of one agreement replaced. -/
theorem UpdateAgreement_committed (ctx : TransactionContext) (w w1 : World)
    (sid aid cat : String) (hasPenalty : Bool) (items : Option (List AgreementItem))
    (penaltyRules : Option (List PenaltyRule))
    (h : committed (UpdateAgreement ctx w sid aid cat hasPenalty items penaltyRules) = some w1) :
    ∃ service aIndex agreement aItems aPenaltyRules,
      ReadService ctx w sid = .ok service ∧
      findAgreement aid service.Agreements = some aIndex ∧
      index service.Agreements aIndex = .ok agreement ∧
      items = some aItems ∧ penaltyRules = some aPenaltyRules ∧
      w1 = (PutState ctx w (.simple sid)
        (.service { service with
          Agreements := service.Agreements.set aIndex
            { agreement with Category := cat, Items := aItems, HasPenaltyRule := hasPenalty,
                             PenaltyRules := aPenaltyRules } })).2 := by
  unfold UpdateAgreement at h
  split at h
  · simp [committed] at h
  · simp [committed] at h
  · split at h
    · simp [committed] at h
    · rename_i service hread
      split at h
      · simp [committed] at h
      · rename_i aIndex hfind
        split at h
        · simp [committed] at h
        · rename_i aItems
          split at h
          · simp [committed] at h
          · rename_i aPenaltyRules
            split at h
            · simp [committed] at h
            · rename_i agreement hidx
              simp only at h
              split at h
              · simp [committed] at h
              · rename_i u wa hput
                simp only [committed, Option.some.injEq] at h
                subst h
                have e1 := congrArg Prod.snd hput
                simp only at e1
                exact ⟨service, aIndex, agreement, aItems, aPenaltyRules, hread, hfind, hidx,
                  rfl, rfl, e1.symm⟩

/-- A successful `RemoveAgreement` reads the service and writes it back without
one agreement and with both rollup rates recomputed. -/
theorem RemoveAgreement_committed (ctx : TransactionContext) (w w1 : World)
    (sid aid : String)
    (h : committed (RemoveAgreement ctx w sid aid) = some w1) :
    ∃ service aIndex,
      ReadService ctx w sid = .ok service ∧
      findAgreement aid service.Agreements = some aIndex ∧
      w1 = (PutState ctx w (.simple sid) (.service (service.withoutAgreement aIndex))).2 := by
  unfold RemoveAgreement at h
  split at h
  · simp [committed] at h
  · simp [committed] at h
  · split at h
    · simp [committed] at h
    · rename_i service hread
      split at h
      · simp [committed] at h
      · rename_i aIndex hfind
        simp only at h
        split at h
        · simp [committed] at h
        · rename_i u wa hput
          simp only [committed, Option.some.injEq] at h
          subst h
          have e1 := congrArg Prod.snd hput
          simp only at e1
          exact ⟨service, aIndex, hread, hfind, e1.symm⟩

/-- A successful `EvaluateSLA` reads the service, verifies the evidence against
the agreement and records the verdict. -/
theorem EvaluateSLA_committed (ctx : TransactionContext) (w w1 : World)
    (sid aid eid : String) (eData : Option (List EvaluationData)) (hash atTime : String)
    (h : committed (EvaluateSLA ctx w sid aid eid eData hash atTime) = some w1) :
    ∃ service aIndex agreement evaData eResult first,
      ReadService ctx w sid = .ok service ∧
      findAgreement aid service.Agreements = some aIndex ∧
      index service.Agreements aIndex = .ok agreement ∧
      eData = some evaData ∧
      VerifySLA agreement evaData = .ok eResult ∧
      index (service.Agreements.set aIndex (agreement.withFeedback eResult.Satisfied atTime)) 0
        = .ok first ∧
      w1 = recordEvaluation ctx w sid aid eid hash
        (service.withFeedback aIndex agreement first eResult.Satisfied atTime) := by
  unfold EvaluateSLA at h
  split at h
  · simp [committed] at h
  · simp [committed] at h
  · split at h
    · simp [committed] at h
    · rename_i service hread
      split at h
      · simp [committed] at h
      · rename_i aIndex hfind
        split at h
        · simp [committed] at h
        · rename_i evaData
          split at h
          · simp [committed] at h
          · rename_i agreement hidx
            split at h
            · simp [committed] at h
            · rename_i eResult hver
              simp only at h
              split at h
              · simp [committed] at h
              · rename_i first hfirst
                split at h
                · simp [committed] at h
                · rename_i u wa hput
                  simp only [CreateCompositeKey] at h
                  split at h
                  · simp [committed] at h
                  · rename_i key hkey
                    split at h
                    · simp [committed] at h
                    · rename_i u2 wb hput2
                      simp only [committed, Option.some.injEq] at h
                      refine ⟨service, aIndex, agreement, evaData, eResult, first, hread, hfind,
                        hidx, rfl, hver, hfirst, ?_⟩
                      subst h
                      have e1 := congrArg Prod.snd hput
                      have e2 := congrArg Prod.snd hput2
                      simp only at e1 e2
                      split at hkey
                      · simp at hkey
                      · simp only [Except.ok.injEq] at hkey
                        subst hkey
                        rw [← e2, ← e1]
                        rfl

/-- A successful `HandleSatisfactionEvaluationEvent` reads the service and
records the given verdict. -/
theorem HandleSatisfactionEvaluationEvent_committed (ctx : TransactionContext) (w w1 : World)
    (sid aid eid rid hash atTime : String) (satisfied enforcePenaltyRule : Bool)
    (h : committed (HandleSatisfactionEvaluationEvent ctx w sid aid eid rid hash atTime
      satisfied enforcePenaltyRule) = some w1) :
    ∃ service aIndex agreement first,
      ReadService ctx w sid = .ok service ∧
      findAgreement aid service.Agreements = some aIndex ∧
      index service.Agreements aIndex = .ok agreement ∧
      index (service.Agreements.set aIndex (agreement.withFeedback satisfied atTime)) 0
        = .ok first ∧
      w1 = recordEvaluation ctx w sid aid eid hash
        (service.withFeedback aIndex agreement first satisfied atTime) := by
  unfold HandleSatisfactionEvaluationEvent at h
  split at h
  · simp [committed] at h
  · simp [committed] at h
  · split at h
    · simp [committed] at h
    · rename_i service hread
      split at h
      · simp [committed] at h
      · rename_i aIndex hfind
        split at h
        · simp [committed] at h
        · rename_i agreement hidx
          simp only at h
          split at h
          · simp [committed] at h
          · rename_i first hfirst
            split at h
            · simp [committed] at h
            · rename_i u wa hput
              simp only [CreateCompositeKey] at h
              split at h
              · simp [committed] at h
              · rename_i key hkey
                split at h
                · simp [committed] at h
                · rename_i u2 wb hput2
                  simp only [committed, Option.some.injEq] at h
                  refine ⟨service, aIndex, agreement, first, hread, hfind, hidx, hfirst, ?_⟩
                  subst h
                  have e1 := congrArg Prod.snd hput
                  have e2 := congrArg Prod.snd hput2
                  simp only at e1 e2
                  split at hkey
                  · simp at hkey
                  · simp only [Except.ok.injEq] at hkey
                    subst hkey
                    rw [← e2, ← e1]
                    rfl

/-- A successful `UpdateRuleAbidingRate` reads the service and records the rule
violation. -/
theorem UpdateRuleAbidingRate_committed (ctx : TransactionContext) (w w1 : World)
    (sid aid eid hash atTime : String) (compensated : Bool)
    (h : committed (UpdateRuleAbidingRate ctx w sid aid eid hash atTime compensated)
      = some w1) :
    ∃ service aIndex agreement first,
      ReadService ctx w sid = .ok service ∧
      findAgreement aid service.Agreements = some aIndex ∧
      index service.Agreements aIndex = .ok agreement ∧
      index (service.Agreements.set aIndex (agreement.withRuleViolation compensated atTime)) 0
        = .ok first ∧
      w1 = recordEvaluation ctx w sid aid eid hash
        (service.withRuleViolation aIndex agreement first compensated atTime) := by
  unfold UpdateRuleAbidingRate at h
  split at h
  · simp [committed] at h
  · simp [committed] at h
  · split at h
    · simp [committed] at h
    · rename_i service hread
      split at h
      · simp [committed] at h
      · rename_i aIndex hfind
        split at h
        · simp [committed] at h
        · rename_i agreement hidx
          simp only at h
          split at h
          · simp [committed] at h
          · rename_i first hfirst
            split at h
            · simp [committed] at h
            · rename_i u wa hput
              simp only [CreateCompositeKey] at h
              split at h
              · simp [committed] at h
              · rename_i key hkey
                split at h
                · simp [committed] at h
                · rename_i u2 wb hput2
                  simp only [committed, Option.some.injEq] at h
                  refine ⟨service, aIndex, agreement, first, hread, hfind, hidx, hfirst, ?_⟩
                  subst h
                  have e1 := congrArg Prod.snd hput
                  have e2 := congrArg Prod.snd hput2
                  simp only at e1 e2
                  split at hkey
                  · simp at hkey
                  · simp only [Except.ok.injEq] at hkey
                    subst hkey
                    rw [← e2, ← e1]
                    rfl

/-- A successful `HandlePenaltyRuleEvaluationEvent` reads the service and records
the rule violation. -/
theorem HandlePenaltyRuleEvaluationEvent_committed (ctx : TransactionContext) (w w1 : World)
    (sid aid eid hash atTime : String) (compensated : Bool)
    (h : committed (HandlePenaltyRuleEvaluationEvent ctx w sid aid eid hash atTime compensated)
      = some w1) :
    ∃ service aIndex agreement first,
      ReadService ctx w sid = .ok service ∧
      findAgreement aid service.Agreements = some aIndex ∧
      index service.Agreements aIndex = .ok agreement ∧
      index (service.Agreements.set aIndex (agreement.withRuleViolation compensated atTime)) 0
        = .ok first ∧
      w1 = recordEvaluation ctx w sid aid eid hash
        (service.withRuleViolation aIndex agreement first compensated atTime) := by
  unfold HandlePenaltyRuleEvaluationEvent at h
  split at h
  · simp [committed] at h
  · simp [committed] at h
  · split at h
    · simp [committed] at h
    · rename_i service hread
      split at h
      · simp [committed] at h
      · rename_i aIndex hfind
        split at h
        · simp [committed] at h
        · rename_i agreement hidx
          simp only at h
          split at h
          · simp [committed] at h
          · rename_i first hfirst
            split at h
            · simp [committed] at h
            · rename_i u wa hput
              simp only [CreateCompositeKey] at h
              split at h
              · simp [committed] at h
              · rename_i key hkey
                split at h
                · simp [committed] at h
                · rename_i u2 wb hput2
                  simp only [committed, Option.some.injEq] at h
                  refine ⟨service, aIndex, agreement, first, hread, hfind, hidx, hfirst, ?_⟩
                  subst h
                  have e1 := congrArg Prod.snd hput
                  have e2 := congrArg Prod.snd hput2
                  simp only at e1 e2
                  split at hkey
                  · simp at hkey
                  · simp only [Except.ok.injEq] at hkey
                    subst hkey
                    rw [← e2, ← e1]
                    rfl

/-! ## Invariants of the world state -/

/-- The empty world state has every property of documents. -/
theorem holds_empty (P : Key → Stored → Prop) : World.empty.Holds P := by
  intro key value h
  simp [World.empty] at h

/-- A write of a document with the property keeps the property. -/
theorem holds_putState {P : Key → Stored → Prop} {w : World} (h : w.Holds P)
    (ctx : TransactionContext) (key : Key) (value : Stored) (hv : P key value) :
    (PutState ctx w key value).2.Holds P := by
  unfold PutState
  split
  · exact h
  · intro k v hk
    simp only at hk
    split at hk
    · rename_i hkey
      simp only [Option.some.injEq] at hk
      subst hk
      subst hkey
      exact hv
    · exact h k v hk

/-- The three writes of an evaluation keep a property that their documents have. -/
theorem holds_recordEvaluation {P : Key → Stored → Prop} {w : World} (h : w.Holds P)
    (ctx : TransactionContext) (sid aid eid hash : String) (service1 : Service)
    (hs : P (.simple sid) (.service service1))
    (he : ∀ e, P (.simple eid) (.evaluation e))
    (hi : P (.composite evaluationIndex ["Evaluation", eid]) .indexEntry) :
    (SmartContract.recordEvaluation ctx w sid aid eid hash service1).Holds P := by
  unfold SmartContract.recordEvaluation
  exact holds_putState (holds_putState (holds_putState h ctx _ _ hs) ctx _ _ (he _)) ctx _ _ hi

/-- The service `ReadService` returns has consistent agreements when the stored
services have. -/
theorem ReadService_consistent {w : World} (h : w.Holds ConsistentDocument)
    (ctx : TransactionContext) (sid : String) (service : Service)
    (hread : ReadService ctx w sid = .ok service) :
    ∀ a ∈ service.Agreements, a.Consistent := by
  unfold ReadService GetState at hread
  split at hread
  · simp at hread
  · simp at hread
  · rename_i jService hget
    split at hget
    · simp at hget
    · simp only [Except.ok.injEq] at hget
      have hdoc := h _ _ hget
      cases jService with
      | service s =>
        simp only [unmarshalService, Except.ok.injEq] at hread
        subst hread
        exact hdoc
      | evaluation e =>
        simp only [unmarshalService, Except.ok.injEq] at hread
        subst hread
        intro a ha
        simp at ha
      | accessKey k =>
        simp only [unmarshalService, Except.ok.injEq] at hread
        subst hread
        intro a ha
        simp at ha
      | indexEntry => simp [unmarshalService] at hread

/-- Under a key that holds no audit record, `ReadService` returns a stored
service. -/
theorem ReadService_separated {evaluationKeys : List String} {w : World}
    (h : w.Holds (SeparatedDocument evaluationKeys))
    (ctx : TransactionContext) (sid : String) (hsid : sid ∉ evaluationKeys)
    (service : Service) (hread : ReadService ctx w sid = .ok service) :
    service.RolledUp ∧ ∀ a ∈ service.Agreements, a.Consistent := by
  unfold ReadService GetState at hread
  split at hread
  · simp at hread
  · simp at hread
  · rename_i jService hget
    split at hget
    · simp at hget
    · simp only [Except.ok.injEq] at hget
      have hdoc := h _ _ hget
      cases jService with
      | service s =>
        simp only [unmarshalService, Except.ok.injEq] at hread
        subst hread
        exact hdoc
      | evaluation e =>
        obtain ⟨k, hk, hkey⟩ := hdoc
        simp only [Key.simple.injEq] at hkey
        subst hkey
        exact absurd hk hsid
      | accessKey k => exact False.elim hdoc
      | indexEntry => simp [unmarshalService] at hread

/-- Setting one agreement keeps the agreements consistent. -/
theorem consistent_set (l : List Agreement) (i : Nat) (b : Agreement)
    (hl : ∀ a ∈ l, a.Consistent) (hb : b.Consistent) :
    ∀ a ∈ l.set i b, a.Consistent := by
  intro a ha
  rcases List.mem_or_eq_of_mem_set ha with h | h
  · exact hl a h
  · rw [h]; exact hb

/-- A successful call keeps the agreements of every stored service consistent. -/
theorem invoke_consistent (ctx : TransactionContext) (w w1 : World) (c : Call)
    (h : w.Holds ConsistentDocument) (hc : c.invoke ctx w = some w1) :
    w1.Holds ConsistentDocument := by
  cases c with
  | CreateService id =>
    rw [CreateService_committed ctx w w1 id hc]
    refine holds_putState (holds_putState h ctx _ _ ?_) ctx _ _ trivial
    intro a ha
    simp [newService] at ha
  | AddAgreement sid aid cat hasPenalty items penaltyRules =>
    obtain ⟨service, aItems, aPenaltyRules, hread, -, -, hw⟩ :=
      AddAgreement_committed ctx w w1 sid aid cat hasPenalty items penaltyRules hc
    rw [hw]
    refine holds_putState h ctx _ _ ?_
    intro a ha
    rcases List.mem_append.mp ha with h1 | h1
    · exact ReadService_consistent h ctx sid service hread a h1
    · simp only [List.mem_singleton] at h1
      rw [h1]
      exact newAgreement_consistent _ _ _ _ _
  | UpdateAgreement sid aid cat hasPenalty items penaltyRules =>
    obtain ⟨service, aIndex, agreement, aItems, aPenaltyRules, hread, -, hidx, -, -, hw⟩ :=
      UpdateAgreement_committed ctx w w1 sid aid cat hasPenalty items penaltyRules hc
    rw [hw]
    refine holds_putState h ctx _ _ ?_
    have hs := ReadService_consistent h ctx sid service hread
    exact consistent_set _ _ _ hs
      (agreement_withTerms_consistent (hs agreement (mem_of_index _ _ _ hidx)) cat aItems hasPenalty
        aPenaltyRules)
  | RemoveAgreement sid aid =>
    obtain ⟨service, aIndex, hread, -, hw⟩ := RemoveAgreement_committed ctx w w1 sid aid hc
    rw [hw]
    refine holds_putState h ctx _ _ ?_
    intro a ha
    exact ReadService_consistent h ctx sid service hread a (List.mem_of_mem_eraseIdx ha)
  | EvaluateSLA sid aid eid eData hash atTime =>
    obtain ⟨service, aIndex, agreement, evaData, eResult, first, hread, -, hidx, -, -, -, hw⟩ :=
      EvaluateSLA_committed ctx w w1 sid aid eid eData hash atTime hc
    rw [hw]
    have hs := ReadService_consistent h ctx sid service hread
    refine holds_recordEvaluation h ctx sid aid eid hash _ ?_ (fun _ => trivial) trivial
    exact consistent_set _ _ _ hs
      (agreement_withFeedback_consistent (hs agreement (mem_of_index _ _ _ hidx)) _ _)
  | UpdateRuleAbidingRate sid aid eid hash atTime compensated =>
    obtain ⟨service, aIndex, agreement, first, hread, -, hidx, -, hw⟩ :=
      UpdateRuleAbidingRate_committed ctx w w1 sid aid eid hash atTime compensated hc
    rw [hw]
    have hs := ReadService_consistent h ctx sid service hread
    refine holds_recordEvaluation h ctx sid aid eid hash _ ?_ (fun _ => trivial) trivial
    exact consistent_set _ _ _ hs
      (agreement_withRuleViolation_consistent (hs agreement (mem_of_index _ _ _ hidx)) _ _)
  | HandleSatisfactionEvaluationEvent sid aid eid rid hash atTime satisfied enforce =>
    obtain ⟨service, aIndex, agreement, first, hread, -, hidx, -, hw⟩ :=
      HandleSatisfactionEvaluationEvent_committed ctx w w1 sid aid eid rid hash atTime
        satisfied enforce hc
    rw [hw]
    have hs := ReadService_consistent h ctx sid service hread
    refine holds_recordEvaluation h ctx sid aid eid hash _ ?_ (fun _ => trivial) trivial
    exact consistent_set _ _ _ hs
      (agreement_withFeedback_consistent (hs agreement (mem_of_index _ _ _ hidx)) _ _)
  | HandlePenaltyRuleEvaluationEvent sid aid eid hash atTime compensated =>
    obtain ⟨service, aIndex, agreement, first, hread, -, hidx, -, hw⟩ :=
      HandlePenaltyRuleEvaluationEvent_committed ctx w w1 sid aid eid hash atTime compensated hc
    rw [hw]
    have hs := ReadService_consistent h ctx sid service hread
    refine holds_recordEvaluation h ctx sid aid eid hash _ ?_ (fun _ => trivial) trivial
    exact consistent_set _ _ _ hs
      (agreement_withRuleViolation_consistent (hs agreement (mem_of_index _ _ _ hidx)) _ _)

/-- Every sequence of successful calls keeps the agreements of every stored
service consistent. -/
theorem runCalls_consistent (calls : List (TransactionContext × Call)) :
    ∀ (w w1 : World), w.Holds ConsistentDocument → runCalls w calls = some w1 →
      w1.Holds ConsistentDocument := by
  induction calls with
  | nil =>
    intro w w1 h hrun
    simp only [runCalls, Option.some.injEq] at hrun
    subst hrun
    exact h
  | cons c rest ih =>
    intro w w1 h hrun
    obtain ⟨ctx, call⟩ := c
    simp only [runCalls] at hrun
    split at hrun
    · simp at hrun
    · rename_i w2 hstep
      exact ih w2 w1 (invoke_consistent ctx w w2 call h hstep) hrun

/-- A successful call whose service id is no evaluation key and whose evaluation
id is one keeps the stored services rolled up. -/
theorem invoke_separated (evaluationKeys : List String) (ctx : TransactionContext)
    (w w1 : World) (c : Call)
    (h : w.Holds (SeparatedDocument evaluationKeys))
    (hsid : c.serviceId ∉ evaluationKeys)
    (heid : ∀ eid, c.evaluationId = some eid → eid ∈ evaluationKeys)
    (hc : c.invoke ctx w = some w1) :
    w1.Holds (SeparatedDocument evaluationKeys) := by
  cases c with
  | CreateService id =>
    rw [CreateService_committed ctx w w1 id hc]
    refine holds_putState (holds_putState h ctx _ _ ?_) ctx _ _ trivial
    refine ⟨newService_rolledUp id, ?_⟩
    intro a ha
    simp [newService] at ha
  | AddAgreement sid aid cat hasPenalty items penaltyRules =>
    obtain ⟨service, aItems, aPenaltyRules, hread, -, -, hw⟩ :=
      AddAgreement_committed ctx w w1 sid aid cat hasPenalty items penaltyRules hc
    rw [hw]
    obtain ⟨hr, hs⟩ := ReadService_separated h ctx sid hsid service hread
    refine holds_putState h ctx _ _ ⟨service_append_rolledUp service hr hs aid cat hasPenalty aItems aPenaltyRules, ?_⟩
    intro a ha
    rcases List.mem_append.mp ha with h1 | h1
    · exact hs a h1
    · simp only [List.mem_singleton] at h1
      rw [h1]
      exact newAgreement_consistent _ _ _ _ _
  | UpdateAgreement sid aid cat hasPenalty items penaltyRules =>
    obtain ⟨service, aIndex, agreement, aItems, aPenaltyRules, hread, -, hidx, -, -, hw⟩ :=
      UpdateAgreement_committed ctx w w1 sid aid cat hasPenalty items penaltyRules hc
    rw [hw]
    obtain ⟨hr, hs⟩ := ReadService_separated h ctx sid hsid service hread
    refine holds_putState h ctx _ _
      ⟨service_withTerms_rolledUp service hr aIndex agreement cat aItems hasPenalty aPenaltyRules
        hidx, ?_⟩
    exact consistent_set _ _ _ hs
      (agreement_withTerms_consistent (hs agreement (mem_of_index _ _ _ hidx)) cat aItems hasPenalty
        aPenaltyRules)
  | RemoveAgreement sid aid =>
    obtain ⟨service, aIndex, hread, -, hw⟩ := RemoveAgreement_committed ctx w w1 sid aid hc
    rw [hw]
    obtain ⟨-, hs⟩ := ReadService_separated h ctx sid hsid service hread
    refine holds_putState h ctx _ _ ⟨service_withoutAgreement_rolledUp service aIndex, ?_⟩
    intro a ha
    exact hs a (List.mem_of_mem_eraseIdx ha)
  | EvaluateSLA sid aid eid eData hash atTime =>
    obtain ⟨service, aIndex, agreement, evaData, eResult, first, hread, -, hidx, -, -, hfirst,
      hw⟩ := EvaluateSLA_committed ctx w w1 sid aid eid eData hash atTime hc
    rw [hw]
    obtain ⟨hr, hs⟩ := ReadService_separated h ctx sid hsid service hread
    refine holds_recordEvaluation h ctx sid aid eid hash _ ⟨?_, ?_⟩
      (fun _ => ⟨eid, heid eid rfl, rfl⟩) trivial
    · exact service_withFeedback_rolledUp service hr aIndex agreement first _ atTime hidx hfirst
    · exact consistent_set _ _ _ hs
        (agreement_withFeedback_consistent (hs agreement (mem_of_index _ _ _ hidx)) _ _)
  | UpdateRuleAbidingRate sid aid eid hash atTime compensated =>
    obtain ⟨service, aIndex, agreement, first, hread, -, hidx, hfirst, hw⟩ :=
      UpdateRuleAbidingRate_committed ctx w w1 sid aid eid hash atTime compensated hc
    rw [hw]
    obtain ⟨hr, hs⟩ := ReadService_separated h ctx sid hsid service hread
    refine holds_recordEvaluation h ctx sid aid eid hash _ ⟨?_, ?_⟩
      (fun _ => ⟨eid, heid eid rfl, rfl⟩) trivial
    · exact service_withRuleViolation_rolledUp service hr aIndex agreement first _ atTime hidx
        hfirst
    · exact consistent_set _ _ _ hs
        (agreement_withRuleViolation_consistent (hs agreement (mem_of_index _ _ _ hidx)) _ _)
  | HandleSatisfactionEvaluationEvent sid aid eid rid hash atTime satisfied enforce =>
    obtain ⟨service, aIndex, agreement, first, hread, -, hidx, hfirst, hw⟩ :=
      HandleSatisfactionEvaluationEvent_committed ctx w w1 sid aid eid rid hash atTime
        satisfied enforce hc
    rw [hw]
    obtain ⟨hr, hs⟩ := ReadService_separated h ctx sid hsid service hread
    refine holds_recordEvaluation h ctx sid aid eid hash _ ⟨?_, ?_⟩
      (fun _ => ⟨eid, heid eid rfl, rfl⟩) trivial
    · exact service_withFeedback_rolledUp service hr aIndex agreement first _ atTime hidx hfirst
    · exact consistent_set _ _ _ hs
        (agreement_withFeedback_consistent (hs agreement (mem_of_index _ _ _ hidx)) _ _)
  | HandlePenaltyRuleEvaluationEvent sid aid eid hash atTime compensated =>
    obtain ⟨service, aIndex, agreement, first, hread, -, hidx, hfirst, hw⟩ :=
      HandlePenaltyRuleEvaluationEvent_committed ctx w w1 sid aid eid hash atTime compensated hc
    rw [hw]
    obtain ⟨hr, hs⟩ := ReadService_separated h ctx sid hsid service hread
    refine holds_recordEvaluation h ctx sid aid eid hash _ ⟨?_, ?_⟩
      (fun _ => ⟨eid, heid eid rfl, rfl⟩) trivial
    · exact service_withRuleViolation_rolledUp service hr aIndex agreement first _ atTime hidx
        hfirst
    · exact consistent_set _ _ _ hs
        (agreement_withRuleViolation_consistent (hs agreement (mem_of_index _ _ _ hidx)) _ _)

/-- Every sequence of successful calls that keeps service ids apart from
evaluation keys keeps the stored services rolled up. -/
theorem runCalls_separated (evaluationKeys : List String)
    (calls : List (TransactionContext × Call)) :
    ∀ (w w1 : World), w.Holds (SeparatedDocument evaluationKeys) →
      (∀ c ∈ calls, c.2.serviceId ∉ evaluationKeys ∧
        ∀ eid, c.2.evaluationId = some eid → eid ∈ evaluationKeys) →
      runCalls w calls = some w1 → w1.Holds (SeparatedDocument evaluationKeys) := by
  induction calls with
  | nil =>
    intro w w1 h _ hrun
    simp only [runCalls, Option.some.injEq] at hrun
    subst hrun
    exact h
  | cons c rest ih =>
    intro w w1 h hkeys hrun
    obtain ⟨ctx, call⟩ := c
    simp only [runCalls] at hrun
    split at hrun
    · simp at hrun
    · rename_i w2 hstep
      have hc := hkeys (ctx, call) (List.mem_cons_self _ _)
      exact ih w2 w1 (invoke_separated evaluationKeys ctx w w2 call h hc.1 hc.2 hstep)
        (fun c hcmem => hkeys c (List.mem_cons_of_mem _ hcmem)) hrun

/-! ## Reachable world states -/

/-- The calls of the worked example all succeed. -/
theorem feedbackCalls_run : runCalls World.empty feedbackCalls = some feedbackWorld := by
  rfl

/-- The service stored after the worked example. -/
theorem feedbackWorld_service :
    feedbackWorld (.simple "s") = some (.service feedbackService) := by
  simp [feedbackWorld, runCalls, feedbackCalls, Call.invoke, committed,
    SmartContract.CreateService, SmartContract.AddAgreement,
    SmartContract.HandleSatisfactionEvaluationEvent, ServiceExists, ReadService, GetState,
    PutState, World.empty, reliableContext, CreateCompositeKey, unmarshalService,
    findAgreement, index, minSatisfactionRate, feedbackService, feedbackAgreement]

/-- C1 as amended: in every world state reached from the empty state by a
sequence of successful CreateService, AddAgreement, UpdateAgreement,
RemoveAgreement, EvaluateSLA, UpdateRuleAbidingRate,
HandleSatisfactionEvaluationEvent and HandlePenaltyRuleEvaluationEvent calls in
which no call addresses a service id that the sequence also supplies as an
evaluation id, the SatisfactionRate of every stored service is the minimum of
the SatisfactionRate of its agreements, its RuleAbidingRate is the minimum of
their RuleAbidingRate, and both are 1 when it has no agreement. -/
theorem rollup_reachable (calls : List (TransactionContext × Call)) (w : World)
    (hrun : runCalls World.empty calls = some w)
    (hkeys : ∀ c ∈ calls, c.2.serviceId ∉ evaluationIds calls)
    (key : Key) (s : Service) (hs : w key = some (.service s)) :
    IsRollup s.SatisfactionRate (s.Agreements.map (fun a => a.SatisfactionRate)) ∧
    IsRollup s.RuleAbidingRate (s.Agreements.map (fun a => a.RuleAbidingRate)) := by
  have h := runCalls_separated (evaluationIds calls) calls World.empty w
    (holds_empty _)
    (fun c hc => ⟨hkeys c hc, fun eid heid =>
      List.mem_filterMap.mpr ⟨c, hc, heid⟩⟩) hrun
  exact (h key (.service s) hs).1

/-- Witness of C1 as amended: a service with one agreement, after an unsatisfied
feedback recorded under an evaluation id of its own, has rates 0 and 1. -/
theorem rollup_reachable_witness :
    IsRollup feedbackService.SatisfactionRate
      (feedbackService.Agreements.map (fun a => a.SatisfactionRate)) ∧
    IsRollup feedbackService.RuleAbidingRate
      (feedbackService.Agreements.map (fun a => a.RuleAbidingRate)) :=
  rollup_reachable feedbackCalls feedbackWorld feedbackCalls_run
    (by decide) (.simple "s") feedbackService feedbackWorld_service

/-- Counterexample to C1 as stated: after CreateService s, AddAgreement s a, an
unsatisfied HandleSatisfactionEvaluationEvent on s and a with evaluation id s,
and AddAgreement s b, all four successful, the service stored under s has
SatisfactionRate 0 and RuleAbidingRate 0 while its only agreement has both rates
1. -/
theorem rollup_broken_by_key_collision :
    runCalls World.empty collidingCalls = some collidedWorld ∧
    collidedWorld (.simple "s") = some (.service collidedService) ∧
    ¬ IsRollup collidedService.SatisfactionRate
      (collidedService.Agreements.map (fun a => a.SatisfactionRate)) ∧
    ¬ IsRollup collidedService.RuleAbidingRate
      (collidedService.Agreements.map (fun a => a.RuleAbidingRate)) := by
  refine ⟨rfl, ?_, ?_, ?_⟩
  · simp [collidedWorld, runCalls, collidingCalls, Call.invoke, committed,
      SmartContract.CreateService, SmartContract.AddAgreement,
      SmartContract.HandleSatisfactionEvaluationEvent, ServiceExists, ReadService, GetState,
      PutState, World.empty, reliableContext, CreateCompositeKey, unmarshalService,
      findAgreement, index, minSatisfactionRate, collidedService, newAgreement]
  · simp [IsRollup, collidedService, newAgreement]
  · simp [IsRollup, collidedService, newAgreement]

/-- C2: in every world state reached from the empty state by successful calls,
every agreement of every stored service has SatisfactionRate equal to
(TotalFeedbacks - TotalUnsatisfied) / TotalFeedbacks when TotalFeedbacks > 0 and
to 1 when TotalFeedbacks = 0, and RuleAbidingRate equal to
(TotalRuleViolations - TotalRuleViolationWithoutCompensations) /
TotalRuleViolations when TotalRuleViolations > 0 and to 1 when
TotalRuleViolations = 0, the rates being exact rationals. -/
theorem rates_derived_reachable (calls : List (TransactionContext × Call)) (w : World)
    (hrun : runCalls World.empty calls = some w)
    (key : Key) (s : Service) (hs : w key = some (.service s))
    (a : Agreement) (ha : a ∈ s.Agreements) :
    a.SatisfactionRate =
      (if a.TotalFeedbacks = 0 then 1
       else ((a.TotalFeedbacks : ℚ) - (a.TotalUnsatisfied : ℚ)) / (a.TotalFeedbacks : ℚ)) ∧
    a.RuleAbidingRate =
      (if a.TotalRuleViolations = 0 then 1
       else ((a.TotalRuleViolations : ℚ) - (a.TotalRuleViolationWithoutCompensations : ℚ)) /
         (a.TotalRuleViolations : ℚ)) := by
  have h := runCalls_consistent calls World.empty w (holds_empty _) hrun
  have hc : a.Consistent := h key (.service s) hs a ha
  exact ⟨hc.2.2.1, hc.2.2.2⟩

/-- Witness of C2: the agreement with one feedback, unsatisfied, and no rule
violation has rates (1 - 1) / 1 and 1. -/
theorem rates_derived_reachable_witness :
    feedbackAgreement.SatisfactionRate =
      (if feedbackAgreement.TotalFeedbacks = 0 then 1
       else ((feedbackAgreement.TotalFeedbacks : ℚ) - (feedbackAgreement.TotalUnsatisfied : ℚ)) /
         (feedbackAgreement.TotalFeedbacks : ℚ)) ∧
    feedbackAgreement.RuleAbidingRate =
      (if feedbackAgreement.TotalRuleViolations = 0 then 1
       else ((feedbackAgreement.TotalRuleViolations : ℚ) -
           (feedbackAgreement.TotalRuleViolationWithoutCompensations : ℚ)) /
         (feedbackAgreement.TotalRuleViolations : ℚ)) :=
  rates_derived_reachable feedbackCalls feedbackWorld feedbackCalls_run (.simple "s")
    feedbackService feedbackWorld_service feedbackAgreement (List.mem_singleton.mpr rfl)

/-- C3: in every world state reached from the empty state by successful calls,
so after any sequence of evaluation and rule events on an agreement created by
AddAgreement, every agreement has TotalUnsatisfied <= TotalFeedbacks and
TotalRuleViolationWithoutCompensations <= TotalRuleViolations, and its
SatisfactionRate and RuleAbidingRate lie in the interval [0,1]. -/
theorem rates_bounded_reachable (calls : List (TransactionContext × Call)) (w : World)
    (hrun : runCalls World.empty calls = some w)
    (key : Key) (s : Service) (hs : w key = some (.service s))
    (a : Agreement) (ha : a ∈ s.Agreements) :
    a.TotalUnsatisfied ≤ a.TotalFeedbacks ∧
    a.TotalRuleViolationWithoutCompensations ≤ a.TotalRuleViolations ∧
    (0 ≤ a.SatisfactionRate ∧ a.SatisfactionRate ≤ 1) ∧
    (0 ≤ a.RuleAbidingRate ∧ a.RuleAbidingRate ≤ 1) := by
  have h := runCalls_consistent calls World.empty w (holds_empty _) hrun
  have hc : a.Consistent := h key (.service s) hs a ha
  exact ⟨hc.1, hc.2.1, consistent_satisfaction_bounds hc, consistent_rule_bounds hc⟩

/-- Witness of C3: the agreement with one unsatisfied feedback. -/
theorem rates_bounded_reachable_witness :
    feedbackAgreement.TotalUnsatisfied ≤ feedbackAgreement.TotalFeedbacks ∧
    feedbackAgreement.TotalRuleViolationWithoutCompensations ≤
      feedbackAgreement.TotalRuleViolations ∧
    (0 ≤ feedbackAgreement.SatisfactionRate ∧ feedbackAgreement.SatisfactionRate ≤ 1) ∧
    (0 ≤ feedbackAgreement.RuleAbidingRate ∧ feedbackAgreement.RuleAbidingRate ≤ 1) :=
  rates_bounded_reachable feedbackCalls feedbackWorld feedbackCalls_run (.simple "s")
    feedbackService feedbackWorld_service feedbackAgreement (List.mem_singleton.mpr rfl)

/-! ## Room size -/

/-- C11: VerifyRoomSizeAgreement fails with a code mismatch when the evidence
code is not RSI001; otherwise, when the evidence Value and the Value of the first
agreement item are numbers (and the penalty rules are non-empty when
HasPenaltyRule is true), it returns a verdict that is satisfied if and only if
the evidence Value is at least the item Value, carrying `PenaltyRules[0]` iff
HasPenaltyRule. -/
theorem VerifyRoomSizeAgreement_spec (a : Agreement) (data : EvaluationData) :
    (data.Code ≠ AgreementItemCodeRoomDesignSize →
      VerifyRoomSizeAgreement a data = .error .CodeMismatch) ∧
    (data.Code = AgreementItemCodeRoomDesignSize →
      ∀ (item : AgreementItem) (items : List AgreementItem) (observed required : ℚ),
        a.Items = item :: items →
        data.Value = .number observed → item.Value = .number required →
        (a.HasPenaltyRule = true → a.PenaltyRules ≠ []) →
        VerifyRoomSizeAgreement a data =
          .ok { Satisfied := decide (observed ≥ required),
                PenaltyRule := if a.HasPenaltyRule then a.PenaltyRules.head? else none,
                FailureReason := "" }) := by
  constructor
  · intro hcode
    simp [VerifyRoomSizeAgreement, hcode]
  · intro hcode item items observed required hitems hobs hreq hrules
    cases hp : a.HasPenaltyRule with
    | false =>
      simp [VerifyRoomSizeAgreement, hcode, hp, hitems, hobs, hreq, index, assertFloat64]
    | true =>
      cases hr : a.PenaltyRules with
      | nil => exact absurd hr (hrules hp)
      | cons rule rest =>
        simp [VerifyRoomSizeAgreement, hcode, hp, hitems, hobs, hreq, hr, index, assertFloat64]

/-- Witness of C11: a room of 30 against a requirement of 25 is satisfied, a room
of 20 is not, and evidence under another code fails. -/
theorem VerifyRoomSizeAgreement_spec_witness :
    VerifyRoomSizeAgreement (sampleAgreement "room_design" [roomItem 25])
        (roomEvidence "RSI001" 30) =
      .ok { Satisfied := true, PenaltyRule := some ⟨"discount", 10⟩, FailureReason := "" } ∧
    VerifyRoomSizeAgreement (sampleAgreement "room_design" [roomItem 25])
        (roomEvidence "RSI001" 20) =
      .ok { Satisfied := false, PenaltyRule := some ⟨"discount", 10⟩, FailureReason := "" } ∧
    VerifyRoomSizeAgreement (sampleAgreement "room_design" [roomItem 25])
        (roomEvidence "V001" 30) = .error .CodeMismatch := by
  refine ⟨?_, ?_, ?_⟩
  · rw [(VerifyRoomSizeAgreement_spec (sampleAgreement "room_design" [roomItem 25])
      (roomEvidence "RSI001" 30)).2 rfl (roomItem 25) [] 30 25 rfl rfl rfl
      (by simp [sampleAgreement])]
    norm_num [sampleAgreement]
  · rw [(VerifyRoomSizeAgreement_spec (sampleAgreement "room_design" [roomItem 25])
      (roomEvidence "RSI001" 20)).2 rfl (roomItem 25) [] 20 25 rfl rfl rfl
      (by simp [sampleAgreement])]
    norm_num [sampleAgreement]
  · exact (VerifyRoomSizeAgreement_spec (sampleAgreement "room_design" [roomItem 25])
      (roomEvidence "V001" 30)).1 (by decide)

/-! ## The dispatcher -/

/-- `StringInSlice` is membership. -/
theorem StringInSlice_iff (str : String) (l : List String) :
    StringInSlice str l = true ↔ str ∈ l := by
  induction l with
  | nil => simp [StringInSlice]
  | cons s rest ih =>
    by_cases h : s = str
    · simp [StringInSlice, h]
    · have h2 : ¬ str = s := fun e => h e.symm
      simp [StringInSlice, h, h2, ih]

/-- With a first agreement item and non-empty evidence, `VerifySLA` on a service
or room-design agreement switches on the code of the first agreement item. -/
theorem VerifySLA_by_item (a : Agreement) (first : EvaluationData)
    (rest : List EvaluationData) (item : AgreementItem) (items : List AgreementItem)
    (hitems : a.Items = item :: items)
    (hrules : a.HasPenaltyRule = true → a.PenaltyRules ≠ []) :
    (a.Category = AgreementCategoryService →
      VerifySLA a (first :: rest) =
        if item.Code = AgreementItemCodeServiceAirportShuttle then
          VerifyAirportShuttleAgreement a first
        else if item.Code = AgreementItemCodeServiceSauna then VerifySaunaAgreement a first
        else .error .UnsupportedItemCode) ∧
    (a.Category = AgreementCategoryRoomDesign →
      VerifySLA a (first :: rest) =
        if item.Code = AgreementItemCodeRoomDesignSize then VerifyRoomSizeAgreement a first
        else .error .UnsupportedItemCode) := by
  have hs1 : StringInSlice AgreementCategoryService SupportedAgreementCategories = true := by
    decide
  have hs2 : StringInSlice AgreementCategoryRoomDesign SupportedAgreementCategories = true := by
    decide
  have h1 : ¬ AgreementCategoryRoomDesign = AgreementCategoryService := by decide
  constructor
  · intro hcat
    cases hp : a.HasPenaltyRule with
    | false => simp [VerifySLA, hcat, hs1, hp, hitems, index]
    | true =>
      cases hr : a.PenaltyRules with
      | nil => exact absurd hr (hrules hp)
      | cons rule more => simp [VerifySLA, hcat, hs1, hp, hr, hitems, index]
  · intro hcat
    cases hp : a.HasPenaltyRule with
    | false => simp [VerifySLA, hcat, hs2, h1, hp, hitems, index]
    | true =>
      cases hr : a.PenaltyRules with
      | nil => exact absurd hr (hrules hp)
      | cons rule more => simp [VerifySLA, hcat, hs2, h1, hp, hr, hitems, index]

/-- C12 as amended: for a supported agreement with a first item (penalty rules
non-empty when HasPenaltyRule is true) and non-empty evidence, VerifySLA chooses
the evaluator from the agreement category and the code of the first agreement
item: for category service, item code SAS001 yields the result of
VerifyAirportShuttleAgreement on the first evidence entry and SSA001 the result
of VerifySaunaAgreement; for category room_design, RSI001 yields the result of
VerifyRoomSizeAgreement, whatever code the first evidence entry carries. -/
theorem VerifySLA_dispatch (a : Agreement) (first : EvaluationData)
    (rest : List EvaluationData) (item : AgreementItem) (items : List AgreementItem)
    (hitems : a.Items = item :: items)
    (hrules : a.HasPenaltyRule = true → a.PenaltyRules ≠ []) :
    (a.Category = AgreementCategoryService →
      item.Code = AgreementItemCodeServiceAirportShuttle →
      VerifySLA a (first :: rest) = VerifyAirportShuttleAgreement a first) ∧
    (a.Category = AgreementCategoryService →
      item.Code = AgreementItemCodeServiceSauna →
      VerifySLA a (first :: rest) = VerifySaunaAgreement a first) ∧
    (a.Category = AgreementCategoryRoomDesign →
      item.Code = AgreementItemCodeRoomDesignSize →
      VerifySLA a (first :: rest) = VerifyRoomSizeAgreement a first) := by
  obtain ⟨hservice, hroom⟩ := VerifySLA_by_item a first rest item items hitems hrules
  refine ⟨fun hcat hcode => ?_, fun hcat hcode => ?_, fun hcat hcode => ?_⟩
  · rw [hservice hcat, if_pos hcode]
  · have hne : ¬ item.Code = AgreementItemCodeServiceAirportShuttle := by
      rw [hcode]; decide
    rw [hservice hcat, if_neg hne, if_pos hcode]
  · rw [hroom hcat, if_pos hcode]

/-- Witness of C12 as amended: a sauna agreement sends evidence that carries the
airport-shuttle code to the sauna evaluator. -/
theorem VerifySLA_dispatch_witness :
    VerifySLA (sampleAgreement "service" [saunaItem]) [shuttleRide "canceled" 600 605 0] =
      VerifySaunaAgreement (sampleAgreement "service" [saunaItem])
        (shuttleRide "canceled" 600 605 0) :=
  (VerifySLA_dispatch (sampleAgreement "service" [saunaItem])
    (shuttleRide "canceled" 600 605 0) [] saunaItem [] rfl (by simp [sampleAgreement])).2.1
    rfl rfl

/-- Counterexample to C12 as stated: a service agreement whose first item is the
sauna item, with evidence of code SAS001 and status canceled.  VerifySLA fails
with a code mismatch, whereas VerifyAirportShuttleAgreement on that evidence
returns satisfied. -/
theorem VerifySLA_ignores_evidence_code :
    (shuttleRide "canceled" 600 605 0).Code = AgreementItemCodeServiceAirportShuttle ∧
    VerifySLA (sampleAgreement "service" [saunaItem]) [shuttleRide "canceled" 600 605 0] =
      .error .CodeMismatch ∧
    VerifyAirportShuttleAgreement (sampleAgreement "service" [saunaItem])
        (shuttleRide "canceled" 600 605 0) =
      .ok { Satisfied := true, PenaltyRule := none, FailureReason := "" } := by
  refine ⟨rfl, ?_, ?_⟩
  · simp [VerifySLA, sampleAgreement, saunaItem, shuttleRide, StringInSlice,
      SupportedAgreementCategories, index, VerifySaunaAgreement, AgreementCategoryView,
      AgreementCategoryService, AgreementCategoryInterior, AgreementCategoryRoomDesign,
      AgreementCategoryOutdoor, AgreementCategoryBed, AgreementItemCodeServiceSauna,
      AgreementItemCodeServiceAirportShuttle]
  · simp [VerifyAirportShuttleAgreement, shuttleRide, AgreementItemCodeServiceAirportShuttle,
      AirportShuttleStatusDriverWaiting, AirportShuttleStatusInService,
      AirportShuttleStatusCanceled]

/-- An index expression fails with an index panic only. -/
theorem index_eq_error {α : Type} (xs : List α) (i : Nat) (e : Failure) :
    index xs i = .error e ↔ e = .IndexOutOfRange ∧ xs.get? i = none := by
  unfold index
  cases xs.get? i with
  | none =>
    simp only [Except.error.injEq, and_true]
    exact eq_comm
  | some x => simp

/-- The airport-shuttle evaluator never reports an unsupported category. -/
theorem VerifyAirportShuttleAgreement_ne_unsupportedCategory (a : Agreement)
    (data : EvaluationData) :
    VerifyAirportShuttleAgreement a data ≠ .error .UnsupportedCategory := by
  unfold VerifyAirportShuttleAgreement
  repeat' split
  all_goals
    first
    | (simp_all [index_eq_error]; done)
    | (simp_all [index_eq_error]; (repeat' split) <;> simp)

/-- The verdict at the threshold of the sauna scan is no unsupported category. -/
theorem saunaUnsatisfied_ne_unsupportedCategory (a : Agreement) :
    saunaUnsatisfied a ≠ .error .UnsupportedCategory := by
  unfold saunaUnsatisfied
  repeat' split
  all_goals simp_all [index_eq_error]

/-- The sauna scan never reports an unsupported category. -/
theorem saunaScan_ne_unsupportedCategory (a : Agreement) (requests : List SaunaRequest) :
    ∀ (idx : Option Time) (numFailures : Int),
      saunaScan a idx numFailures requests ≠ .error .UnsupportedCategory := by
  induction requests with
  | nil => intro idx n h; simp [saunaScan] at h
  | cons req rest ih =>
    intro idx n
    unfold saunaScan
    by_cases hfail : req.Status = SaunaRequestStatusFail
    · cases idx with
      | none =>
        simp only [hfail, if_true]
        repeat' split
        all_goals
          first
          | exact saunaUnsatisfied_ne_unsupportedCategory a
          | exact ih _ _
          | simp_all [index_eq_error]
      | some previous =>
        simp only [hfail, if_true]
        cases hitem : index a.Items 0 with
        | error e =>
          have := (index_eq_error _ _ _).mp hitem
          simp [this.1]
        | ok item =>
          by_cases hgap :
              (req.RequestAt.Sub previous).Minutes ≥ float64 (item.MinTimeBetween2Failures : ℚ)
          · simp only [if_pos hgap]
            split
            · exact saunaUnsatisfied_ne_unsupportedCategory a
            · exact ih _ _
          · simp only [if_neg hgap]
            split
            · exact saunaUnsatisfied_ne_unsupportedCategory a
            · exact ih _ _
    · simp only [hfail, if_false]
      repeat' split
      all_goals
        first
        | exact saunaUnsatisfied_ne_unsupportedCategory a
        | exact ih _ _
        | simp_all [index_eq_error]

/-- The sauna evaluator never reports an unsupported category. -/
theorem VerifySaunaAgreement_ne_unsupportedCategory (a : Agreement) (data : EvaluationData) :
    VerifySaunaAgreement a data ≠ .error .UnsupportedCategory := by
  unfold VerifySaunaAgreement
  split
  · simp
  · exact saunaScan_ne_unsupportedCategory a _ _ _

/-- A failed type assertion is no unsupported category. -/
theorem assertFloat64_eq_error (v : Dynamic) (e : Failure) :
    assertFloat64 v = .error e → e = .TypeAssertion := by
  cases v <;> simp [assertFloat64] <;> exact fun h => h.symm

/-- The penalty rule read under `HasPenaltyRule` fails with an index panic only. -/
theorem penaltyRule_eq_error (a : Agreement) (e : Failure)
    (h : (if a.HasPenaltyRule = true then
        match index a.PenaltyRules 0 with
        | .error e => (.error e : Except Failure (Option PenaltyRule))
        | .ok rule => .ok (some rule)
      else .ok none) = .error e) : e = .IndexOutOfRange := by
  split at h
  · split at h
    · rename_i e1 heq
      simp only [Except.error.injEq] at h
      rw [← h]
      exact ((index_eq_error _ _ _).mp heq).1
    · simp at h
  · simp at h

/-- The room-size evaluator never reports an unsupported category. -/
theorem VerifyRoomSizeAgreement_ne_unsupportedCategory (a : Agreement)
    (data : EvaluationData) :
    VerifyRoomSizeAgreement a data ≠ .error .UnsupportedCategory := by
  unfold VerifyRoomSizeAgreement
  split
  · simp
  · simp only
    split
    · rename_i e heq
      rw [penaltyRule_eq_error a e heq]
      simp
    · split
      · rename_i e heq
        rw [assertFloat64_eq_error _ e heq]
        simp
      · split
        · rename_i e heq
          rw [((index_eq_error _ _ _).mp heq).1]
          simp
        · split
          · rename_i e heq
            rw [assertFloat64_eq_error _ e heq]
            simp
          · simp

/-- The bed evaluator never reports an unsupported category. -/
theorem VerifyBedAgreement_ne_unsupportedCategory (a : Agreement)
    (data : List EvaluationData) :
    VerifyBedAgreement a data ≠ .error .UnsupportedCategory := by
  unfold VerifyBedAgreement
  simp only
  split
  · rename_i e heq
    rw [penaltyRule_eq_error a e heq]
    simp
  · simp

/-- C13: VerifySLA fails with the unsupported-category error for every agreement
whose Category is not one of view, service, interior, room_design, outdoor, bed,
whatever the items, penalty rules and evidence are, and never fails with that
error for a category of that set. -/
theorem VerifySLA_unsupportedCategory (a : Agreement) (eData : List EvaluationData) :
    (a.Category ∉ ["view", "service", "interior", "room_design", "outdoor", "bed"] →
      VerifySLA a eData = .error .UnsupportedCategory) ∧
    (a.Category ∈ ["view", "service", "interior", "room_design", "outdoor", "bed"] →
      VerifySLA a eData ≠ .error .UnsupportedCategory) := by
  have hlist : SupportedAgreementCategories =
      ["view", "service", "interior", "room_design", "outdoor", "bed"] := rfl
  constructor
  · intro hcat
    have hsup : StringInSlice a.Category SupportedAgreementCategories = false := by
      rw [← Bool.not_eq_true, StringInSlice_iff, hlist]
      exact hcat
    simp [VerifySLA, hsup]
  · intro hcat h
    have hsup : StringInSlice a.Category SupportedAgreementCategories = true := by
      rw [StringInSlice_iff, hlist]
      exact hcat
    revert h
    unfold VerifySLA
    simp only [hsup, Bool.true_eq_false, if_false]
    split
    · rename_i e heq
      rw [penaltyRule_eq_error a e heq]
      simp
    · split
      · simp
      · repeat' split
        all_goals
          first
          | exact VerifyAirportShuttleAgreement_ne_unsupportedCategory _ _
          | exact VerifySaunaAgreement_ne_unsupportedCategory _ _
          | exact VerifyRoomSizeAgreement_ne_unsupportedCategory _ _
          | exact VerifyBedAgreement_ne_unsupportedCategory _ _
          | simp_all [index_eq_error]

/-- Witness of C13: the categories facility and the empty string are refused,
whatever the evidence; the category bed is not refused as unsupported. -/
theorem VerifySLA_unsupportedCategory_witness :
    VerifySLA (sampleAgreement "facility" [plainItem "IBA001" 1]) [plainEvidence "IBA001" 1] =
      .error .UnsupportedCategory ∧
    VerifySLA (sampleAgreement "" []) [] = .error .UnsupportedCategory ∧
    VerifySLA (sampleAgreement "bed" []) [] ≠ .error .UnsupportedCategory :=
  ⟨(VerifySLA_unsupportedCategory (sampleAgreement "facility" [plainItem "IBA001" 1])
      [plainEvidence "IBA001" 1]).1 (by decide),
   (VerifySLA_unsupportedCategory (sampleAgreement "" []) []).1 (by decide),
   (VerifySLA_unsupportedCategory (sampleAgreement "bed" []) []).2 (by decide)⟩

/-- C14: for every agreement with a supported category, with penalty rules
non-empty when HasPenaltyRule is true, and an empty evidence list, VerifySLA
returns a verdict with Satisfied = false and FailureReason = "no data to
evaluate" that carries `PenaltyRules[0]` iff HasPenaltyRule, whatever the items
are. -/
theorem VerifySLA_no_data (a : Agreement)
    (hcat : a.Category ∈ ["view", "service", "interior", "room_design", "outdoor", "bed"])
    (hrules : a.HasPenaltyRule = true → a.PenaltyRules ≠ []) :
    VerifySLA a [] =
      .ok { Satisfied := false,
            PenaltyRule := if a.HasPenaltyRule then a.PenaltyRules.head? else none,
            FailureReason := "no data to evaluate" } := by
  have hsup : StringInSlice a.Category SupportedAgreementCategories = true := by
    rw [StringInSlice_iff]
    exact hcat
  cases hp : a.HasPenaltyRule with
  | false => simp [VerifySLA, hsup, hp]
  | true =>
    cases hr : a.PenaltyRules with
    | nil => exact absurd hr (hrules hp)
    | cons rule more => simp [VerifySLA, hsup, hp, hr, index]

/-- Witness of C14: a service agreement without items and with penalty rules. -/
theorem VerifySLA_no_data_witness :
    VerifySLA (sampleAgreement "service" []) [] =
      .ok { Satisfied := false, PenaltyRule := some ⟨"discount", 10⟩,
            FailureReason := "no data to evaluate" } :=
  VerifySLA_no_data (sampleAgreement "service" []) (by decide) (by simp [sampleAgreement])

/-! ## Penalty tiers of the airport shuttle -/

/-- An index at or beyond the length panics. -/
theorem index_of_length_le {α : Type} (xs : List α) (i : Nat) (h : xs.length ≤ i) :
    index xs i = .error .IndexOutOfRange := by
  unfold index
  rw [List.get?_eq_none.mpr h]

/-- C15: when airport-shuttle verification reaches an unsatisfied verdict of tier
i (0 for not_served and for a failed waiting_time_exceeded check, 1 or 2 for a
late ride of any other evaluable status) and the agreement has at most i penalty
rules, VerifyAirportShuttleAgreement fails with an index panic and returns no
verdict. -/
theorem VerifyAirportShuttleAgreement_missing_tier (a : Agreement) (data : EvaluationData)
    (hcode : data.Code = AgreementItemCodeServiceAirportShuttle) :
    (data.Status = AirportShuttleStatusNotServed → a.PenaltyRules.length ≤ 0 →
      VerifyAirportShuttleAgreement a data = .error .IndexOutOfRange) ∧
    (data.Status = AirportShuttleStatusWaitingTimeExceeded →
      ∀ (item : AgreementItem) (items : List AgreementItem), a.Items = item :: items →
        ¬ ((data.DriverNotifyCustomerDoNotShowUpAt.Sub data.PickUpTime).Minutes
              > (item.DriverMaxWaitTime : ℚ) ∧
            (data.DriverArriveAt.Sub data.PickUpTime).Minutes
              ≤ (item.CustomerShortWaitTime : ℚ)) →
        a.PenaltyRules.length ≤ 0 →
        VerifyAirportShuttleAgreement a data = .error .IndexOutOfRange) ∧
    (data.Status ≠ AirportShuttleStatusCanceled →
      data.Status ≠ AirportShuttleStatusNotServed →
      data.Status ≠ AirportShuttleStatusWaitingTimeExceeded →
      data.Status ≠ AirportShuttleStatusDriverWaiting →
      data.Status ≠ AirportShuttleStatusInService →
      ∀ (item : AgreementItem) (items : List AgreementItem), a.Items = item :: items →
        (item.CustomerShortWaitTime : ℚ) < (data.DriverArriveAt.Sub data.PickUpTime).Minutes →
        ((data.DriverArriveAt.Sub data.PickUpTime).Minutes ≤ (item.CustomerLongWaitTime : ℚ) →
          a.PenaltyRules.length ≤ 1 →
          VerifyAirportShuttleAgreement a data = .error .IndexOutOfRange) ∧
        ((item.CustomerLongWaitTime : ℚ) < (data.DriverArriveAt.Sub data.PickUpTime).Minutes →
          a.PenaltyRules.length ≤ 2 →
          VerifyAirportShuttleAgreement a data = .error .IndexOutOfRange)) := by
  refine ⟨fun hstatus hlen => ?_, fun hstatus item items hitems hcond hlen => ?_,
    fun h1 h2 h3 h4 h5 item items hitems hshort => ⟨fun hlong hlen => ?_, fun hlong hlen => ?_⟩⟩
  · have d1 : ¬ (AirportShuttleStatusNotServed = AirportShuttleStatusDriverWaiting ∨
        AirportShuttleStatusNotServed = AirportShuttleStatusInService) := by decide
    have d2 : AirportShuttleStatusNotServed ≠ AirportShuttleStatusCanceled := by decide
    simp only [VerifyAirportShuttleAgreement, hcode, hstatus, ne_eq, not_true_eq_false,
      if_false, if_neg d1, if_neg d2, if_true, index_of_length_le _ _ hlen]
  · have d1 : ¬ (AirportShuttleStatusWaitingTimeExceeded = AirportShuttleStatusDriverWaiting ∨
        AirportShuttleStatusWaitingTimeExceeded = AirportShuttleStatusInService) := by decide
    have d2 : AirportShuttleStatusWaitingTimeExceeded ≠ AirportShuttleStatusCanceled := by
      decide
    have d3 : AirportShuttleStatusWaitingTimeExceeded ≠ AirportShuttleStatusNotServed := by
      decide
    have hitem : index a.Items 0 = .ok item := by simp [index, hitems]
    simp only [VerifyAirportShuttleAgreement, hcode, hstatus, ne_eq, not_true_eq_false,
      if_false, if_neg d1, if_neg d2, if_neg d3, if_true, hitem, float64_lt_minutes,
      minutes_le_float64, if_neg hcond, index_of_length_le _ _ hlen]
  · have hitem : index a.Items 0 = .ok item := by simp [index, hitems]
    have d1 : ¬ (data.Status = AirportShuttleStatusDriverWaiting ∨
        data.Status = AirportShuttleStatusInService) := by
      rintro (h | h)
      · exact h4 h
      · exact h5 h
    simp only [VerifyAirportShuttleAgreement, hcode, ne_eq, not_true_eq_false, if_false,
      if_neg d1, if_neg h1, if_neg h2, if_neg h3, hitem, minutes_le_float64,
      if_neg (not_le.mpr hshort), if_pos hlong, index_of_length_le _ _ hlen]
  · have hitem : index a.Items 0 = .ok item := by simp [index, hitems]
    have d1 : ¬ (data.Status = AirportShuttleStatusDriverWaiting ∨
        data.Status = AirportShuttleStatusInService) := by
      rintro (h | h)
      · exact h4 h
      · exact h5 h
    simp only [VerifyAirportShuttleAgreement, hcode, ne_eq, not_true_eq_false, if_false,
      if_neg d1, if_neg h1, if_neg h2, if_neg h3, hitem, minutes_le_float64,
      if_neg (not_le.mpr hshort), if_neg (not_le.mpr hlong), index_of_length_le _ _ hlen]

/-- Witness of C15: without penalty rules a ride never served fails with an index
panic; so does a ride completed twenty minutes late, which needs the third
rule. -/
theorem VerifyAirportShuttleAgreement_missing_tier_witness :
    VerifyAirportShuttleAgreement (bareAgreement "service" [shuttleItem])
        (shuttleRide "not_served" 600 605 0) = .error .IndexOutOfRange ∧
    VerifyAirportShuttleAgreement (bareAgreement "service" [shuttleItem])
        (shuttleRide "completed" 600 620 0) = .error .IndexOutOfRange :=
  ⟨(VerifyAirportShuttleAgreement_missing_tier (bareAgreement "service" [shuttleItem])
      (shuttleRide "not_served" 600 605 0) rfl).1 rfl (by decide),
   ((VerifyAirportShuttleAgreement_missing_tier (bareAgreement "service" [shuttleItem])
      (shuttleRide "completed" 600 620 0) rfl).2.2 (by decide) (by decide) (by decide)
      (by decide) (by decide) shuttleItem [] rfl
      (by norm_num [shuttleRide, shuttleItem, Time.Sub, minutes_three, minutes_five,
        minutes_fifteen, minutes_twenty, maxDuration, minDuration])).2
      (by norm_num [shuttleRide, shuttleItem, Time.Sub, minutes_three, minutes_five,
        minutes_fifteen, minutes_twenty, maxDuration, minDuration])
      (by decide)⟩

/-- C16, the code at the failing input: an airport-shuttle agreement with
HasPenaltyRule = false and no penalty rule.  A ride never served and a ride
completed twenty minutes late make VerifySLA fail with an index panic, while the
sauna evaluator on an agreement without penalty rules returns an unsatisfied
verdict without penalty rule. -/
theorem VerifySLA_shuttle_without_penalty_rules :
    VerifySLA (bareAgreement "service" [shuttleItem]) [shuttleRide "not_served" 600 605 0] =
      .error .IndexOutOfRange ∧
    VerifySLA (bareAgreement "service" [shuttleItem]) [shuttleRide "completed" 600 620 0] =
      .error .IndexOutOfRange ∧
    VerifySLA (bareAgreement "service" [saunaItem])
        [saunaEvidence [⟨⟨0⟩, "fail"⟩, ⟨⟨900000000000⟩, "fail"⟩]] =
      .ok { Satisfied := false, PenaltyRule := none, FailureReason := "" } := by
  refine ⟨?_, ?_, ?_⟩
  · simp [VerifySLA, VerifyAirportShuttleAgreement, bareAgreement, shuttleItem, shuttleRide,
      StringInSlice, SupportedAgreementCategories, index, AgreementCategoryView,
      AgreementCategoryService, AgreementItemCodeServiceAirportShuttle,
      AirportShuttleStatusDriverWaiting, AirportShuttleStatusInService,
      AirportShuttleStatusCanceled, AirportShuttleStatusNotServed]
  · rw [(VerifySLA_by_item (bareAgreement "service" [shuttleItem])
      (shuttleRide "completed" 600 620 0) [] shuttleItem [] rfl (by simp [bareAgreement])).1 rfl]
    simp [VerifyAirportShuttleAgreement, bareAgreement, shuttleItem, shuttleRide, index,
      AgreementItemCodeServiceAirportShuttle, AirportShuttleStatusDriverWaiting,
      AirportShuttleStatusInService, AirportShuttleStatusCanceled,
      AirportShuttleStatusNotServed, AirportShuttleStatusWaitingTimeExceeded, Time.Sub,
      minutes_three, minutes_five, minutes_fifteen, minutes_twenty, maxDuration, minDuration,
      float64_examples]
    norm_num
  · rw [(VerifySLA_by_item (bareAgreement "service" [saunaItem])
      (saunaEvidence [⟨⟨0⟩, "fail"⟩, ⟨⟨900000000000⟩, "fail"⟩]) [] saunaItem []
      rfl (by simp [bareAgreement])).1 rfl]
    simp [VerifySaunaAgreement, AgreementItemCodeServiceAirportShuttle, bareAgreement, saunaItem, saunaEvidence, index,
      AgreementItemCodeServiceSauna, sortRequests, saunaScan, saunaUnsatisfied,
      SaunaRequestStatusFail, Time.Before, Time.Sub, minutes_three, minutes_five,
      minutes_fifteen, minutes_twenty, maxDuration, minDuration, float64_examples]
    norm_num

/-- C17: for airport-shuttle evidence with status not_served and an agreement
with at least one penalty rule, VerifyAirportShuttleAgreement returns unsatisfied
with `PenaltyRules[0]` and the failure reason that the driver did not come,
whatever the timestamps are. -/
theorem VerifyAirportShuttleAgreement_not_served (a : Agreement) (data : EvaluationData)
    (p0 : PenaltyRule) (rules : List PenaltyRule)
    (hcode : data.Code = AgreementItemCodeServiceAirportShuttle)
    (hstatus : data.Status = AirportShuttleStatusNotServed)
    (hrules : a.PenaltyRules = p0 :: rules) :
    VerifyAirportShuttleAgreement a data =
      .ok { Satisfied := false, PenaltyRule := some p0,
            FailureReason := "driver did not come to pick up the passenger" } := by
  have d1 : ¬ (AirportShuttleStatusNotServed = AirportShuttleStatusDriverWaiting ∨
      AirportShuttleStatusNotServed = AirportShuttleStatusInService) := by decide
  have d2 : AirportShuttleStatusNotServed ≠ AirportShuttleStatusCanceled := by decide
  simp only [VerifyAirportShuttleAgreement, hcode, hstatus, hrules, index, ne_eq,
    not_true_eq_false, if_false, if_neg d1, if_neg d2, if_true, List.get?_cons_zero]

/-- Witness of C17: a ride never served, against three penalty rules. -/
theorem VerifyAirportShuttleAgreement_not_served_witness :
    VerifyAirportShuttleAgreement (sampleAgreement "service" [shuttleItem])
        (shuttleRide "not_served" 600 605 0) =
      .ok { Satisfied := false, PenaltyRule := some ⟨"discount", 10⟩,
            FailureReason := "driver did not come to pick up the passenger" } :=
  VerifyAirportShuttleAgreement_not_served (sampleAgreement "service" [shuttleItem])
    (shuttleRide "not_served" 600 605 0) ⟨"discount", 10⟩
    [⟨"discount", 20⟩, ⟨"upgrade_level", 0⟩] rfl rfl rfl

/-- C18: for airport-shuttle evidence with status canceled, VerifySLA on a
service agreement whose first item is the airport-shuttle item (penalty rules
non-empty when HasPenaltyRule is true) returns satisfied with no penalty rule and
no failure reason, whatever the timestamps and thresholds are. -/
theorem VerifySLA_canceled (a : Agreement) (first : EvaluationData)
    (rest : List EvaluationData) (item : AgreementItem) (items : List AgreementItem)
    (hcat : a.Category = AgreementCategoryService)
    (hitems : a.Items = item :: items)
    (hitem : item.Code = AgreementItemCodeServiceAirportShuttle)
    (hcode : first.Code = AgreementItemCodeServiceAirportShuttle)
    (hstatus : first.Status = AirportShuttleStatusCanceled)
    (hrules : a.HasPenaltyRule = true → a.PenaltyRules ≠ []) :
    VerifySLA a (first :: rest) =
      .ok { Satisfied := true, PenaltyRule := none, FailureReason := "" } := by
  have d1 : ¬ (AirportShuttleStatusCanceled = AirportShuttleStatusDriverWaiting ∨
      AirportShuttleStatusCanceled = AirportShuttleStatusInService) := by decide
  rw [(VerifySLA_by_item a first rest item items hitems hrules).1 hcat, if_pos hitem]
  simp only [VerifyAirportShuttleAgreement, hcode, hstatus, ne_eq, not_true_eq_false,
    if_false, if_neg d1, if_true]

/-- Witness of C18: a canceled ride against an agreement with three penalty
rules. -/
theorem VerifySLA_canceled_witness :
    VerifySLA (sampleAgreement "service" [shuttleItem]) [shuttleRide "canceled" 600 700 0] =
      .ok { Satisfied := true, PenaltyRule := none, FailureReason := "" } :=
  VerifySLA_canceled (sampleAgreement "service" [shuttleItem])
    (shuttleRide "canceled" 600 700 0) [] shuttleItem [] rfl rfl rfl rfl rfl
    (by simp [sampleAgreement])

/-! ## Rides still in progress -/

/-- A ride that is still in progress is refused: with the shuttle code the
status is invalid, with another code the code is. -/
theorem VerifyAirportShuttleAgreement_in_progress (a : Agreement) (data : EvaluationData)
    (hstatus : data.Status = AirportShuttleStatusDriverWaiting ∨
      data.Status = AirportShuttleStatusInService) :
    VerifyAirportShuttleAgreement a data =
      .error (if data.Code = AgreementItemCodeServiceAirportShuttle then .InvalidState
              else .CodeMismatch) := by
  unfold VerifyAirportShuttleAgreement
  by_cases hcode : data.Code = AgreementItemCodeServiceAirportShuttle
  · simp [hcode, hstatus]
  · simp [hcode]

/-- On an airport-shuttle agreement `VerifySLA` returns no verdict for a ride
still in progress. -/
theorem VerifySLA_in_progress (a : Agreement) (first : EvaluationData)
    (rest : List EvaluationData) (item : AgreementItem) (items : List AgreementItem)
    (hcat : a.Category = AgreementCategoryService) (hitems : a.Items = item :: items)
    (hitem : item.Code = AgreementItemCodeServiceAirportShuttle)
    (hstatus : first.Status = AirportShuttleStatusDriverWaiting ∨
      first.Status = AirportShuttleStatusInService) :
    ∃ e, VerifySLA a (first :: rest) = .error e := by
  have hs1 : StringInSlice AgreementCategoryService SupportedAgreementCategories = true := by
    decide
  have hv := VerifyAirportShuttleAgreement_in_progress a first hstatus
  cases hp : a.HasPenaltyRule with
  | false =>
    exact ⟨if first.Code = AgreementItemCodeServiceAirportShuttle then .InvalidState
      else .CodeMismatch, by simp [VerifySLA, hcat, hs1, hp, hitems, index, hitem, hv]⟩
  | true =>
    cases hr : a.PenaltyRules with
    | nil => exact ⟨.IndexOutOfRange, by simp [VerifySLA, hcat, hs1, hp, hr, index]⟩
    | cons rule more =>
      exact ⟨if first.Code = AgreementItemCodeServiceAirportShuttle then .InvalidState
        else .CodeMismatch, by simp [VerifySLA, hcat, hs1, hp, hr, hitems, index, hitem, hv]⟩

/-- When verification of the addressed agreement fails, `EvaluateSLA` fails and
has written nothing. -/
theorem EvaluateSLA_of_VerifySLA_error (ctx : TransactionContext) (w : World)
    (sid aid eid hash atTime : String) (evaData : List EvaluationData)
    (h : ∀ (service : Service) (aIndex : Nat) (agreement : Agreement),
      ReadService ctx w sid = .ok service →
      findAgreement aid service.Agreements = some aIndex →
      index service.Agreements aIndex = .ok agreement →
      ∃ e, VerifySLA agreement evaData = .error e) :
    ∃ e, EvaluateSLA ctx w sid aid eid (some evaData) hash atTime = (.error e, w) := by
  unfold EvaluateSLA
  split
  · exact ⟨_, rfl⟩
  · exact ⟨_, rfl⟩
  · split
    · exact ⟨_, rfl⟩
    · rename_i service hread
      split
      · exact ⟨_, rfl⟩
      · rename_i aIndex hfind
        simp only
        split
        · exact ⟨_, rfl⟩
        · rename_i agreement hidx
          obtain ⟨e, he⟩ := h service aIndex agreement hread hfind hidx
          rw [he]
          exact ⟨_, rfl⟩

/-- C19: VerifyAirportShuttleAgreement returns an error and no verdict for every
evidence whose status is driver_waiting or in_service (InvalidState when the
evidence carries the shuttle code, CodeMismatch otherwise), and EvaluateSLA of
such evidence against an airport-shuttle agreement fails and leaves the world
state, hence every counter of the agreement and of the service, as it was. -/
theorem EvaluateSLA_ride_in_progress (a : Agreement) (data : EvaluationData)
    (hstatus : data.Status = AirportShuttleStatusDriverWaiting ∨
      data.Status = AirportShuttleStatusInService) :
    VerifyAirportShuttleAgreement a data =
      .error (if data.Code = AgreementItemCodeServiceAirportShuttle then .InvalidState
              else .CodeMismatch) ∧
    ∀ (ctx : TransactionContext) (w : World) (sid aid eid hash atTime : String)
      (rest : List EvaluationData),
      (∀ (service : Service) (aIndex : Nat) (agreement : Agreement),
        ReadService ctx w sid = .ok service →
        findAgreement aid service.Agreements = some aIndex →
        index service.Agreements aIndex = .ok agreement →
        agreement.Category = AgreementCategoryService ∧
          ∃ item items, agreement.Items = item :: items ∧
            item.Code = AgreementItemCodeServiceAirportShuttle) →
      ∃ e, EvaluateSLA ctx w sid aid eid (some (data :: rest)) hash atTime = (.error e, w) := by
  refine ⟨VerifyAirportShuttleAgreement_in_progress a data hstatus, ?_⟩
  intro ctx w sid aid eid hash atTime rest h
  apply EvaluateSLA_of_VerifySLA_error
  intro service aIndex agreement hread hfind hidx
  obtain ⟨hcat, item, items, hitems, hitem⟩ := h service aIndex agreement hread hfind hidx
  exact VerifySLA_in_progress agreement data rest item items hcat hitems hitem hstatus

/-- The stored shuttle service is read back as it is. -/
theorem ReadService_worldWith_shuttleService :
    ReadService reliableContext (worldWith shuttleService) "s" = .ok shuttleService := by
  simp [ReadService, GetState, reliableContext, worldWith, shuttleService, unmarshalService]

/-- Witness of C19: a ride in service, evaluated against the shuttle agreement of
the stored service, is refused with InvalidState and nothing is written. -/
theorem EvaluateSLA_ride_in_progress_witness :
    VerifyAirportShuttleAgreement (sampleAgreement "service" [shuttleItem])
        (shuttleRide "in_service" 600 605 0) = .error .InvalidState ∧
    ∃ e, EvaluateSLA reliableContext (worldWith shuttleService) "s" "a" "e1"
        (some [shuttleRide "in_service" 600 605 0]) "hash" "t" =
      (.error e, worldWith shuttleService) := by
  have h := EvaluateSLA_ride_in_progress (sampleAgreement "service" [shuttleItem])
    (shuttleRide "in_service" 600 605 0) (Or.inr rfl)
  refine ⟨h.1, h.2 reliableContext (worldWith shuttleService) "s" "a" "e1" "hash" "t" [] ?_⟩
  intro service aIndex agreement hread hfind hidx
  rw [ReadService_worldWith_shuttleService] at hread
  cases hread
  simp [shuttleService, findAgreement, sampleAgreement] at hfind
  subst hfind
  simp [shuttleService, index] at hidx
  subst hidx
  exact ⟨rfl, shuttleItem, [], rfl, rfl⟩

/-! ## Removing an agreement -/

/-- The search loop stops at the first agreement that has the id sought. -/
theorem findAgreement_split (aid : String) (l : List Agreement) (i : Nat)
    (h : findAgreement aid l = some i) :
    ∃ pre a post, l = pre ++ a :: post ∧ pre.length = i ∧ a.AgreementID = aid ∧
      ∀ b ∈ pre, b.AgreementID ≠ aid := by
  induction l generalizing i with
  | nil => simp [findAgreement] at h
  | cons b rest ih =>
    unfold findAgreement at h
    by_cases hb : b.AgreementID = aid
    · rw [if_pos hb] at h
      cases h
      exact ⟨[], b, rest, rfl, rfl, hb, fun _ hmem => by cases hmem⟩
    · rw [if_neg hb] at h
      cases hrest : findAgreement aid rest with
      | none => rw [hrest] at h; cases h
      | some j =>
        rw [hrest] at h
        cases h
        obtain ⟨pre, a, post, hl, hlen, ha, hpre⟩ := ih j hrest
        refine ⟨b :: pre, a, post, by rw [hl]; rfl, by simp [hlen], ha, ?_⟩
        intro c hc
        rcases List.mem_cons.mp hc with rfl | hc
        · exact hb
        · exact hpre c hc

/-- Erasing the position right after a front part drops the element there. -/
theorem eraseIdx_split {α : Type} (pre : List α) (a : α) (post : List α) :
    (pre ++ a :: post).eraseIdx pre.length = pre ++ post := by
  induction pre with
  | nil => rfl
  | cons b rest ih => simp [List.eraseIdx, ih]

/-- A successful `RemoveAgreement` returns the service it has stored: the one
read, without the agreement found and with both rollup rates recomputed. -/
theorem RemoveAgreement_ok (ctx : TransactionContext) (w w1 : World) (sid aid : String)
    (service1 : Service) (h : RemoveAgreement ctx w sid aid = (.ok service1, w1)) :
    ∃ service aIndex,
      ReadService ctx w sid = .ok service ∧
      findAgreement aid service.Agreements = some aIndex ∧
      service1 = service.withoutAgreement aIndex ∧
      w1 (.simple sid) = some (.service service1) := by
  unfold RemoveAgreement at h
  split at h
  · simp at h
  · simp at h
  · split at h
    · simp at h
    · rename_i service hread
      split at h
      · simp at h
      · rename_i aIndex hfind
        simp only at h
        split at h
        · simp at h
        · rename_i u wa hput
          simp only [Prod.mk.injEq, Except.ok.injEq] at h
          obtain ⟨h1, h2⟩ := h
          subst h2
          refine ⟨service, aIndex, hread, hfind, h1.symm, ?_⟩
          unfold PutState at hput
          split at hput
          · simp at hput
          · simp only [Prod.mk.injEq] at hput
            rw [← hput.2, ← h1]
            simp

/-- C20: after a successful RemoveAgreement(sid, aid) the service stored under sid,
which is the one returned, lists the previous agreements without the first one
whose id is aid, the others in their order and unchanged; no agreement of that id
is left when the ids were distinct; its SatisfactionRate and RuleAbidingRate are
the least of the corresponding rates of the remaining agreements, and 1 when none
remains, so that removing the only agreement of a service resets both to 1. -/
theorem RemoveAgreement_spec (ctx : TransactionContext) (w w1 : World) (sid aid : String)
    (service1 : Service) (h : RemoveAgreement ctx w sid aid = (.ok service1, w1)) :
    ∃ service pre a post,
      ReadService ctx w sid = .ok service ∧
      service.Agreements = pre ++ a :: post ∧
      a.AgreementID = aid ∧
      (∀ b ∈ pre, b.AgreementID ≠ aid) ∧
      service1.Agreements = pre ++ post ∧
      ((service.Agreements.map (fun b => b.AgreementID)).Nodup →
        ∀ b ∈ service1.Agreements, b.AgreementID ≠ aid) ∧
      IsRollup service1.SatisfactionRate
        (service1.Agreements.map (fun b => b.SatisfactionRate)) ∧
      IsRollup service1.RuleAbidingRate
        (service1.Agreements.map (fun b => b.RuleAbidingRate)) ∧
      (service.Agreements = [a] →
        service1.SatisfactionRate = 1 ∧ service1.RuleAbidingRate = 1) ∧
      w1 (.simple sid) = some (.service service1) := by
  obtain ⟨service, aIndex, hread, hfind, hservice, hstored⟩ :=
    RemoveAgreement_ok ctx w w1 sid aid service1 h
  obtain ⟨pre, a, post, hl, hlen, ha, hpre⟩ :=
    findAgreement_split aid service.Agreements aIndex hfind
  have hrest : service1.Agreements = pre ++ post := by
    rw [hservice]
    show service.Agreements.eraseIdx aIndex = pre ++ post
    rw [hl, ← hlen, eraseIdx_split]
  have hrolled := service_withoutAgreement_rolledUp service aIndex
  rw [← hservice] at hrolled
  refine ⟨service, pre, a, post, hread, hl, ha, hpre, hrest, ?_, hrolled.1, hrolled.2, ?_,
    hstored⟩
  · intro hnodup b hb heq
    rw [hl, List.map_append, List.map_cons] at hnodup
    rw [hrest] at hb
    have hmid : a.AgreementID ∉ post.map (fun b => b.AgreementID) :=
      (List.nodup_cons.mp (List.nodup_append.mp hnodup).2.1).1
    rcases List.mem_append.mp hb with hb | hb
    · exact hpre b hb heq
    · exact hmid (List.mem_map.mpr ⟨b, hb, by rw [heq, ha]⟩)
  · intro hone
    have hnil : service1.Agreements = [] := by
      rw [hl] at hone
      cases pre with
      | nil =>
        simp only [List.nil_append, List.cons.injEq, true_and] at hone
        rw [hrest, hone]; rfl
      | cons c more =>
        cases more <;> simp at hone
    exact ⟨hrolled.1.1 (by rw [hnil]; rfl), hrolled.2.1 (by rw [hnil]; rfl)⟩

/-- The stored low-rated service is read back as it is. -/
theorem ReadService_worldWith_lowRatedService :
    ReadService reliableContext (worldWith lowRatedService) "s" = .ok lowRatedService := by
  simp [ReadService, GetState, reliableContext, worldWith, lowRatedService, unmarshalService]

/-- Witness of C20: removing the only agreement of a stored service whose
satisfaction rate is 0.4 succeeds and stores a service without agreements whose
rates are 1. -/
theorem RemoveAgreement_spec_witness :
    lowRatedService.SatisfactionRate = 2 / 5 ∧
    ∃ service1 w1,
      RemoveAgreement reliableContext (worldWith lowRatedService) "s" "a" = (.ok service1, w1) ∧
      service1.Agreements = [] ∧
      service1.SatisfactionRate = 1 ∧ service1.RuleAbidingRate = 1 ∧
      w1 (.simple "s") = some (.service service1) := by
  have hrun : RemoveAgreement reliableContext (worldWith lowRatedService) "s" "a" =
      (.ok (lowRatedService.withoutAgreement 0),
        (RemoveAgreement reliableContext (worldWith lowRatedService) "s" "a").2) := by
    simp [RemoveAgreement, ServiceExists, ReadService, GetState, PutState, reliableContext,
      worldWith, lowRatedService, unmarshalService, findAgreement, lowRatedAgreement,
      Service.withoutAgreement]
  obtain ⟨service, pre, a, post, hread, hl, -, -, hrest, -, -, -, hone, hstored⟩ :=
    RemoveAgreement_spec reliableContext (worldWith lowRatedService) _ "s" "a" _ hrun
  rw [ReadService_worldWith_lowRatedService] at hread
  cases hread
  have hsplit : pre = [] ∧ a = lowRatedAgreement ∧ post = [] := by
    cases pre with
    | nil => simpa [lowRatedService, eq_comm] using hl
    | cons c more => cases more <;> simp [lowRatedService] at hl
  obtain ⟨rfl, rfl, rfl⟩ := hsplit
  exact ⟨rfl, _, _, hrun, hrest, (hone rfl).1, (hone rfl).2, hstored⟩

/-! ## What a successful operation returns -/

/-- A result that is committed is a success with that world state. -/
theorem committed_eq_some {α : Type} (r : Except Failure α × World) (w1 : World) :
    committed r = some w1 ↔ ∃ v, r = (.ok v, w1) := by
  rcases r with ⟨r, w2⟩
  cases r with
  | error e => simp [committed]
  | ok v => simp [committed]

/-- A write that succeeds was accepted by the store and changes the one key. -/
theorem PutState_ok (ctx : TransactionContext) (w w1 : World) (key : Key) (value : Stored)
    (u : Unit) (h : PutState ctx w key value = (.ok u, w1)) :
    ctx.PutStateErr key = false ∧ w1 = fun k => if k = key then some value else w k := by
  unfold PutState at h
  split at h
  · simp at h
  · rename_i herr
    simp only [Prod.mk.injEq, true_and] at h
    exact ⟨by simpa using herr, h.symm⟩

/-- A read that succeeds found a document that decodes to the service. -/
theorem ReadService_ok (ctx : TransactionContext) (w : World) (sid : String)
    (service : Service) (h : ReadService ctx w sid = .ok service) :
    ctx.GetStateErr (.simple sid) = false ∧
      ∃ doc, w (.simple sid) = some doc ∧ unmarshalService doc = .ok service := by
  unfold ReadService GetState at h
  split at h
  · simp at h
  · simp at h
  · rename_i jService hget
    split at hget
    · simp at hget
    · rename_i herr
      simp only [Except.ok.injEq] at hget
      exact ⟨by simpa using herr, jService, hget, h⟩

/-- The world state after the three writes of an evaluation, key by key, when
the store accepts the service and the index entry. -/
theorem recordEvaluation_apply (ctx : TransactionContext) (w : World)
    (sid aid eid hash : String) (service1 : Service)
    (hs : ctx.PutStateErr (.simple sid) = false)
    (hi : ctx.PutStateErr (.composite evaluationIndex ["Evaluation", eid]) = false) :
    recordEvaluation ctx w sid aid eid hash service1 =
      fun k =>
        if k = .composite evaluationIndex ["Evaluation", eid] then some .indexEntry
        else if k = .simple eid ∧ ctx.PutStateErr (.simple eid) = false then
          some (.evaluation { DocType := "Evaluation", EvaluationID := eid, ServiceID := sid,
                              AgreementID := aid, TxID := ctx.TxID, Hash := hash })
        else if k = .simple sid then some (.service service1)
        else w k := by
  funext k
  unfold recordEvaluation PutState
  simp only [hs, hi, Bool.false_eq_true, if_false]
  by_cases h1 : k = .composite evaluationIndex ["Evaluation", eid]
  · simp [h1]
  · simp only [h1, if_false]
    cases he : ctx.PutStateErr (.simple eid) with
    | true => simp
    | false =>
      by_cases h2 : k = .simple eid
      · simp [h2]
      · simp [h2]

/-- A successful `AddAgreement` found no agreement of the new id and returns the
service it has stored, the one read with the new agreement appended. -/
theorem AddAgreement_ok (ctx : TransactionContext) (w w1 : World)
    (sid aid cat : String) (hasPenalty : Bool) (items : Option (List AgreementItem))
    (penaltyRules : Option (List PenaltyRule)) (service1 : Service)
    (h : AddAgreement ctx w sid aid cat hasPenalty items penaltyRules = (.ok service1, w1)) :
    ∃ service aItems aPenaltyRules,
      ReadService ctx w sid = .ok service ∧
      items = some aItems ∧ penaltyRules = some aPenaltyRules ∧
      (∀ a ∈ service.Agreements, a.AgreementID ≠ aid) ∧
      service1 = { service with
        Agreements := service.Agreements ++
          [newAgreement aid cat hasPenalty aItems aPenaltyRules] } ∧
      ctx.PutStateErr (.simple sid) = false ∧
      w1 = fun k => if k = .simple sid then some (.service service1) else w k := by
  unfold AddAgreement at h
  split at h
  · simp at h
  · simp at h
  · split at h
    · simp at h
    · rename_i service hread
      split at h
      · simp at h
      · rename_i hany
        split at h
        · simp at h
        · rename_i aItems
          split at h
          · simp at h
          · rename_i aPenaltyRules
            simp only at h
            split at h
            · simp at h
            · rename_i u wa hput
              simp only [Prod.mk.injEq, Except.ok.injEq] at h
              obtain ⟨h1, h2⟩ := h
              subst h2
              obtain ⟨herr, hw⟩ := PutState_ok ctx w _ _ _ u hput
              refine ⟨service, aItems, aPenaltyRules, hread, rfl, rfl, ?_, h1.symm, herr, ?_⟩
              · intro a ha heq
                apply hany
                simp only [List.any_eq_true, decide_eq_true_eq]
                exact ⟨a, ha, heq⟩
              · rw [hw, ← h1]

/-- A successful `UpdateAgreement` returns the service it has stored, the one
read with the four terms of the agreement found replaced. -/
theorem UpdateAgreement_ok (ctx : TransactionContext) (w w1 : World)
    (sid aid cat : String) (hasPenalty : Bool) (items : Option (List AgreementItem))
    (penaltyRules : Option (List PenaltyRule)) (service1 : Service)
    (h : UpdateAgreement ctx w sid aid cat hasPenalty items penaltyRules = (.ok service1, w1)) :
    ∃ service aIndex agreement aItems aPenaltyRules,
      ReadService ctx w sid = .ok service ∧
      findAgreement aid service.Agreements = some aIndex ∧
      index service.Agreements aIndex = .ok agreement ∧
      items = some aItems ∧ penaltyRules = some aPenaltyRules ∧
      service1 = { service with
        Agreements := service.Agreements.set aIndex
          { agreement with Category := cat, Items := aItems, HasPenaltyRule := hasPenalty,
                           PenaltyRules := aPenaltyRules } } ∧
      ctx.PutStateErr (.simple sid) = false ∧
      w1 = fun k => if k = .simple sid then some (.service service1) else w k := by
  unfold UpdateAgreement at h
  split at h
  · simp at h
  · simp at h
  · split at h
    · simp at h
    · rename_i service hread
      split at h
      · simp at h
      · rename_i aIndex hfind
        split at h
        · simp at h
        · rename_i aItems
          split at h
          · simp at h
          · rename_i aPenaltyRules
            split at h
            · simp at h
            · rename_i agreement hidx
              simp only at h
              split at h
              · simp at h
              · rename_i u wa hput
                simp only [Prod.mk.injEq, Except.ok.injEq] at h
                obtain ⟨h1, h2⟩ := h
                subst h2
                obtain ⟨herr, hw⟩ := PutState_ok ctx w _ _ _ u hput
                refine ⟨service, aIndex, agreement, aItems, aPenaltyRules, hread, hfind, hidx,
                  rfl, rfl, h1.symm, herr, ?_⟩
                rw [hw, ← h1]

/-- The last two steps of an evaluation, when they succeed: the composite key was
built and the index entry accepted. -/
theorem indexEntry_ok (ctx : TransactionContext) (w2 w3 : World) (eid : String)
    {α : Type} (v v1 : α)
    (h : (match CreateCompositeKey ctx evaluationIndex ["Evaluation", eid] with
          | .error e => ((.error e, w2) : Except Failure α × World)
          | .ok docEvaluationIndexKey =>
            match PutState ctx w2 docEvaluationIndexKey .indexEntry with
            | (.error e, w3) => (.error e, w3)
            | (.ok _, w3) => (.ok v, w3)) = (.ok v1, w3)) :
    v1 = v ∧ ctx.PutStateErr (.composite evaluationIndex ["Evaluation", eid]) = false ∧
      w3 = (PutState ctx w2 (.composite evaluationIndex ["Evaluation", eid]) .indexEntry).2 := by
  unfold CreateCompositeKey at h
  split at h
  · simp at h
  · rename_i key hkey
    split at hkey
    · simp at hkey
    · simp only [Except.ok.injEq] at hkey
      subst hkey
      split at h
      · simp at h
      · rename_i u wb hput
        simp only [Prod.mk.injEq, Except.ok.injEq] at h
        obtain ⟨h1, h2⟩ := h
        subst h2
        obtain ⟨herr, -⟩ := PutState_ok ctx w2 _ _ _ u hput
        exact ⟨h1.symm, herr, by rw [hput]⟩

/-- A successful `EvaluateSLA` returns the verdict of `VerifySLA` on the
agreement found and has issued the three writes of an evaluation, of which the
store accepted the first and the last. -/
theorem EvaluateSLA_ok (ctx : TransactionContext) (w w1 : World)
    (sid aid eid : String) (eData : Option (List EvaluationData)) (hash atTime : String)
    (v : EvaluationResult)
    (h : EvaluateSLA ctx w sid aid eid eData hash atTime = (.ok v, w1)) :
    ∃ service aIndex agreement evaData first,
      ReadService ctx w sid = .ok service ∧
      findAgreement aid service.Agreements = some aIndex ∧
      index service.Agreements aIndex = .ok agreement ∧
      eData = some evaData ∧
      VerifySLA agreement evaData = .ok v ∧
      index (service.Agreements.set aIndex (agreement.withFeedback v.Satisfied atTime)) 0
        = .ok first ∧
      ctx.PutStateErr (.simple sid) = false ∧
      ctx.PutStateErr (.composite evaluationIndex ["Evaluation", eid]) = false ∧
      w1 = recordEvaluation ctx w sid aid eid hash
        (service.withFeedback aIndex agreement first v.Satisfied atTime) := by
  unfold EvaluateSLA at h
  split at h
  · simp at h
  · simp at h
  · split at h
    · simp at h
    · rename_i service hread
      split at h
      · simp at h
      · rename_i aIndex hfind
        split at h
        · simp at h
        · rename_i evaData
          split at h
          · simp at h
          · rename_i agreement hidx
            split at h
            · simp at h
            · rename_i eResult hver
              simp only at h
              split at h
              · simp at h
              · rename_i first hfirst
                split at h
                · simp at h
                · rename_i u wa hput
                  obtain ⟨h1, h2, h3⟩ := indexEntry_ok ctx _ w1 eid eResult v h
                  subst h1
                  obtain ⟨herr, -⟩ := PutState_ok ctx w _ _ _ u hput
                  have e1 := congrArg Prod.snd hput
                  simp only at e1
                  refine ⟨service, aIndex, agreement, evaData, first, hread, hfind, hidx, rfl,
                    hver, hfirst, herr, h2, ?_⟩
                  rw [h3, ← e1]
                  rfl

/-- A successful `HandleSatisfactionEvaluationEvent` returns the service it has
stored and has issued the three writes of an evaluation, of which the store
accepted the first and the last. -/
theorem HandleSatisfactionEvaluationEvent_ok (ctx : TransactionContext) (w w1 : World)
    (sid aid eid rid hash atTime : String) (satisfied enforcePenaltyRule : Bool)
    (service1 : Service)
    (h : HandleSatisfactionEvaluationEvent ctx w sid aid eid rid hash atTime satisfied
      enforcePenaltyRule = (.ok service1, w1)) :
    ∃ service aIndex agreement first,
      ReadService ctx w sid = .ok service ∧
      findAgreement aid service.Agreements = some aIndex ∧
      index service.Agreements aIndex = .ok agreement ∧
      index (service.Agreements.set aIndex (agreement.withFeedback satisfied atTime)) 0
        = .ok first ∧
      service1 = service.withFeedback aIndex agreement first satisfied atTime ∧
      ctx.PutStateErr (.simple sid) = false ∧
      ctx.PutStateErr (.composite evaluationIndex ["Evaluation", eid]) = false ∧
      w1 = recordEvaluation ctx w sid aid eid hash service1 := by
  unfold HandleSatisfactionEvaluationEvent at h
  split at h
  · simp at h
  · simp at h
  · split at h
    · simp at h
    · rename_i service hread
      split at h
      · simp at h
      · rename_i aIndex hfind
        split at h
        · simp at h
        · rename_i agreement hidx
          simp only at h
          split at h
          · simp at h
          · rename_i first hfirst
            split at h
            · simp at h
            · rename_i u wa hput
              obtain ⟨h1, h2, h3⟩ := indexEntry_ok ctx _ w1 eid _ service1 h
              obtain ⟨herr, -⟩ := PutState_ok ctx w _ _ _ u hput
              have e1 := congrArg Prod.snd hput
              simp only at e1
              refine ⟨service, aIndex, agreement, first, hread, hfind, hidx, hfirst, h1, herr,
                h2, ?_⟩
              rw [h3, ← e1, h1]
              rfl

/-- A successful `UpdateRuleAbidingRate` returns the service it has stored and
has issued the three writes of an evaluation, of which the store accepted the
first and the last. -/
theorem UpdateRuleAbidingRate_ok (ctx : TransactionContext) (w w1 : World)
    (sid aid eid hash atTime : String) (compensated : Bool) (service1 : Service)
    (h : UpdateRuleAbidingRate ctx w sid aid eid hash atTime compensated = (.ok service1, w1)) :
    ∃ service aIndex agreement first,
      ReadService ctx w sid = .ok service ∧
      findAgreement aid service.Agreements = some aIndex ∧
      index service.Agreements aIndex = .ok agreement ∧
      index (service.Agreements.set aIndex (agreement.withRuleViolation compensated atTime)) 0
        = .ok first ∧
      service1 = service.withRuleViolation aIndex agreement first compensated atTime ∧
      ctx.PutStateErr (.simple sid) = false ∧
      ctx.PutStateErr (.composite evaluationIndex ["Evaluation", eid]) = false ∧
      w1 = recordEvaluation ctx w sid aid eid hash service1 := by
  unfold UpdateRuleAbidingRate at h
  split at h
  · simp at h
  · simp at h
  · split at h
    · simp at h
    · rename_i service hread
      split at h
      · simp at h
      · rename_i aIndex hfind
        split at h
        · simp at h
        · rename_i agreement hidx
          simp only at h
          split at h
          · simp at h
          · rename_i first hfirst
            split at h
            · simp at h
            · rename_i u wa hput
              obtain ⟨h1, h2, h3⟩ := indexEntry_ok ctx _ w1 eid _ service1 h
              obtain ⟨herr, -⟩ := PutState_ok ctx w _ _ _ u hput
              have e1 := congrArg Prod.snd hput
              simp only at e1
              refine ⟨service, aIndex, agreement, first, hread, hfind, hidx, hfirst, h1, herr,
                h2, ?_⟩
              rw [h3, ← e1, h1]
              rfl

/-- The two rule-abiding operations are the same function. -/
theorem HandlePenaltyRuleEvaluationEvent_eq (ctx : TransactionContext) (w : World)
    (sid aid eid hash atTime : String) (compensated : Bool) :
    HandlePenaltyRuleEvaluationEvent ctx w sid aid eid hash atTime compensated =
      UpdateRuleAbidingRate ctx w sid aid eid hash atTime compensated := rfl

/-! ## What an evaluation changes and what is read back -/

/-- The agreement the search loop finds is there and has the id sought. -/
theorem findAgreement_index (aid : String) (l : List Agreement) (i : Nat)
    (h : findAgreement aid l = some i) :
    ∃ a, index l i = .ok a ∧ a.AgreementID = aid := by
  obtain ⟨pre, a, post, hl, hlen, ha, -⟩ := findAgreement_split aid l i h
  refine ⟨a, ?_, ha⟩
  subst hl
  subst hlen
  have hget : (pre ++ a :: post).get? pre.length = some a := by
    rw [List.get?_eq_getElem?, List.getElem?_append_right (le_refl _)]
    simp
  simp only [index, hget]

/-- The position written by `set` holds the new element. -/
theorem index_set_self {α : Type} (l : List α) (i : Nat) (a b : α)
    (h : index l i = .ok a) : index (l.set i b) i = .ok b := by
  have hlt : i < l.length := by
    by_contra hge
    rw [index_of_length_le l i (by omega)] at h
    cases h
  unfold index
  simp [List.getElem?_set, hlt]

/-- Another position is left as it was by `set`. -/
theorem index_set_other {α : Type} (l : List α) (i j : Nat) (b : α) (h : j ≠ i) :
    index (l.set i b) j = index l j := by
  unfold index
  simp [List.getElem?_set, Ne.symm h]

/-- After an evaluation recorded under an id other than the service id, the
service is read back as it was written. -/
theorem ReadService_recordEvaluation (ctx : TransactionContext) (w : World)
    (sid aid eid hash : String) (service1 : Service)
    (hg : ctx.GetStateErr (.simple sid) = false)
    (hs : ctx.PutStateErr (.simple sid) = false)
    (hi : ctx.PutStateErr (.composite evaluationIndex ["Evaluation", eid]) = false)
    (hne : eid ≠ sid) :
    ReadService ctx (recordEvaluation ctx w sid aid eid hash service1) sid = .ok service1 := by
  have hne1 : sid ≠ eid := fun h => hne h.symm
  simp [ReadService, GetState, hg, recordEvaluation_apply ctx w sid aid eid hash service1 hs hi,
    hne1, unmarshalService]

/-- C23: after a successful EvaluateSLA on agreement aid of service sid with
timestamp at, the service written under sid (and read back from there when the
evaluation id is not sid) holds, at the position of the agreement found, an
agreement with id aid whose TotalFeedbacks is one more than before, whose
TotalUnsatisfied is one more when the returned verdict is unsatisfied and
unchanged when it is satisfied, and whose LastEvaluationAt is at; the
NumberOfEvaluations of the service is one more than before and its
LastEvaluationAt is at. -/
theorem EvaluateSLA_counters (ctx : TransactionContext) (w w1 : World)
    (sid aid eid : String) (eData : Option (List EvaluationData)) (hash atTime : String)
    (v : EvaluationResult)
    (h : EvaluateSLA ctx w sid aid eid eData hash atTime = (.ok v, w1)) :
    ∃ service aIndex agreement service1 agreement1,
      ReadService ctx w sid = .ok service ∧
      findAgreement aid service.Agreements = some aIndex ∧
      index service.Agreements aIndex = .ok agreement ∧
      agreement.AgreementID = aid ∧
      w1 = recordEvaluation ctx w sid aid eid hash service1 ∧
      (eid ≠ sid → ReadService ctx w1 sid = .ok service1) ∧
      index service1.Agreements aIndex = .ok agreement1 ∧
      agreement1.AgreementID = aid ∧
      agreement1.TotalFeedbacks = agreement.TotalFeedbacks + 1 ∧
      (v.Satisfied = false → agreement1.TotalUnsatisfied = agreement.TotalUnsatisfied + 1) ∧
      (v.Satisfied = true → agreement1.TotalUnsatisfied = agreement.TotalUnsatisfied) ∧
      agreement1.LastEvaluationAt = atTime ∧
      service1.NumberOfEvaluations = service.NumberOfEvaluations + 1 ∧
      service1.LastEvaluationAt = atTime := by
  obtain ⟨service, aIndex, agreement, evaData, first, hread, hfind, hidx, -, -, -, hs, hi,
    hw⟩ := EvaluateSLA_ok ctx w w1 sid aid eid eData hash atTime v h
  obtain ⟨a, ha, hid⟩ := findAgreement_index aid service.Agreements aIndex hfind
  rw [hidx] at ha
  cases ha
  refine ⟨service, aIndex, agreement,
    service.withFeedback aIndex agreement first v.Satisfied atTime,
    agreement.withFeedback v.Satisfied atTime, hread, hfind, hidx, hid, hw, ?_, ?_, hid, rfl,
    ?_, ?_, rfl, rfl, rfl⟩
  · intro hne
    rw [hw]
    exact ReadService_recordEvaluation ctx w sid aid eid hash _ (ReadService_ok ctx w sid
      service hread).1 hs hi hne
  · exact index_set_self service.Agreements aIndex agreement _ hidx
  · intro hv
    simp [Agreement.withFeedback, hv]
  · intro hv
    simp [Agreement.withFeedback, hv]

/-- Witness of C23: an unsatisfied verdict on the stored shuttle agreement, which
had no feedback yet. -/
theorem EvaluateSLA_counters_witness :
    ∃ service1 agreement1,
      ReadService reliableContext
        (EvaluateSLA reliableContext (worldWith shuttleService) "s" "a" "e1"
          (some [shuttleRide "not_served" 600 605 0]) "hash" "t").2 "s" = .ok service1 ∧
      index service1.Agreements 0 = .ok agreement1 ∧
      agreement1.TotalFeedbacks = 1 ∧ agreement1.TotalUnsatisfied = 1 ∧
      agreement1.LastEvaluationAt = "t" ∧
      service1.NumberOfEvaluations = 1 ∧ service1.LastEvaluationAt = "t" := by
  have hrun : EvaluateSLA reliableContext (worldWith shuttleService) "s" "a" "e1"
      (some [shuttleRide "not_served" 600 605 0]) "hash" "t" =
      (.ok { Satisfied := false, PenaltyRule := some ⟨"discount", 10⟩,
             FailureReason := "driver did not come to pick up the passenger" },
        (EvaluateSLA reliableContext (worldWith shuttleService) "s" "a" "e1"
          (some [shuttleRide "not_served" 600 605 0]) "hash" "t").2) := by
    simp [EvaluateSLA, ServiceExists, GetState, PutState, CreateCompositeKey, reliableContext,
      worldWith, ReadService, unmarshalService, shuttleService, findAgreement, sampleAgreement,
      index, VerifySLA, StringInSlice, SupportedAgreementCategories, AgreementCategoryService,
      shuttleItem, AgreementItemCodeServiceAirportShuttle, VerifyAirportShuttleAgreement,
      shuttleRide, AirportShuttleStatusDriverWaiting, AirportShuttleStatusInService,
      AirportShuttleStatusCanceled, AirportShuttleStatusNotServed]
  obtain ⟨service, aIndex, agreement, service1, agreement1, hread, hfind, hidx, -, -, hback,
    hidx1, -, hfeed, hunsat, -, hat, hnum, hat1⟩ :=
    EvaluateSLA_counters reliableContext (worldWith shuttleService) _ "s" "a" "e1" _ "hash" "t"
      _ hrun
  rw [ReadService_worldWith_shuttleService] at hread
  cases hread
  simp [shuttleService, findAgreement, sampleAgreement] at hfind
  subst hfind
  simp [shuttleService, index] at hidx
  subst hidx
  exact ⟨service1, agreement1, hback (by decide), hidx1, hfeed, hunsat rfl, hat, hnum, hat1⟩

/-- C24 as amended: when EvaluateSLA, UpdateRuleAbidingRate,
HandleSatisfactionEvaluationEvent or HandlePenaltyRuleEvaluationEvent returns
without error and the evaluation id differs from the service id, ReadService of
the service id in the world state left returns the service the operation
computed from the service read before, with the updated counters and rates; for
the three handlers that is the service returned. -/
theorem evaluation_persisted (ctx : TransactionContext) (w w1 : World)
    (sid aid eid hash atTime : String) (hne : eid ≠ sid) :
    (∀ eData v, EvaluateSLA ctx w sid aid eid eData hash atTime = (.ok v, w1) →
      ∃ service aIndex agreement first,
        ReadService ctx w sid = .ok service ∧
        findAgreement aid service.Agreements = some aIndex ∧
        index service.Agreements aIndex = .ok agreement ∧
        index (service.Agreements.set aIndex (agreement.withFeedback v.Satisfied atTime)) 0
          = .ok first ∧
        ReadService ctx w1 sid =
          .ok (service.withFeedback aIndex agreement first v.Satisfied atTime)) ∧
    (∀ compensated service1,
      UpdateRuleAbidingRate ctx w sid aid eid hash atTime compensated = (.ok service1, w1) →
      ReadService ctx w1 sid = .ok service1 ∧
      ∃ service aIndex agreement first,
        ReadService ctx w sid = .ok service ∧
        findAgreement aid service.Agreements = some aIndex ∧
        index service.Agreements aIndex = .ok agreement ∧
        index (service.Agreements.set aIndex (agreement.withRuleViolation compensated atTime))
          0 = .ok first ∧
        service1 = service.withRuleViolation aIndex agreement first compensated atTime) ∧
    (∀ rid satisfied enforcePenaltyRule service1,
      HandleSatisfactionEvaluationEvent ctx w sid aid eid rid hash atTime satisfied
        enforcePenaltyRule = (.ok service1, w1) →
      ReadService ctx w1 sid = .ok service1 ∧
      ∃ service aIndex agreement first,
        ReadService ctx w sid = .ok service ∧
        findAgreement aid service.Agreements = some aIndex ∧
        index service.Agreements aIndex = .ok agreement ∧
        index (service.Agreements.set aIndex (agreement.withFeedback satisfied atTime)) 0
          = .ok first ∧
        service1 = service.withFeedback aIndex agreement first satisfied atTime) ∧
    (∀ compensated service1,
      HandlePenaltyRuleEvaluationEvent ctx w sid aid eid hash atTime compensated =
        (.ok service1, w1) →
      ReadService ctx w1 sid = .ok service1 ∧
      ∃ service aIndex agreement first,
        ReadService ctx w sid = .ok service ∧
        findAgreement aid service.Agreements = some aIndex ∧
        index service.Agreements aIndex = .ok agreement ∧
        index (service.Agreements.set aIndex (agreement.withRuleViolation compensated atTime))
          0 = .ok first ∧
        service1 = service.withRuleViolation aIndex agreement first compensated atTime) := by
  have hrule : ∀ compensated service1,
      UpdateRuleAbidingRate ctx w sid aid eid hash atTime compensated = (.ok service1, w1) →
      ReadService ctx w1 sid = .ok service1 ∧
      ∃ service aIndex agreement first,
        ReadService ctx w sid = .ok service ∧
        findAgreement aid service.Agreements = some aIndex ∧
        index service.Agreements aIndex = .ok agreement ∧
        index (service.Agreements.set aIndex (agreement.withRuleViolation compensated atTime))
          0 = .ok first ∧
        service1 = service.withRuleViolation aIndex agreement first compensated atTime := by
    intro compensated service1 h
    obtain ⟨service, aIndex, agreement, first, hread, hfind, hidx, hfirst, hs1, hs, hi, hw⟩ :=
      UpdateRuleAbidingRate_ok ctx w w1 sid aid eid hash atTime compensated service1 h
    refine ⟨?_, service, aIndex, agreement, first, hread, hfind, hidx, hfirst, hs1⟩
    rw [hw]
    exact ReadService_recordEvaluation ctx w sid aid eid hash _
      (ReadService_ok ctx w sid service hread).1 hs hi hne
  refine ⟨?_, hrule, ?_, ?_⟩
  · intro eData v h
    obtain ⟨service, aIndex, agreement, evaData, first, hread, hfind, hidx, -, -, hfirst, hs,
      hi, hw⟩ := EvaluateSLA_ok ctx w w1 sid aid eid eData hash atTime v h
    refine ⟨service, aIndex, agreement, first, hread, hfind, hidx, hfirst, ?_⟩
    rw [hw]
    exact ReadService_recordEvaluation ctx w sid aid eid hash _
      (ReadService_ok ctx w sid service hread).1 hs hi hne
  · intro rid satisfied enforcePenaltyRule service1 h
    obtain ⟨service, aIndex, agreement, first, hread, hfind, hidx, hfirst, hs1, hs, hi, hw⟩ :=
      HandleSatisfactionEvaluationEvent_ok ctx w w1 sid aid eid rid hash atTime satisfied
        enforcePenaltyRule service1 h
    refine ⟨?_, service, aIndex, agreement, first, hread, hfind, hidx, hfirst, hs1⟩
    rw [hw]
    exact ReadService_recordEvaluation ctx w sid aid eid hash _
      (ReadService_ok ctx w sid service hread).1 hs hi hne
  · intro compensated service1 h
    rw [HandlePenaltyRuleEvaluationEvent_eq] at h
    exact hrule compensated service1 h

/-- A satisfied feedback on the stored low-rated service, recorded under the
evaluation id given, returns the credited service. -/
theorem feedback_on_lowRatedService (ctx : TransactionContext) (eid : String)
    (hg : ctx.GetStateErr (.simple "s") = false)
    (hs : ctx.PutStateErr (.simple "s") = false)
    (hc : ctx.CreateCompositeKeyErr evaluationIndex ["Evaluation", eid] = false)
    (hi : ctx.PutStateErr (.composite evaluationIndex ["Evaluation", eid]) = false) :
    HandleSatisfactionEvaluationEvent ctx (worldWith lowRatedService) "s" "a" eid "r" "h" "t2"
        true false =
      (.ok creditedService,
        recordEvaluation ctx (worldWith lowRatedService) "s" "a" eid "h" creditedService) := by
  simp [HandleSatisfactionEvaluationEvent, ServiceExists, ReadService, GetState, PutState,
    CreateCompositeKey, hg, hs, hc, hi, worldWith, lowRatedService, unmarshalService,
    findAgreement, lowRatedAgreement, index, creditedService, Service.withFeedback,
    Agreement.withFeedback, recordEvaluation]

/-- Witness of C24 as amended: a satisfied feedback recorded under the
evaluation id e1 is read back under the service id. -/
theorem evaluation_persisted_witness :
    ReadService reliableContext
        (recordEvaluation reliableContext (worldWith lowRatedService) "s" "a" "e1" "h"
          creditedService) "s" = .ok creditedService ∧
      creditedService.NumberOfEvaluations = 6 :=
  ⟨((evaluation_persisted reliableContext (worldWith lowRatedService) _ "s" "a" "e1" "h" "t2"
      (by decide)).2.2.1 "r" true false creditedService
      (feedback_on_lowRatedService reliableContext "e1" rfl rfl rfl rfl)).1, rfl⟩

/-- Counterexample to C24 as stated: a satisfied feedback on agreement a of the
stored service s, recorded under the evaluation id s, returns the service with
six evaluations, but ReadService of s in the world state left returns a document
without agreements and with no evaluation counted: the audit record was written
over the service. -/
theorem service_lost_by_key_collision :
    (HandleSatisfactionEvaluationEvent reliableContext (worldWith lowRatedService) "s" "a" "s"
        "r" "h" "t2" true false).1 = .ok creditedService ∧
    ReadService reliableContext
        (HandleSatisfactionEvaluationEvent reliableContext (worldWith lowRatedService) "s" "a"
          "s" "r" "h" "t2" true false).2 "s" = .ok hollowService ∧
    creditedService.NumberOfEvaluations = 6 ∧ hollowService.NumberOfEvaluations = 0 ∧
    hollowService ≠ creditedService := by
  rw [feedback_on_lowRatedService reliableContext "s" rfl rfl rfl rfl]
  refine ⟨rfl, ?_, rfl, rfl, by decide⟩
  rw [recordEvaluation_apply _ _ _ _ _ _ _ rfl rfl]
  simp [ReadService, GetState, reliableContext, unmarshalService, hollowService, evaluationIndex]

/-! ## The audit record of an evaluation -/

/-- The three writes of an evaluation leave one record and one index entry when
the store accepts all three. -/
theorem recordEvaluation_records (ctx : TransactionContext) (w : World)
    (sid aid eid hash : String) (service1 : Service)
    (hs : ctx.PutStateErr (.simple sid) = false)
    (he : ctx.PutStateErr (.simple eid) = false)
    (hi : ctx.PutStateErr (.composite evaluationIndex ["Evaluation", eid]) = false) :
    RecordsEvaluation ctx w (recordEvaluation ctx w sid aid eid hash service1) sid aid eid
      hash := by
  rw [recordEvaluation_apply ctx w sid aid eid hash service1 hs hi]
  refine ⟨by simp [he], by simp, ?_⟩
  intro key h1 h2
  by_cases h3 : key = .simple sid
  · right
    subst h3
    have hne : sid ≠ eid := fun h => h1 (by rw [h])
    exact ⟨rfl, service1, by simp [hne]⟩
  · left
    simp [h1, h2, h3]

/-- C25 as amended: every successful EvaluateSLA, UpdateRuleAbidingRate,
HandleSatisfactionEvaluationEvent or HandlePenaltyRuleEvaluationEvent call with
evaluation id eid, made when the store accepts a write under the key eid, leaves
in the world state one Evaluation record, stored under the key eid with docType
Evaluation and the evaluation id, service id, agreement id, transaction id and
hash of the call, whatever was stored under eid before, and one index entry
under the composite key (doc~evaluation, Evaluation, eid); no other key receives
an Evaluation record or an index entry. -/
theorem evaluation_recorded (ctx : TransactionContext) (w w1 : World)
    (sid aid eid hash atTime : String) (he : ctx.PutStateErr (.simple eid) = false) :
    (∀ eData v, EvaluateSLA ctx w sid aid eid eData hash atTime = (.ok v, w1) →
      RecordsEvaluation ctx w w1 sid aid eid hash) ∧
    (∀ compensated service1,
      UpdateRuleAbidingRate ctx w sid aid eid hash atTime compensated = (.ok service1, w1) →
      RecordsEvaluation ctx w w1 sid aid eid hash) ∧
    (∀ rid satisfied enforcePenaltyRule service1,
      HandleSatisfactionEvaluationEvent ctx w sid aid eid rid hash atTime satisfied
        enforcePenaltyRule = (.ok service1, w1) →
      RecordsEvaluation ctx w w1 sid aid eid hash) ∧
    (∀ compensated service1,
      HandlePenaltyRuleEvaluationEvent ctx w sid aid eid hash atTime compensated =
        (.ok service1, w1) →
      RecordsEvaluation ctx w w1 sid aid eid hash) := by
  have hrule : ∀ compensated service1,
      UpdateRuleAbidingRate ctx w sid aid eid hash atTime compensated = (.ok service1, w1) →
      RecordsEvaluation ctx w w1 sid aid eid hash := by
    intro compensated service1 h
    obtain ⟨-, -, -, -, -, -, -, -, -, hs, hi, hw⟩ :=
      UpdateRuleAbidingRate_ok ctx w w1 sid aid eid hash atTime compensated service1 h
    rw [hw]
    exact recordEvaluation_records ctx w sid aid eid hash _ hs he hi
  refine ⟨?_, hrule, ?_, ?_⟩
  · intro eData v h
    obtain ⟨service, aIndex, agreement, evaData, first, -, -, -, -, -, -, hs, hi, hw⟩ :=
      EvaluateSLA_ok ctx w w1 sid aid eid eData hash atTime v h
    rw [hw]
    exact recordEvaluation_records ctx w sid aid eid hash _ hs he hi
  · intro rid satisfied enforcePenaltyRule service1 h
    obtain ⟨-, -, -, -, -, -, -, -, -, hs, hi, hw⟩ :=
      HandleSatisfactionEvaluationEvent_ok ctx w w1 sid aid eid rid hash atTime satisfied
        enforcePenaltyRule service1 h
    rw [hw]
    exact recordEvaluation_records ctx w sid aid eid hash _ hs he hi
  · intro compensated service1 h
    rw [HandlePenaltyRuleEvaluationEvent_eq] at h
    exact hrule compensated service1 h

/-- Witness of C25 as amended: a feedback recorded under the evaluation id e1. -/
theorem evaluation_recorded_witness :
    RecordsEvaluation reliableContext (worldWith lowRatedService)
      (recordEvaluation reliableContext (worldWith lowRatedService) "s" "a" "e1" "h"
        creditedService) "s" "a" "e1" "h" :=
  (evaluation_recorded reliableContext (worldWith lowRatedService) _ "s" "a" "e1" "h" "t2"
    rfl).2.2.1 "r" true false creditedService
    (feedback_on_lowRatedService reliableContext "e1" rfl rfl rfl rfl)

/-- Counterexample to C25 as stated: a satisfied feedback with the empty
evaluation id, in a transaction whose store rejects a write under the empty key.
The call succeeds and writes the index entry, but no key of the world state left
holds an Evaluation record. -/
theorem evaluation_record_dropped :
    (HandleSatisfactionEvaluationEvent strictContext (worldWith lowRatedService) "s" "a" ""
        "r" "h" "t2" true false).1 = .ok creditedService ∧
    (HandleSatisfactionEvaluationEvent strictContext (worldWith lowRatedService) "s" "a" ""
        "r" "h" "t2" true false).2 (.composite evaluationIndex ["Evaluation", ""]) =
      some .indexEntry ∧
    ∀ key e,
      (HandleSatisfactionEvaluationEvent strictContext (worldWith lowRatedService) "s" "a" ""
        "r" "h" "t2" true false).2 key ≠ some (.evaluation e) := by
  rw [feedback_on_lowRatedService strictContext "" rfl rfl rfl rfl,
    recordEvaluation_apply _ _ _ _ _ _ _ rfl rfl]
  refine ⟨rfl, by simp, ?_⟩
  intro key e
  by_cases h1 : key = .composite evaluationIndex ["Evaluation", ""]
  · simp [h1]
  · by_cases h2 : key = .simple "s"
    · simp [h2, strictContext]
    · simp [h1, h2, strictContext, worldWith, lowRatedService]

/-! ## The two entry points of each update rule -/

/-- With the verdict of `VerifySLA` given, `EvaluateSLA` is
`HandleSatisfactionEvaluationEvent` on the verdict, except that it returns the
verdict in place of the service. -/
theorem EvaluateSLA_eq_handle (ctx : TransactionContext) (w : World)
    (sid aid eid rid hash atTime : String) (evaData : List EvaluationData)
    (v : EvaluationResult) (enforcePenaltyRule : Bool)
    (h : ∀ (service : Service) (aIndex : Nat) (agreement : Agreement),
      ReadService ctx w sid = .ok service →
      findAgreement aid service.Agreements = some aIndex →
      index service.Agreements aIndex = .ok agreement →
      VerifySLA agreement evaData = .ok v) :
    EvaluateSLA ctx w sid aid eid (some evaData) hash atTime =
      ((HandleSatisfactionEvaluationEvent ctx w sid aid eid rid hash atTime v.Satisfied
          enforcePenaltyRule).1.map (fun _ => v),
        (HandleSatisfactionEvaluationEvent ctx w sid aid eid rid hash atTime v.Satisfied
          enforcePenaltyRule).2) := by
  unfold EvaluateSLA HandleSatisfactionEvaluationEvent
  cases hexist : ServiceExists ctx w sid with
  | error e => simp [Except.map]
  | ok exist =>
    cases exist with
    | false => simp [Except.map]
    | true =>
      simp only
      cases hread : ReadService ctx w sid with
      | error e => simp [Except.map]
      | ok service =>
        simp only
        cases hfind : findAgreement aid service.Agreements with
        | none => simp [Except.map]
        | some aIndex =>
          simp only
          cases hidx : index service.Agreements aIndex with
          | error e => simp [Except.map]
          | ok agreement =>
            simp only [h service aIndex agreement hread hfind hidx]
            unfold PutState CreateCompositeKey
            repeat' split
            all_goals simp_all [Except.map]

/-- The platform keeps or drops the writes according to the result alone. -/
theorem persisted_map {α β : Type} (w : World) (r : Except Failure α) (w1 : World) (f : α → β) :
    persisted w (r.map f, w1) = persisted w (r, w1) := by
  cases r <;> rfl

/-- C29: for every world state and arguments, if VerifySLA returns the verdict v
for the decoded evidence on the agreement aid of the service sid, then
EvaluateSLA(sid, aid, eid, evidence, hash, at) and
HandleSatisfactionEvaluationEvent(sid, aid, eid, rid, hash, at, v.Satisfied,
false) issue the same writes, fail with the same errors and leave the same world
state; UpdateRuleAbidingRate and HandlePenaltyRuleEvaluationEvent are the same
function of state and arguments. -/
theorem EvaluateSLA_same_update (ctx : TransactionContext) (w : World)
    (sid aid eid rid hash atTime : String) (evaData : List EvaluationData)
    (v : EvaluationResult)
    (h : ∀ (service : Service) (aIndex : Nat) (agreement : Agreement),
      ReadService ctx w sid = .ok service →
      findAgreement aid service.Agreements = some aIndex →
      index service.Agreements aIndex = .ok agreement →
      VerifySLA agreement evaData = .ok v) :
    (EvaluateSLA ctx w sid aid eid (some evaData) hash atTime).2 =
      (HandleSatisfactionEvaluationEvent ctx w sid aid eid rid hash atTime v.Satisfied
        false).2 ∧
    persisted w (EvaluateSLA ctx w sid aid eid (some evaData) hash atTime) =
      persisted w (HandleSatisfactionEvaluationEvent ctx w sid aid eid rid hash atTime
        v.Satisfied false) ∧
    (∀ e, (EvaluateSLA ctx w sid aid eid (some evaData) hash atTime).1 = .error e ↔
      (HandleSatisfactionEvaluationEvent ctx w sid aid eid rid hash atTime v.Satisfied
        false).1 = .error e) ∧
    ∀ compensated,
      UpdateRuleAbidingRate ctx w sid aid eid hash atTime compensated =
        HandlePenaltyRuleEvaluationEvent ctx w sid aid eid hash atTime compensated := by
  rw [EvaluateSLA_eq_handle ctx w sid aid eid rid hash atTime evaData v false h]
  refine ⟨rfl, persisted_map _ _ _ _, ?_, fun _ => rfl⟩
  intro e
  cases (HandleSatisfactionEvaluationEvent ctx w sid aid eid rid hash atTime v.Satisfied
    false).1 <;> simp [Except.map]

/-- The verdict on a ride never served against the stored shuttle agreement. -/
theorem VerifySLA_shuttleService_not_served :
    VerifySLA (sampleAgreement "service" [shuttleItem]) [shuttleRide "not_served" 600 605 0] =
      .ok { Satisfied := false, PenaltyRule := some ⟨"discount", 10⟩,
            FailureReason := "driver did not come to pick up the passenger" } := by
  simp [VerifySLA, StringInSlice, SupportedAgreementCategories, AgreementCategoryService,
    sampleAgreement, index, shuttleItem, AgreementItemCodeServiceAirportShuttle,
    VerifyAirportShuttleAgreement, shuttleRide, AirportShuttleStatusDriverWaiting,
    AirportShuttleStatusInService, AirportShuttleStatusCanceled, AirportShuttleStatusNotServed]

/-- Witness of C29: a ride never served, evaluated against the stored shuttle
agreement, leaves the world state that the unsatisfied feedback leaves. -/
theorem EvaluateSLA_same_update_witness :
    persisted (worldWith shuttleService)
        (EvaluateSLA reliableContext (worldWith shuttleService) "s" "a" "e1"
          (some [shuttleRide "not_served" 600 605 0]) "hash" "t") =
      persisted (worldWith shuttleService)
        (HandleSatisfactionEvaluationEvent reliableContext (worldWith shuttleService) "s" "a"
          "e1" "r" "hash" "t" false false) :=
  (EvaluateSLA_same_update reliableContext (worldWith shuttleService) "s" "a" "e1" "r" "hash"
    "t" [shuttleRide "not_served" 600 605 0]
    { Satisfied := false, PenaltyRule := some ⟨"discount", 10⟩,
      FailureReason := "driver did not come to pick up the passenger" }
    (by
      intro service aIndex agreement hread hfind hidx
      rw [ReadService_worldWith_shuttleService] at hread
      cases hread
      simp [shuttleService, findAgreement, sampleAgreement] at hfind
      subst hfind
      simp [shuttleService, index] at hidx
      subst hidx
      exact VerifySLA_shuttleService_not_served)).2.1

/-! ## What the registry operations leave alone -/

/-- C28: a successful UpdateAgreement replaces the Category, Items,
HasPenaltyRule and PenaltyRules of the agreement found and leaves its
AgreementID, four counters, two rates and LastEvaluationAt, every other
agreement, and the rollup rates, NumberOfEvaluations, LastEvaluationAt, docType
and id of the service as they were; a successful AddAgreement appends an
agreement with the given terms, counters 0 and rates 1 and changes no existing
agreement and no other field of the service.  The service so described is the
one returned and the one stored under sid. -/
theorem registry_frame (ctx : TransactionContext) (w w1 : World)
    (sid aid cat : String) (hasPenalty : Bool) (items : Option (List AgreementItem))
    (penaltyRules : Option (List PenaltyRule)) (service1 : Service) :
    (UpdateAgreement ctx w sid aid cat hasPenalty items penaltyRules = (.ok service1, w1) →
      ∃ service aIndex agreement agreement1,
        ReadService ctx w sid = .ok service ∧
        findAgreement aid service.Agreements = some aIndex ∧
        index service.Agreements aIndex = .ok agreement ∧
        index service1.Agreements aIndex = .ok agreement1 ∧
        agreement1.Category = cat ∧ some agreement1.Items = items ∧
        agreement1.HasPenaltyRule = hasPenalty ∧ some agreement1.PenaltyRules = penaltyRules ∧
        agreement1.AgreementID = agreement.AgreementID ∧
        agreement1.TotalFeedbacks = agreement.TotalFeedbacks ∧
        agreement1.TotalUnsatisfied = agreement.TotalUnsatisfied ∧
        agreement1.TotalRuleViolations = agreement.TotalRuleViolations ∧
        agreement1.TotalRuleViolationWithoutCompensations =
          agreement.TotalRuleViolationWithoutCompensations ∧
        agreement1.SatisfactionRate = agreement.SatisfactionRate ∧
        agreement1.RuleAbidingRate = agreement.RuleAbidingRate ∧
        agreement1.LastEvaluationAt = agreement.LastEvaluationAt ∧
        service1.Agreements.length = service.Agreements.length ∧
        (∀ j, j ≠ aIndex → index service1.Agreements j = index service.Agreements j) ∧
        service1.SatisfactionRate = service.SatisfactionRate ∧
        service1.RuleAbidingRate = service.RuleAbidingRate ∧
        service1.NumberOfEvaluations = service.NumberOfEvaluations ∧
        service1.LastEvaluationAt = service.LastEvaluationAt ∧
        service1.DocType = service.DocType ∧ service1.ServiceID = service.ServiceID ∧
        w1 (.simple sid) = some (.service service1)) ∧
    (AddAgreement ctx w sid aid cat hasPenalty items penaltyRules = (.ok service1, w1) →
      ∃ service aItems aPenaltyRules,
        ReadService ctx w sid = .ok service ∧
        items = some aItems ∧ penaltyRules = some aPenaltyRules ∧
        service1.Agreements = service.Agreements ++
          [{ AgreementID := aid, Category := cat, Items := aItems, TotalFeedbacks := 0,
             TotalUnsatisfied := 0, TotalRuleViolations := 0,
             TotalRuleViolationWithoutCompensations := 0, HasPenaltyRule := hasPenalty,
             PenaltyRules := aPenaltyRules, LastEvaluationAt := "", RuleAbidingRate := 1,
             SatisfactionRate := 1 }] ∧
        service1.SatisfactionRate = service.SatisfactionRate ∧
        service1.RuleAbidingRate = service.RuleAbidingRate ∧
        service1.NumberOfEvaluations = service.NumberOfEvaluations ∧
        service1.LastEvaluationAt = service.LastEvaluationAt ∧
        service1.DocType = service.DocType ∧ service1.ServiceID = service.ServiceID ∧
        w1 (.simple sid) = some (.service service1)) := by
  constructor
  · intro h
    obtain ⟨service, aIndex, agreement, aItems, aPenaltyRules, hread, hfind, hidx, hitems,
      hrules, hs1, -, hw⟩ :=
      UpdateAgreement_ok ctx w w1 sid aid cat hasPenalty items penaltyRules service1 h
    subst hs1
    subst hw
    refine ⟨service, aIndex, agreement,
      { agreement with Category := cat, Items := aItems, HasPenaltyRule := hasPenalty,
                       PenaltyRules := aPenaltyRules },
      hread, hfind, hidx, ?_, rfl, hitems.symm, rfl, hrules.symm, rfl, rfl, rfl, rfl, rfl, rfl,
      rfl, rfl, ?_, ?_, ?_, ?_, ?_, ?_, ?_, ?_, ?_⟩
    · exact index_set_self service.Agreements aIndex agreement _ hidx
    · simp
    · intro j hj
      exact index_set_other service.Agreements aIndex j _ hj
    all_goals first | rfl | simp
  · intro h
    obtain ⟨service, aItems, aPenaltyRules, hread, hitems, hrules, -, hs1, -, hw⟩ :=
      AddAgreement_ok ctx w w1 sid aid cat hasPenalty items penaltyRules service1 h
    subst hs1
    subst hw
    refine ⟨service, aItems, aPenaltyRules, hread, hitems, hrules, ?_, ?_, ?_, ?_, ?_, ?_, ?_,
      ?_⟩
    all_goals first | rfl | simp

/-- Witness of C28: new terms for the only agreement of the stored low-rated
service keep its five feedbacks, three of them unsatisfied, its rate 0.4 and the
rate and evaluation count of the service. -/
theorem registry_frame_witness :
    ∃ agreement1,
      index retermedService.Agreements 0 = .ok agreement1 ∧
      agreement1.Category = "bed" ∧
      agreement1.TotalFeedbacks = 5 ∧ agreement1.TotalUnsatisfied = 3 ∧
      agreement1.SatisfactionRate = 2 / 5 ∧
      retermedService.SatisfactionRate = 2 / 5 ∧ retermedService.NumberOfEvaluations = 5 := by
  have hrun : UpdateAgreement reliableContext (worldWith lowRatedService) "s" "a" "bed" true
      (some [plainItem "BE001" 1]) (some [⟨"discount", 10⟩]) =
      (.ok retermedService,
        (UpdateAgreement reliableContext (worldWith lowRatedService) "s" "a" "bed" true
          (some [plainItem "BE001" 1]) (some [⟨"discount", 10⟩])).2) := by
    simp [UpdateAgreement, ServiceExists, ReadService, GetState, PutState, reliableContext,
      worldWith, lowRatedService, unmarshalService, findAgreement, lowRatedAgreement, index,
      retermedService]
  obtain ⟨service, aIndex, agreement, agreement1, hread, hfind, hidx, hidx1, hcat, -, -, -, -,
    hfeed, hunsat, -, -, hrate, -, -, -, -, hsrate, -, hnum, -⟩ :=
    (registry_frame reliableContext (worldWith lowRatedService) _ "s" "a" "bed" true
      (some [plainItem "BE001" 1]) (some [⟨"discount", 10⟩]) retermedService).1 hrun
  rw [ReadService_worldWith_lowRatedService] at hread
  cases hread
  simp [lowRatedService, findAgreement, lowRatedAgreement] at hfind
  subst hfind
  simp [lowRatedService, index] at hidx
  subst hidx
  exact ⟨agreement1, hidx1, hcat, hfeed, hunsat, hrate, hsrate, hnum⟩

/-! ## Absent and duplicate entities -/

/-- The search loop ends with `-1` exactly when no agreement has the id. -/
theorem findAgreement_eq_none (aid : String) (l : List Agreement) :
    findAgreement aid l = none ↔ ∀ a ∈ l, a.AgreementID ≠ aid := by
  induction l with
  | nil => simp [findAgreement]
  | cons b rest ih =>
    unfold findAgreement
    by_cases hb : b.AgreementID = aid
    · simp [hb]
    · cases hrest : findAgreement aid rest with
      | none => simpa [hb, hrest] using ih.mp hrest
      | some j =>
        simp only [hb, if_false, List.mem_cons, forall_eq_or_imp, ne_eq, not_false_eq_true,
          true_and]
        constructor
        · intro h; cases h
        · intro h
          rw [ih.mpr h] at hrest
          cases hrest

/-- A service that can be read exists. -/
theorem ServiceExists_of_ReadService (ctx : TransactionContext) (w : World) (sid : String)
    (service : Service) (h : ReadService ctx w sid = .ok service) :
    ServiceExists ctx w sid = .ok true := by
  obtain ⟨hg, doc, hdoc, -⟩ := ReadService_ok ctx w sid service h
  simp [ServiceExists, GetState, hg, hdoc]

/-- C22: when the store can be read, CreateService(id) fails with Conflict and
has written nothing when a value is stored under id; ReadService(id) and
DeleteService(id) fail with NotFound, the latter having written nothing, when
nothing is stored under id; AddAgreement, UpdateAgreement and RemoveAgreement
fail with NotFound and have written nothing when nothing is stored under the
service id, and UpdateAgreement and RemoveAgreement also when the service read
holds no agreement of the id given. -/
theorem registry_errors (ctx : TransactionContext) (w : World) :
    (∀ id v, ctx.GetStateErr (.simple id) = false → w (.simple id) = some v →
      CreateService ctx w id = (.error .Conflict, w)) ∧
    (∀ id, ctx.GetStateErr (.simple id) = false → w (.simple id) = none →
      ReadService ctx w id = .error .NotFound ∧
      DeleteService ctx w id = (.error .NotFound, w)) ∧
    (∀ sid aid cat hasPenalty items penaltyRules,
      ctx.GetStateErr (.simple sid) = false → w (.simple sid) = none →
      AddAgreement ctx w sid aid cat hasPenalty items penaltyRules = (.error .NotFound, w) ∧
      UpdateAgreement ctx w sid aid cat hasPenalty items penaltyRules = (.error .NotFound, w) ∧
      RemoveAgreement ctx w sid aid = (.error .NotFound, w)) ∧
    (∀ sid aid cat hasPenalty items penaltyRules service,
      ReadService ctx w sid = .ok service →
      (∀ a ∈ service.Agreements, a.AgreementID ≠ aid) →
      UpdateAgreement ctx w sid aid cat hasPenalty items penaltyRules = (.error .NotFound, w) ∧
      RemoveAgreement ctx w sid aid = (.error .NotFound, w)) := by
  refine ⟨?_, ?_, ?_, ?_⟩
  · intro id v hg hv
    simp [CreateService, ServiceExists, GetState, hg, hv]
  · intro id hg hv
    have hread : ReadService ctx w id = .error .NotFound := by
      simp [ReadService, GetState, hg, hv]
    exact ⟨hread, by simp [DeleteService, hread]⟩
  · intro sid aid cat hasPenalty items penaltyRules hg hv
    refine ⟨?_, ?_, ?_⟩
    · simp [AddAgreement, ServiceExists, GetState, hg, hv]
    · simp [UpdateAgreement, ServiceExists, GetState, hg, hv]
    · simp [RemoveAgreement, ServiceExists, GetState, hg, hv]
  · intro sid aid cat hasPenalty items penaltyRules service hread hnone
    have hexist := ServiceExists_of_ReadService ctx w sid service hread
    have hfind := (findAgreement_eq_none aid service.Agreements).mpr hnone
    refine ⟨?_, ?_⟩
    · simp [UpdateAgreement, hexist, hread, hfind]
    · simp [RemoveAgreement, hexist, hread, hfind]

/-- Witness of C22: creating the stored service again is a conflict, and a
service, or an agreement of the stored service, that is not there is not found. -/
theorem registry_errors_witness :
    CreateService reliableContext (worldWith lowRatedService) "s" =
      (.error .Conflict, worldWith lowRatedService) ∧
    ReadService reliableContext (worldWith lowRatedService) "x" = .error .NotFound ∧
    DeleteService reliableContext (worldWith lowRatedService) "x" =
      (.error .NotFound, worldWith lowRatedService) ∧
    AddAgreement reliableContext (worldWith lowRatedService) "x" "a" "view" false (some [])
        (some []) = (.error .NotFound, worldWith lowRatedService) ∧
    UpdateAgreement reliableContext (worldWith lowRatedService) "s" "b" "view" false (some [])
        (some []) = (.error .NotFound, worldWith lowRatedService) ∧
    RemoveAgreement reliableContext (worldWith lowRatedService) "s" "b" =
      (.error .NotFound, worldWith lowRatedService) := by
  have h := registry_errors reliableContext (worldWith lowRatedService)
  have hx : worldWith lowRatedService (.simple "x") = none := by
    simp [worldWith, lowRatedService]
  have hb : ∀ a ∈ lowRatedService.Agreements, a.AgreementID ≠ "b" := by
    simp [lowRatedService, lowRatedAgreement]
  exact ⟨h.1 "s" (.service lowRatedService) rfl (by simp [worldWith, lowRatedService]),
    (h.2.1 "x" rfl hx).1, (h.2.1 "x" rfl hx).2,
    (h.2.2.1 "x" "a" "view" false (some []) (some []) rfl hx).1,
    (h.2.2.2 "s" "b" "view" false (some []) (some []) lowRatedService
      ReadService_worldWith_lowRatedService hb).1,
    (h.2.2.2 "s" "b" "view" false (some []) (some []) lowRatedService
      ReadService_worldWith_lowRatedService hb).2⟩

/-! ## Penalty dispatch -/

/-- Whatever the penalty service answers, the result and the writes of
`HandleSatisfactionEvaluationEvent` are those of its state function. -/
theorem HandleSatisfactionEvaluationEventTraced_fst (penaltyService : PenaltyService)
    (ctx : TransactionContext) (w : World) (sid aid eid rid hash atTime : String)
    (satisfied enforcePenaltyRule : Bool) :
    (HandleSatisfactionEvaluationEventTraced penaltyService ctx w sid aid eid rid hash atTime
        satisfied enforcePenaltyRule).1 =
      HandleSatisfactionEvaluationEvent ctx w sid aid eid rid hash atTime satisfied
        enforcePenaltyRule := by
  unfold HandleSatisfactionEvaluationEventTraced HandleSatisfactionEvaluationEvent
  cases hexist : ServiceExists ctx w sid with
  | error e => rfl
  | ok exist =>
    cases exist with
    | false => rfl
    | true =>
      simp only
      cases hread : ReadService ctx w sid with
      | error e => rfl
      | ok service =>
        simp only
        cases hfind : findAgreement aid service.Agreements with
        | none => rfl
        | some aIndex =>
          simp only
          cases hidx : index service.Agreements aIndex with
          | error e => rfl
          | ok agreement =>
            generalize enforceFromEvent penaltyService ctx w rid aid = sent
            cases satisfied
            all_goals
              simp only [if_true, Bool.true_eq_false, if_false]
              split
              · rename_i e heq
                rfl
              · rename_i first heq
                try simp only [heq]
                cases h1 : ctx.PutStateErr (.simple sid) <;>
                cases h2 : ctx.CreateCompositeKeyErr evaluationIndex ["Evaluation", eid] <;>
                cases h3 : ctx.PutStateErr (.composite evaluationIndex ["Evaluation", eid]) <;>
                simp [PutState, CreateCompositeKey, h1, h2, h3]

/-- A call of the penalty service made by `HandleSatisfactionEvaluationEvent` was
made for an unsatisfied feedback on an agreement with a penalty rule, with
enforcement requested, and is the call of `enforceFromEvent`. -/
theorem HandleSatisfactionEvaluationEventTraced_snd (penaltyService : PenaltyService)
    (ctx : TransactionContext) (w : World) (sid aid eid rid hash atTime : String)
    (satisfied enforcePenaltyRule : Bool) (d : Dispatch)
    (hd : d ∈ (HandleSatisfactionEvaluationEventTraced penaltyService ctx w sid aid eid rid hash
      atTime satisfied enforcePenaltyRule).2) :
    satisfied = false ∧ enforcePenaltyRule = true ∧
      (∃ service aIndex agreement,
        ReadService ctx w sid = .ok service ∧
        findAgreement aid service.Agreements = some aIndex ∧
        index service.Agreements aIndex = .ok agreement ∧
        agreement.HasPenaltyRule = true) ∧
      d ∈ enforceFromEvent penaltyService ctx w rid aid := by
  unfold HandleSatisfactionEvaluationEventTraced at hd
  cases hexist : ServiceExists ctx w sid with
  | error e => simp [hexist] at hd
  | ok exist =>
    cases exist with
    | false => simp [hexist] at hd
    | true =>
      simp only [hexist] at hd
      cases hread : ReadService ctx w sid with
      | error e => simp [hread] at hd
      | ok service =>
        simp only [hread] at hd
        cases hfind : findAgreement aid service.Agreements with
        | none => simp [hfind] at hd
        | some aIndex =>
          simp only [hfind] at hd
          cases hidx : index service.Agreements aIndex with
          | error e => simp [hidx] at hd
          | ok agreement =>
            simp only [hidx] at hd
            have hcalls : d ∈
                (if satisfied = false then
                  (agreement.TotalUnsatisfied + 1,
                    if agreement.HasPenaltyRule = true ∧ enforcePenaltyRule = true then
                      enforceFromEvent penaltyService ctx w rid aid
                    else [])
                else (agreement.TotalUnsatisfied, [])).2 := by
              split at hd
              · exact hd
              · cases h1 : ctx.PutStateErr (.simple sid) <;>
                cases h2 : ctx.CreateCompositeKeyErr evaluationIndex ["Evaluation", eid] <;>
                cases h3 : ctx.PutStateErr (.composite evaluationIndex ["Evaluation", eid]) <;>
                simp only [PutState, CreateCompositeKey, h1, h2, h3, Bool.false_eq_true,
                  if_false, if_true] at hd <;>
                exact hd
            cases satisfied with
            | true => simp at hcalls
            | false =>
              simp only [if_true] at hcalls
              by_cases hcond : agreement.HasPenaltyRule = true ∧ enforcePenaltyRule = true
              · rw [if_pos hcond] at hcalls
                exact ⟨rfl, hcond.2, ⟨service, aIndex, agreement, rfl, hfind, hidx, hcond.1⟩,
                  hcalls⟩
              · rw [if_neg hcond] at hcalls
                simp at hcalls

/-- The state function of `HandleSatisfactionEvaluationEvent` reads the
transaction context only through the reads of the service id, the writes, the
composite key and the transaction id. -/
theorem HandleSatisfactionEvaluationEvent_congr (ctx ctx1 : TransactionContext) (w : World)
    (sid aid eid rid hash atTime : String) (satisfied enforcePenaltyRule : Bool)
    (hg : ctx1.GetStateErr (.simple sid) = ctx.GetStateErr (.simple sid))
    (hp : ctx1.PutStateErr = ctx.PutStateErr)
    (hc : ctx1.CreateCompositeKeyErr = ctx.CreateCompositeKeyErr)
    (ht : ctx1.TxID = ctx.TxID) :
    HandleSatisfactionEvaluationEvent ctx1 w sid aid eid rid hash atTime satisfied
        enforcePenaltyRule =
      HandleSatisfactionEvaluationEvent ctx w sid aid eid rid hash atTime satisfied
        enforcePenaltyRule := by
  have e1 : ServiceExists ctx1 w sid = ServiceExists ctx w sid := by
    simp [ServiceExists, GetState, hg]
  have e2 : ReadService ctx1 w sid = ReadService ctx w sid := by
    simp [ReadService, GetState, hg]
  have e3 : ∀ w0 key value, PutState ctx1 w0 key value = PutState ctx w0 key value := by
    intro w0 key value
    simp [PutState, hp]
  have e4 : ∀ objectType attributes,
      CreateCompositeKey ctx1 objectType attributes =
        CreateCompositeKey ctx objectType attributes := by
    intro objectType attributes
    simp [CreateCompositeKey, hc]
  unfold HandleSatisfactionEvaluationEvent
  simp only [e1, e2, e3, e4, ht]

/-- C27: for every prior state and arguments, the service returned and the world
state left by HandleSatisfactionEvaluationEvent are the same whatever the
penalty service answers, and the same when the read of the internal access key
fails and the call is skipped; a call of the penalty service is made only when
satisfied is false, the HasPenaltyRule of the agreement found is true and
enforcePenaltyRule is true. -/
theorem dispatch_never_influences_state (ctx : TransactionContext) (w : World)
    (sid aid eid rid hash atTime : String) (satisfied enforcePenaltyRule : Bool) :
    (∀ p1 p2 : PenaltyService,
      (HandleSatisfactionEvaluationEventTraced p1 ctx w sid aid eid rid hash atTime satisfied
          enforcePenaltyRule).1 =
        (HandleSatisfactionEvaluationEventTraced p2 ctx w sid aid eid rid hash atTime satisfied
          enforcePenaltyRule).1) ∧
    (∀ (p : PenaltyService) (unreadable : Bool), sid ≠ JWTInternalServiceAccessKey →
      (HandleSatisfactionEvaluationEventTraced p
          { ctx with
              GetStateErr := fun key =>
                if key = .simple JWTInternalServiceAccessKey then unreadable
                else ctx.GetStateErr key }
          w sid aid eid rid hash atTime satisfied enforcePenaltyRule).1 =
        (HandleSatisfactionEvaluationEventTraced p ctx w sid aid eid rid hash atTime satisfied
          enforcePenaltyRule).1) ∧
    (∀ (p : PenaltyService) (d : Dispatch),
      d ∈ (HandleSatisfactionEvaluationEventTraced p ctx w sid aid eid rid hash atTime
        satisfied enforcePenaltyRule).2 →
      satisfied = false ∧ enforcePenaltyRule = true ∧
        ∃ service aIndex agreement,
          ReadService ctx w sid = .ok service ∧
          findAgreement aid service.Agreements = some aIndex ∧
          index service.Agreements aIndex = .ok agreement ∧
          agreement.HasPenaltyRule = true) := by
  refine ⟨?_, ?_, ?_⟩
  · intro p1 p2
    rw [HandleSatisfactionEvaluationEventTraced_fst, HandleSatisfactionEvaluationEventTraced_fst]
  · intro p unreadable hne
    rw [HandleSatisfactionEvaluationEventTraced_fst, HandleSatisfactionEvaluationEventTraced_fst]
    apply HandleSatisfactionEvaluationEvent_congr
    · have hkey : (Key.simple sid) ≠ .simple JWTInternalServiceAccessKey := by
        intro h
        cases h
        exact hne rfl
      simp [hkey]
    · rfl
    · rfl
    · rfl
  · intro p d hd
    obtain ⟨h1, h2, h3, -⟩ :=
      HandleSatisfactionEvaluationEventTraced_snd p ctx w sid aid eid rid hash atTime
        satisfied enforcePenaltyRule d hd
    exact ⟨h1, h2, h3⟩

/-- Witness of C27: an unsatisfied feedback with enforcement on the stored
shuttle agreement calls the penalty service once; the call succeeds with one
service and fails with the other, and the result and the world state are the
same. -/
theorem dispatch_never_influences_state_witness :
    (HandleSatisfactionEvaluationEventTraced acceptingService reliableContext keyedWorld "s"
        "a" "e1" "r" "h" "t" false true).1 =
      (HandleSatisfactionEvaluationEventTraced unreachableService reliableContext keyedWorld
        "s" "a" "e1" "r" "h" "t" false true).1 ∧
    (HandleSatisfactionEvaluationEventTraced acceptingService reliableContext keyedWorld "s"
        "a" "e1" "r" "h" "t" false true).2.map (fun d => d.Outcome) = [.ok ()] ∧
    (HandleSatisfactionEvaluationEventTraced unreachableService reliableContext keyedWorld
        "s" "a" "e1" "r" "h" "t" false true).2.map (fun d => d.Outcome) =
      [.error .Transport] := by
  refine ⟨(dispatch_never_influences_state reliableContext keyedWorld "s" "a" "e1" "r" "h" "t"
    false true).1 acceptingService unreachableService, ?_, ?_⟩
  · simp [HandleSatisfactionEvaluationEventTraced, ServiceExists, ReadService, GetState,
      PutState, CreateCompositeKey, reliableContext, keyedWorld,
      CreateOrUpdateInternalServiceAccessKey, JWTInternalServiceAccessKey, worldWith,
      shuttleService, unmarshalService, findAgreement, sampleAgreement, index,
      enforceFromEvent, ReadInternalServiceAccessKey, unmarshalAccessKey,
      EnforcePenaltyRuleFromBlockChain, EnforcePenaltyRules, acceptingService]
  · simp [HandleSatisfactionEvaluationEventTraced, ServiceExists, ReadService, GetState,
      PutState, CreateCompositeKey, reliableContext, keyedWorld,
      CreateOrUpdateInternalServiceAccessKey, JWTInternalServiceAccessKey, worldWith,
      shuttleService, unmarshalService, findAgreement, sampleAgreement, index,
      enforceFromEvent, ReadInternalServiceAccessKey, unmarshalAccessKey,
      EnforcePenaltyRuleFromBlockChain, EnforcePenaltyRules, unreachableService]

/-! ## Failed invocations -/

/-- An invocation that returned an error leaves the world state as it was. -/
theorem persisted_error {α : Type} (w w1 : World) (e : Failure) :
    persisted w ((.error e, w1) : Except Failure α × World) = w := rfl

/-- The errors of the store are storage errors. -/
theorem PutState_error (ctx : TransactionContext) (w w1 : World) (key : Key) (value : Stored)
    (e : Failure) (h : PutState ctx w key value = (.error e, w1)) : e = .StorageError := by
  unfold PutState at h
  split at h
  · simp only [Prod.mk.injEq, Except.error.injEq] at h
    exact h.1.symm
  · simp at h

/-- The errors of the store are storage errors. -/
theorem DelState_error (ctx : TransactionContext) (w w1 : World) (key : Key)
    (e : Failure) (h : DelState ctx w key = (.error e, w1)) : e = .StorageError := by
  unfold DelState at h
  split at h
  · simp only [Prod.mk.injEq, Except.error.injEq] at h
    exact h.1.symm
  · simp at h

/-- An error of the last two steps of an evaluation is a storage error. -/
theorem indexEntry_error (ctx : TransactionContext) (w2 w1 : World) (eid : String)
    {α : Type} (v : α) (e : Failure)
    (h : (match CreateCompositeKey ctx evaluationIndex ["Evaluation", eid] with
          | .error e => ((.error e, w2) : Except Failure α × World)
          | .ok docEvaluationIndexKey =>
            match PutState ctx w2 docEvaluationIndexKey .indexEntry with
            | (.error e, w3) => (.error e, w3)
            | (.ok _, w3) => (.ok v, w3)) = (.error e, w1)) :
    e = .StorageError := by
  unfold CreateCompositeKey at h
  split at h
  · rename_i e1 hkey
    split at hkey
    · simp only [Except.error.injEq] at hkey
      simp only [Prod.mk.injEq, Except.error.injEq] at h
      rw [← h.1, ← hkey]
    · simp at hkey
  · split at h
    · rename_i e1 w3 hput
      simp only [Prod.mk.injEq, Except.error.injEq] at h
      rw [← h.1]
      exact PutState_error ctx _ _ _ _ _ hput
    · simp at h

/-- An error of `CreateService` other than a storage error comes before any
write. -/
theorem CreateService_unwritten (ctx : TransactionContext) (w w1 : World) (id : String)
    (e : Failure) (h : CreateService ctx w id = (.error e, w1)) (hne : e ≠ .StorageError) :
    w1 = w := by
  unfold CreateService at h
  split at h
  · simp only [Prod.mk.injEq] at h
    exact h.2.symm
  · simp only [Prod.mk.injEq] at h
    exact h.2.symm
  · simp only at h
    split at h
    · simp only [Prod.mk.injEq, Except.error.injEq] at h
      exact absurd h.1.symm hne
    · unfold CreateCompositeKey at h
      split at h
      · rename_i e1 hkey
        split at hkey
        · simp only [Except.error.injEq] at hkey
          simp only [Prod.mk.injEq, Except.error.injEq] at h
          exact absurd (by rw [← h.1, ← hkey]) hne
        · simp at hkey
      · exact absurd (PutState_error ctx _ _ _ _ _ h) hne

/-- An error of `DeleteService` other than a storage error comes before any
write. -/
theorem DeleteService_unwritten (ctx : TransactionContext) (w w1 : World) (id : String)
    (e : Failure) (h : DeleteService ctx w id = (.error e, w1)) (hne : e ≠ .StorageError) :
    w1 = w := by
  unfold DeleteService at h
  split at h
  · simp only [Prod.mk.injEq] at h
    exact h.2.symm
  · split at h
    · simp only [Prod.mk.injEq, Except.error.injEq] at h
      exact absurd h.1.symm hne
    · unfold CreateCompositeKey at h
      split at h
      · rename_i e1 hkey
        split at hkey
        · simp only [Except.error.injEq] at hkey
          simp only [Prod.mk.injEq, Except.error.injEq] at h
          exact absurd (by rw [← h.1, ← hkey]) hne
        · simp at hkey
      · exact absurd (DelState_error ctx _ _ _ _ h) hne

/-- An error of `AddAgreement` other than a storage error comes before any
write. -/
theorem AddAgreement_unwritten (ctx : TransactionContext) (w w1 : World)
    (sid aid cat : String) (hasPenalty : Bool) (items : Option (List AgreementItem))
    (penaltyRules : Option (List PenaltyRule)) (e : Failure)
    (h : AddAgreement ctx w sid aid cat hasPenalty items penaltyRules = (.error e, w1))
    (hne : e ≠ .StorageError) : w1 = w := by
  unfold AddAgreement at h
  repeat' split at h
  all_goals first
    | (simp only [Prod.mk.injEq] at h; exact h.2.symm)
    | (simp at h; done)
    | (simp only at h
       split at h
       · simp only [Prod.mk.injEq, Except.error.injEq] at h
         exact absurd h.1.symm hne
       · simp at h)

/-- An error of `UpdateAgreement` other than a storage error comes before any
write. -/
theorem UpdateAgreement_unwritten (ctx : TransactionContext) (w w1 : World)
    (sid aid cat : String) (hasPenalty : Bool) (items : Option (List AgreementItem))
    (penaltyRules : Option (List PenaltyRule)) (e : Failure)
    (h : UpdateAgreement ctx w sid aid cat hasPenalty items penaltyRules = (.error e, w1))
    (hne : e ≠ .StorageError) : w1 = w := by
  unfold UpdateAgreement at h
  repeat' split at h
  all_goals first
    | (simp only [Prod.mk.injEq] at h; exact h.2.symm)
    | (simp at h; done)
    | (simp only at h
       split at h
       · simp only [Prod.mk.injEq, Except.error.injEq] at h
         exact absurd h.1.symm hne
       · simp at h)

/-- An error of `RemoveAgreement` other than a storage error comes before any
write. -/
theorem RemoveAgreement_unwritten (ctx : TransactionContext) (w w1 : World)
    (sid aid : String) (e : Failure)
    (h : RemoveAgreement ctx w sid aid = (.error e, w1)) (hne : e ≠ .StorageError) :
    w1 = w := by
  unfold RemoveAgreement at h
  repeat' split at h
  all_goals first
    | (simp only [Prod.mk.injEq] at h; exact h.2.symm)
    | (simp at h; done)
    | (simp only at h
       split at h
       · simp only [Prod.mk.injEq, Except.error.injEq] at h
         exact absurd h.1.symm hne
       · simp at h)

/-- An error of `EvaluateSLA` other than a storage error comes before any
write. -/
theorem EvaluateSLA_unwritten (ctx : TransactionContext) (w w1 : World)
    (sid aid eid : String) (eData : Option (List EvaluationData)) (hash atTime : String)
    (e : Failure) (h : EvaluateSLA ctx w sid aid eid eData hash atTime = (.error e, w1))
    (hne : e ≠ .StorageError) : w1 = w := by
  unfold EvaluateSLA at h
  split at h
  · simp only [Prod.mk.injEq] at h; exact h.2.symm
  · simp only [Prod.mk.injEq] at h; exact h.2.symm
  · split at h
    · simp only [Prod.mk.injEq] at h; exact h.2.symm
    · split at h
      · simp only [Prod.mk.injEq] at h; exact h.2.symm
      · split at h
        · simp only [Prod.mk.injEq] at h; exact h.2.symm
        · split at h
          · simp only [Prod.mk.injEq] at h; exact h.2.symm
          · split at h
            · simp only [Prod.mk.injEq] at h; exact h.2.symm
            · simp only at h
              split at h
              · simp only [Prod.mk.injEq] at h; exact h.2.symm
              · split at h
                · simp only [Prod.mk.injEq, Except.error.injEq] at h
                  exact absurd h.1.symm hne
                · exact absurd (indexEntry_error ctx _ w1 eid _ e h) hne

/-- An error of `HandleSatisfactionEvaluationEvent` other than a storage error
comes before any write. -/
theorem HandleSatisfactionEvaluationEvent_unwritten (ctx : TransactionContext) (w w1 : World)
    (sid aid eid rid hash atTime : String) (satisfied enforcePenaltyRule : Bool) (e : Failure)
    (h : HandleSatisfactionEvaluationEvent ctx w sid aid eid rid hash atTime satisfied
      enforcePenaltyRule = (.error e, w1))
    (hne : e ≠ .StorageError) : w1 = w := by
  unfold HandleSatisfactionEvaluationEvent at h
  split at h
  · simp only [Prod.mk.injEq] at h; exact h.2.symm
  · simp only [Prod.mk.injEq] at h; exact h.2.symm
  · split at h
    · simp only [Prod.mk.injEq] at h; exact h.2.symm
    · split at h
      · simp only [Prod.mk.injEq] at h; exact h.2.symm
      · split at h
        · simp only [Prod.mk.injEq] at h; exact h.2.symm
        · simp only at h
          split at h
          · simp only [Prod.mk.injEq] at h; exact h.2.symm
          · split at h
            · simp only [Prod.mk.injEq, Except.error.injEq] at h
              exact absurd h.1.symm hne
            · exact absurd (indexEntry_error ctx _ w1 eid _ e h) hne

/-- An error of `UpdateRuleAbidingRate` other than a storage error comes before
any write. -/
theorem UpdateRuleAbidingRate_unwritten (ctx : TransactionContext) (w w1 : World)
    (sid aid eid hash atTime : String) (compensated : Bool) (e : Failure)
    (h : UpdateRuleAbidingRate ctx w sid aid eid hash atTime compensated = (.error e, w1))
    (hne : e ≠ .StorageError) : w1 = w := by
  unfold UpdateRuleAbidingRate at h
  split at h
  · simp only [Prod.mk.injEq] at h; exact h.2.symm
  · simp only [Prod.mk.injEq] at h; exact h.2.symm
  · split at h
    · simp only [Prod.mk.injEq] at h; exact h.2.symm
    · split at h
      · simp only [Prod.mk.injEq] at h; exact h.2.symm
      · split at h
        · simp only [Prod.mk.injEq] at h; exact h.2.symm
        · simp only at h
          split at h
          · simp only [Prod.mk.injEq] at h; exact h.2.symm
          · split at h
            · simp only [Prod.mk.injEq, Except.error.injEq] at h
              exact absurd h.1.symm hne
            · exact absurd (indexEntry_error ctx _ w1 eid _ e h) hne

/-- C26: whenever CreateService, DeleteService, AddAgreement, UpdateAgreement,
RemoveAgreement, EvaluateSLA, UpdateRuleAbidingRate,
HandleSatisfactionEvaluationEvent or HandlePenaltyRuleEvaluationEvent returns an
error, the world state after the invocation equals the world state before it:
the platform discards the writes issued, and when the error is not a storage
error (not-found, conflict, decode or verification error) none was issued. -/
theorem invocation_all_or_nothing (ctx : TransactionContext) (w : World) :
    (∀ id, AllOrNothing w (CreateService ctx w id)) ∧
    (∀ id, AllOrNothing w (DeleteService ctx w id)) ∧
    (∀ sid aid cat hasPenalty items penaltyRules,
      AllOrNothing w (AddAgreement ctx w sid aid cat hasPenalty items penaltyRules)) ∧
    (∀ sid aid cat hasPenalty items penaltyRules,
      AllOrNothing w (UpdateAgreement ctx w sid aid cat hasPenalty items penaltyRules)) ∧
    (∀ sid aid, AllOrNothing w (RemoveAgreement ctx w sid aid)) ∧
    (∀ sid aid eid eData hash atTime,
      AllOrNothing w (EvaluateSLA ctx w sid aid eid eData hash atTime)) ∧
    (∀ sid aid eid hash atTime compensated,
      AllOrNothing w (UpdateRuleAbidingRate ctx w sid aid eid hash atTime compensated)) ∧
    (∀ sid aid eid rid hash atTime satisfied enforcePenaltyRule,
      AllOrNothing w (HandleSatisfactionEvaluationEvent ctx w sid aid eid rid hash atTime
        satisfied enforcePenaltyRule)) ∧
    (∀ sid aid eid hash atTime compensated,
      AllOrNothing w
        (HandlePenaltyRuleEvaluationEvent ctx w sid aid eid hash atTime compensated)) := by
  refine ⟨?_, ?_, ?_, ?_, ?_, ?_, ?_, ?_, ?_⟩
  · intro id e w1 h
    exact ⟨by rw [h]; rfl, CreateService_unwritten ctx w w1 id e h⟩
  · intro id e w1 h
    exact ⟨by rw [h]; rfl, DeleteService_unwritten ctx w w1 id e h⟩
  · intro sid aid cat hasPenalty items penaltyRules e w1 h
    exact ⟨by rw [h]; rfl,
      AddAgreement_unwritten ctx w w1 sid aid cat hasPenalty items penaltyRules e h⟩
  · intro sid aid cat hasPenalty items penaltyRules e w1 h
    exact ⟨by rw [h]; rfl,
      UpdateAgreement_unwritten ctx w w1 sid aid cat hasPenalty items penaltyRules e h⟩
  · intro sid aid e w1 h
    exact ⟨by rw [h]; rfl, RemoveAgreement_unwritten ctx w w1 sid aid e h⟩
  · intro sid aid eid eData hash atTime e w1 h
    exact ⟨by rw [h]; rfl, EvaluateSLA_unwritten ctx w w1 sid aid eid eData hash atTime e h⟩
  · intro sid aid eid hash atTime compensated e w1 h
    exact ⟨by rw [h]; rfl,
      UpdateRuleAbidingRate_unwritten ctx w w1 sid aid eid hash atTime compensated e h⟩
  · intro sid aid eid rid hash atTime satisfied enforcePenaltyRule e w1 h
    exact ⟨by rw [h]; rfl,
      HandleSatisfactionEvaluationEvent_unwritten ctx w w1 sid aid eid rid hash atTime
        satisfied enforcePenaltyRule e h⟩
  · intro sid aid eid hash atTime compensated e w1 h
    exact ⟨by rw [h]; rfl,
      UpdateRuleAbidingRate_unwritten ctx w w1 sid aid eid hash atTime compensated e h⟩

/-- Witness of C26: CreateService in a transaction that cannot build the
composite key fails after the service was written; the world state after the
invocation is the empty one it started from. -/
theorem invocation_all_or_nothing_witness :
    (CreateService brokenIndexContext World.empty "s").1 = .error .StorageError ∧
    (CreateService brokenIndexContext World.empty "s").2 (.simple "s") =
      some (.service (newService "s")) ∧
    persisted World.empty (CreateService brokenIndexContext World.empty "s") = World.empty := by
  have hrun : CreateService brokenIndexContext World.empty "s" =
      (.error .StorageError, (CreateService brokenIndexContext World.empty "s").2) := by
    simp [CreateService, ServiceExists, GetState, PutState, CreateCompositeKey,
      brokenIndexContext, World.empty]
  refine ⟨by rw [hrun], ?_,
    ((invocation_all_or_nothing brokenIndexContext World.empty).1 "s" _ _ hrun).1⟩
  simp [CreateService, ServiceExists, GetState, PutState, CreateCompositeKey,
    brokenIndexContext, World.empty, newService]

/-! ## Agreement ids -/

/-- A write of a document with the property keeps the property. -/
theorem holds_update {P : Key → Stored → Prop} {w : World} (h : w.Holds P)
    (key : Key) (value : Stored) (hv : P key value) :
    World.Holds P (fun k => if k = key then some value else w k) := by
  intro k v hk
  simp only at hk
  split at hk
  · rename_i hkey
    simp only [Option.some.injEq] at hk
    subst hk
    subst hkey
    exact hv
  · exact h k v hk

/-- A deletion keeps a property of the documents. -/
theorem holds_delState {P : Key → Stored → Prop} {w : World} (h : w.Holds P)
    (ctx : TransactionContext) (key : Key) : (DelState ctx w key).2.Holds P := by
  unfold DelState
  split
  · exact h
  · intro k v hk
    simp only at hk
    split at hk
    · cases hk
    · exact h k v hk

/-- The service `ReadService` returns has distinct agreement ids when the
stored services have. -/
theorem ReadService_uniqueIds {w : World} (h : w.Holds UniqueIdsDocument)
    (ctx : TransactionContext) (sid : String) (service : Service)
    (hread : ReadService ctx w sid = .ok service) :
    (service.Agreements.map (fun a => a.AgreementID)).Nodup := by
  obtain ⟨-, doc, hdoc, hdecode⟩ := ReadService_ok ctx w sid service hread
  have hp := h _ _ hdoc
  cases doc with
  | service s =>
    simp only [unmarshalService, Except.ok.injEq] at hdecode
    subst hdecode
    exact hp
  | evaluation e =>
    simp only [unmarshalService, Except.ok.injEq] at hdecode
    subst hdecode
    exact List.nodup_nil
  | accessKey k =>
    simp only [unmarshalService, Except.ok.injEq] at hdecode
    subst hdecode
    exact List.nodup_nil
  | indexEntry => simp [unmarshalService] at hdecode

/-- Distinct ids stay distinct when an agreement is taken out. -/
theorem nodup_eraseIdx (l : List Agreement) (i : Nat)
    (h : (l.map (fun a => a.AgreementID)).Nodup) :
    ((l.eraseIdx i).map (fun a => a.AgreementID)).Nodup :=
  h.sublist ((List.eraseIdx_sublist l i).map _)

/-- With distinct ids, taking out the first agreement of an id leaves none of
that id. -/
theorem no_id_left (aid : String) (l : List Agreement) (i : Nat)
    (hfind : findAgreement aid l = some i)
    (h : (l.map (fun a => a.AgreementID)).Nodup) :
    ∀ b ∈ l.eraseIdx i, b.AgreementID ≠ aid := by
  obtain ⟨pre, a, post, hl, hlen, ha, hpre⟩ := findAgreement_split aid l i hfind
  subst hl
  subst hlen
  rw [eraseIdx_split]
  rw [List.map_append, List.map_cons] at h
  have hmid : a.AgreementID ∉ post.map (fun b => b.AgreementID) :=
    (List.nodup_cons.mp (List.nodup_append.mp h).2.1).1
  intro b hb heq
  rcases List.mem_append.mp hb with hb | hb
  · exact hpre b hb heq
  · exact hmid (List.mem_map.mpr ⟨b, hb, by rw [heq, ha]⟩)

/-- Distinct ids stay distinct when an agreement is replaced by one of the same
id. -/
theorem nodup_set_same_id (l : List Agreement) (i : Nat) (a b : Agreement)
    (hidx : index l i = .ok a) (hid : b.AgreementID = a.AgreementID)
    (h : (l.map (fun a => a.AgreementID)).Nodup) :
    ((l.set i b).map (fun a => a.AgreementID)).Nodup := by
  rw [map_set_of_eq (fun a => a.AgreementID) l i a b hidx hid]
  exact h

/-- A successful call keeps the agreement ids of every stored service distinct. -/
theorem invoke_uniqueIds (ctx : TransactionContext) (w w1 : World) (c : Call)
    (h : w.Holds UniqueIdsDocument) (hc : c.invoke ctx w = some w1) :
    w1.Holds UniqueIdsDocument := by
  cases c with
  | CreateService id =>
    rw [CreateService_committed ctx w w1 id hc]
    exact holds_putState (holds_putState h ctx _ _ (by simp [UniqueIdsDocument, newService]))
      ctx _ _ trivial
  | AddAgreement sid aid cat hasPenalty items penaltyRules =>
    obtain ⟨service1, hok⟩ := (committed_eq_some _ _).mp hc
    obtain ⟨service, aItems, aPenaltyRules, hread, -, -, hnew, hs1, -, hw⟩ :=
      AddAgreement_ok ctx w w1 sid aid cat hasPenalty items penaltyRules service1 hok
    rw [hw]
    refine holds_update h _ _ ?_
    subst hs1
    show ((service.Agreements ++ [newAgreement aid cat hasPenalty aItems aPenaltyRules]).map
      (fun a => a.AgreementID)).Nodup
    rw [List.map_append, List.nodup_append]
    refine ⟨ReadService_uniqueIds h ctx sid service hread, List.nodup_singleton _, ?_⟩
    intro x hx hy
    simp only [List.map_cons, List.map_nil, List.mem_singleton] at hy
    obtain ⟨a, ha, rfl⟩ := List.mem_map.mp hx
    exact hnew a ha hy
  | UpdateAgreement sid aid cat hasPenalty items penaltyRules =>
    obtain ⟨service, aIndex, agreement, aItems, aPenaltyRules, hread, -, hidx, -, -, hw⟩ :=
      UpdateAgreement_committed ctx w w1 sid aid cat hasPenalty items penaltyRules hc
    rw [hw]
    refine holds_putState h ctx _ _ ?_
    exact nodup_set_same_id service.Agreements aIndex agreement _ hidx rfl
      (ReadService_uniqueIds h ctx sid service hread)
  | RemoveAgreement sid aid =>
    obtain ⟨service, aIndex, hread, -, hw⟩ := RemoveAgreement_committed ctx w w1 sid aid hc
    rw [hw]
    refine holds_putState h ctx _ _ ?_
    exact nodup_eraseIdx _ _ (ReadService_uniqueIds h ctx sid service hread)
  | EvaluateSLA sid aid eid eData hash atTime =>
    obtain ⟨service, aIndex, agreement, evaData, eResult, first, hread, -, hidx, -, -, -, hw⟩ :=
      EvaluateSLA_committed ctx w w1 sid aid eid eData hash atTime hc
    rw [hw]
    refine holds_recordEvaluation h ctx sid aid eid hash _ ?_ (fun _ => trivial) trivial
    exact nodup_set_same_id service.Agreements aIndex agreement _ hidx rfl
      (ReadService_uniqueIds h ctx sid service hread)
  | UpdateRuleAbidingRate sid aid eid hash atTime compensated =>
    obtain ⟨service, aIndex, agreement, first, hread, -, hidx, -, hw⟩ :=
      UpdateRuleAbidingRate_committed ctx w w1 sid aid eid hash atTime compensated hc
    rw [hw]
    refine holds_recordEvaluation h ctx sid aid eid hash _ ?_ (fun _ => trivial) trivial
    exact nodup_set_same_id service.Agreements aIndex agreement _ hidx rfl
      (ReadService_uniqueIds h ctx sid service hread)
  | HandleSatisfactionEvaluationEvent sid aid eid rid hash atTime satisfied enforce =>
    obtain ⟨service, aIndex, agreement, first, hread, -, hidx, -, hw⟩ :=
      HandleSatisfactionEvaluationEvent_committed ctx w w1 sid aid eid rid hash atTime
        satisfied enforce hc
    rw [hw]
    refine holds_recordEvaluation h ctx sid aid eid hash _ ?_ (fun _ => trivial) trivial
    exact nodup_set_same_id service.Agreements aIndex agreement _ hidx rfl
      (ReadService_uniqueIds h ctx sid service hread)
  | HandlePenaltyRuleEvaluationEvent sid aid eid hash atTime compensated =>
    obtain ⟨service, aIndex, agreement, first, hread, -, hidx, -, hw⟩ :=
      HandlePenaltyRuleEvaluationEvent_committed ctx w w1 sid aid eid hash atTime compensated hc
    rw [hw]
    refine holds_recordEvaluation h ctx sid aid eid hash _ ?_ (fun _ => trivial) trivial
    exact nodup_set_same_id service.Agreements aIndex agreement _ hidx rfl
      (ReadService_uniqueIds h ctx sid service hread)

/-- The platform keeps a property of the documents that the writes of the
invocation keep. -/
theorem holds_persisted {α : Type} {P : Key → Stored → Prop} {w : World}
    (r : Except Failure α × World) (h : w.Holds P) (h1 : r.2.Holds P) :
    (persisted w r).Holds P := by
  rcases r with ⟨res, w1⟩
  cases res with
  | error e => exact h
  | ok v => exact h1

/-- The deletions of `DeleteService` keep a property of the documents. -/
theorem holds_DeleteService {P : Key → Stored → Prop} {w : World} (h : w.Holds P)
    (ctx : TransactionContext) (id : String) : (DeleteService ctx w id).2.Holds P := by
  unfold DeleteService
  split
  · exact h
  · rename_i service hread
    have h0 := holds_delState h ctx (.simple id)
    split
    · rename_i e1 w1 hdel
      rw [hdel] at h0
      exact h0
    · rename_i u w1 hdel
      rw [hdel] at h0
      cases hkey : CreateCompositeKey ctx serviceIndex [service.DocType, service.ServiceID] with
      | error e => exact h0
      | ok key => exact holds_delState h0 ctx key

/-- An invocation, successful or not, keeps the agreement ids of every stored
service distinct. -/
theorem run_uniqueIds (ctx : TransactionContext) (w : World) (op : Operation)
    (h : w.Holds UniqueIdsDocument) : (op.run ctx w).Holds UniqueIdsDocument := by
  cases op with
  | call c =>
    simp only [Operation.run]
    cases hc : c.invoke ctx w with
    | none => exact h
    | some w1 => exact invoke_uniqueIds ctx w w1 c h hc
  | DeleteService id =>
    simp only [Operation.run]
    exact holds_persisted _ h (holds_DeleteService h ctx id)
  | CreateOrUpdateInternalServiceAccessKey token =>
    simp only [Operation.run]
    exact holds_persisted _ h (holds_putState h ctx _ _ trivial)

/-- Every sequence of invocations keeps the agreement ids of every stored
service distinct. -/
theorem runOperations_uniqueIds (ops : List (TransactionContext × Operation)) :
    ∀ (w : World), w.Holds UniqueIdsDocument → (runOperations w ops).Holds UniqueIdsDocument := by
  induction ops with
  | nil =>
    intro w h
    exact h
  | cons op rest ih =>
    intro w h
    obtain ⟨ctx, op⟩ := op
    exact ih _ (run_uniqueIds ctx w op h)

/-- C21: in every world state reached from the empty one by invocations of the
operations that write (the eight calls, DeleteService and
CreateOrUpdateInternalServiceAccessKey, failed invocations included) the
agreement ids of every stored service are pairwise distinct; there AddAgreement
fails with Conflict and has written nothing when the service read holds an
agreement of the id given, and after a successful RemoveAgreement(sid, aid) the
service returned, which is the one stored under sid, holds no agreement with id
aid. -/
theorem agreementIds_unique (ops : List (TransactionContext × Operation)) :
    (∀ key service, runOperations World.empty ops key = some (.service service) →
      (service.Agreements.map (fun a => a.AgreementID)).Nodup) ∧
    (∀ ctx sid aid cat hasPenalty items penaltyRules service,
      ReadService ctx (runOperations World.empty ops) sid = .ok service →
      (∃ a ∈ service.Agreements, a.AgreementID = aid) →
      AddAgreement ctx (runOperations World.empty ops) sid aid cat hasPenalty items
        penaltyRules = (.error .Conflict, runOperations World.empty ops)) ∧
    (∀ ctx sid aid service1 w1,
      RemoveAgreement ctx (runOperations World.empty ops) sid aid = (.ok service1, w1) →
      (∀ b ∈ service1.Agreements, b.AgreementID ≠ aid) ∧
      w1 (.simple sid) = some (.service service1)) := by
  have hinv := runOperations_uniqueIds ops World.empty (holds_empty _)
  refine ⟨fun key service hkey => hinv key _ hkey, ?_, ?_⟩
  · intro ctx sid aid cat hasPenalty items penaltyRules service hread hdup
    have hexist := ServiceExists_of_ReadService ctx _ sid service hread
    have hany : service.Agreements.any (fun a => a.AgreementID = aid) = true := by
      simpa [List.any_eq_true] using hdup
    simp [AddAgreement, hexist, hread, hany]
  · intro ctx sid aid service1 w1 h
    obtain ⟨service, aIndex, hread, hfind, hs1, hstored⟩ :=
      RemoveAgreement_ok ctx _ w1 sid aid service1 h
    refine ⟨?_, hstored⟩
    rw [hs1]
    exact no_id_left aid service.Agreements aIndex hfind
      (ReadService_uniqueIds hinv ctx sid service hread)

/-- The service stored after the worked example of the registry. -/
theorem registryOperations_service :
    runOperations World.empty registryOperations (.simple "s") =
      some (.service registryService) := by
  simp [runOperations, registryOperations, Operation.run, Call.invoke, committed,
    SmartContract.CreateService, SmartContract.AddAgreement, SmartContract.RemoveAgreement,
    ServiceExists, ReadService, GetState, PutState, World.empty, reliableContext,
    CreateCompositeKey, unmarshalService, findAgreement, minSatisfactionRate,
    minRuleAbidingRate, registryService, newAgreement]

/-- Witness of C21: after a service was created, received the agreements a and b,
was refused a second agreement b and lost the agreement a, it holds the one
agreement b, and its ids are distinct. -/
theorem agreementIds_unique_witness :
    runOperations World.empty registryOperations (.simple "s") =
      some (.service registryService) ∧
    registryService.Agreements.map (fun a => a.AgreementID) = ["b"] ∧
    (registryService.Agreements.map (fun a => a.AgreementID)).Nodup :=
  ⟨registryOperations_service, rfl,
    (agreementIds_unique registryOperations).1 (.simple "s") registryService
      registryOperations_service⟩

/-! ## Sauna agreements without a failure allowance -/

/-- The verdict once the allowance is used up, when the first penalty rule is
there if it is needed. -/
theorem saunaUnsatisfied_eq (a : Agreement)
    (hrules : a.HasPenaltyRule = true → a.PenaltyRules ≠ []) :
    saunaUnsatisfied a =
      .ok { Satisfied := false,
            PenaltyRule := if a.HasPenaltyRule then a.PenaltyRules.head? else none,
            FailureReason := "" } := by
  cases hp : a.HasPenaltyRule with
  | false => simp [saunaUnsatisfied, hp]
  | true =>
    cases hr : a.PenaltyRules with
    | nil => exact absurd hr (hrules hp)
    | cons rule rest => simp [saunaUnsatisfied, hp, hr, index]

/-- C30: in VerifySaunaAgreement, when the MaxFailures of the first agreement item
is 0 or negative, the verdict is unsatisfied for every non-empty request list,
whatever the statuses of the requests are, and satisfied for the empty request
list (sauna evidence; penalty rules non-empty when HasPenaltyRule is true). -/
theorem VerifySaunaAgreement_no_allowance (a : Agreement) (data : EvaluationData)
    (item : AgreementItem) (items : List AgreementItem)
    (hcode : data.Code = AgreementItemCodeServiceSauna)
    (hitems : a.Items = item :: items)
    (hmax : item.MaxFailures ≤ 0)
    (hrules : a.HasPenaltyRule = true → a.PenaltyRules ≠ []) :
    (data.SaunaRequests = [] →
      VerifySaunaAgreement a data =
        .ok { Satisfied := true, PenaltyRule := none, FailureReason := "" }) ∧
    (data.SaunaRequests ≠ [] →
      VerifySaunaAgreement a data =
        .ok { Satisfied := false,
              PenaltyRule := if a.HasPenaltyRule then a.PenaltyRules.head? else none,
              FailureReason := "" }) := by
  have hscan := saunaScan_at_threshold a item items hitems none 0 hmax
    (sortRequests data.SaunaRequests)
  simp only [sortRequests_eq_nil_iff] at hscan
  constructor
  · intro hempty
    rw [if_pos hempty] at hscan
    simp only [VerifySaunaAgreement, hcode, ne_eq, not_true_eq_false, if_false, hscan]
  · intro hsome
    rw [if_neg hsome, saunaUnsatisfied_eq a hrules] at hscan
    simp only [VerifySaunaAgreement, hcode, ne_eq, not_true_eq_false, if_false, hscan]

/-- Witness of C30: with MaxFailures = 0 a single successful request is
unsatisfied, with the first penalty rule, and no request at all is satisfied. -/
theorem VerifySaunaAgreement_no_allowance_witness :
    VerifySaunaAgreement (sampleAgreement "service" [unlimitedSaunaItem])
        (saunaEvidence []) =
      .ok { Satisfied := true, PenaltyRule := none, FailureReason := "" } ∧
    VerifySaunaAgreement (sampleAgreement "service" [unlimitedSaunaItem])
        (saunaEvidence [⟨⟨0⟩, "success"⟩]) =
      .ok { Satisfied := false, PenaltyRule := some ⟨"discount", 10⟩, FailureReason := "" } :=
  ⟨(VerifySaunaAgreement_no_allowance (sampleAgreement "service" [unlimitedSaunaItem])
      (saunaEvidence []) unlimitedSaunaItem [] rfl rfl (by decide)
      (by simp [sampleAgreement])).1 rfl,
   (VerifySaunaAgreement_no_allowance (sampleAgreement "service" [unlimitedSaunaItem])
      (saunaEvidence [⟨⟨0⟩, "success"⟩]) unlimitedSaunaItem [] rfl rfl (by decide)
      (by simp [sampleAgreement])).2 (by simp [saunaEvidence])⟩

/-! ## The two sides of an agreement -/

/-- The service after a feedback differs from the one before on the
satisfaction side only. -/
theorem satisfactionFrame_withFeedback (service : Service) (aIndex : Nat)
    (agreement first : Agreement) (satisfied : Bool) (atTime : String)
    (hidx : index service.Agreements aIndex = .ok agreement) :
    SatisfactionFrame service (service.withFeedback aIndex agreement first satisfied atTime)
      aIndex := by
  refine ⟨agreement, agreement.withFeedback satisfied atTime, hidx, ?_, ?_, ?_, rfl, rfl, rfl,
    rfl, rfl, rfl, rfl, rfl, rfl⟩
  · exact index_set_self service.Agreements aIndex agreement _ hidx
  · simp [Service.withFeedback]
  · intro j hj
    exact index_set_other service.Agreements aIndex j _ hj

/-- The service after a rule violation differs from the one before on the
rule-abiding side only. -/
theorem ruleAbidingFrame_withRuleViolation (service : Service) (aIndex : Nat)
    (agreement first : Agreement) (compensated : Bool) (atTime : String)
    (hidx : index service.Agreements aIndex = .ok agreement) :
    RuleAbidingFrame service
      (service.withRuleViolation aIndex agreement first compensated atTime) aIndex := by
  refine ⟨agreement, agreement.withRuleViolation compensated atTime, hidx, ?_, ?_, ?_, rfl, rfl,
    rfl, rfl, rfl, rfl, rfl, rfl, rfl⟩
  · exact index_set_self service.Agreements aIndex agreement _ hidx
  · simp [Service.withRuleViolation]
  · intro j hj
    exact index_set_other service.Agreements aIndex j _ hj

/-- C31: a successful EvaluateSLA or HandleSatisfactionEvaluationEvent on
agreement aid writes under sid a service in which no other agreement has changed
and in which the agreement found has kept its TotalRuleViolations,
TotalRuleViolationWithoutCompensations, RuleAbidingRate, id, Category, Items,
HasPenaltyRule and PenaltyRules, and the service its RuleAbidingRate;
symmetrically a successful UpdateRuleAbidingRate or
HandlePenaltyRuleEvaluationEvent keeps every other agreement, the
TotalFeedbacks, TotalUnsatisfied, SatisfactionRate and terms of the agreement
found, and the SatisfactionRate of the service. -/
theorem evaluation_frame (ctx : TransactionContext) (w w1 : World)
    (sid aid eid hash atTime : String) :
    (∀ eData v, EvaluateSLA ctx w sid aid eid eData hash atTime = (.ok v, w1) →
      ∃ service aIndex service1,
        ReadService ctx w sid = .ok service ∧
        findAgreement aid service.Agreements = some aIndex ∧
        w1 = recordEvaluation ctx w sid aid eid hash service1 ∧
        SatisfactionFrame service service1 aIndex) ∧
    (∀ rid satisfied enforcePenaltyRule service1,
      HandleSatisfactionEvaluationEvent ctx w sid aid eid rid hash atTime satisfied
        enforcePenaltyRule = (.ok service1, w1) →
      ∃ service aIndex,
        ReadService ctx w sid = .ok service ∧
        findAgreement aid service.Agreements = some aIndex ∧
        w1 = recordEvaluation ctx w sid aid eid hash service1 ∧
        SatisfactionFrame service service1 aIndex) ∧
    (∀ compensated service1,
      UpdateRuleAbidingRate ctx w sid aid eid hash atTime compensated = (.ok service1, w1) →
      ∃ service aIndex,
        ReadService ctx w sid = .ok service ∧
        findAgreement aid service.Agreements = some aIndex ∧
        w1 = recordEvaluation ctx w sid aid eid hash service1 ∧
        RuleAbidingFrame service service1 aIndex) ∧
    (∀ compensated service1,
      HandlePenaltyRuleEvaluationEvent ctx w sid aid eid hash atTime compensated =
        (.ok service1, w1) →
      ∃ service aIndex,
        ReadService ctx w sid = .ok service ∧
        findAgreement aid service.Agreements = some aIndex ∧
        w1 = recordEvaluation ctx w sid aid eid hash service1 ∧
        RuleAbidingFrame service service1 aIndex) := by
  have hrule : ∀ compensated service1,
      UpdateRuleAbidingRate ctx w sid aid eid hash atTime compensated = (.ok service1, w1) →
      ∃ service aIndex,
        ReadService ctx w sid = .ok service ∧
        findAgreement aid service.Agreements = some aIndex ∧
        w1 = recordEvaluation ctx w sid aid eid hash service1 ∧
        RuleAbidingFrame service service1 aIndex := by
    intro compensated service1 h
    obtain ⟨service, aIndex, agreement, first, hread, hfind, hidx, -, hs1, -, -, hw⟩ :=
      UpdateRuleAbidingRate_ok ctx w w1 sid aid eid hash atTime compensated service1 h
    refine ⟨service, aIndex, hread, hfind, hw, ?_⟩
    rw [hs1]
    exact ruleAbidingFrame_withRuleViolation service aIndex agreement first compensated atTime
      hidx
  refine ⟨?_, ?_, hrule, ?_⟩
  · intro eData v h
    obtain ⟨service, aIndex, agreement, evaData, first, hread, hfind, hidx, -, -, -, -, -,
      hw⟩ := EvaluateSLA_ok ctx w w1 sid aid eid eData hash atTime v h
    exact ⟨service, aIndex, _, hread, hfind, hw,
      satisfactionFrame_withFeedback service aIndex agreement first v.Satisfied atTime hidx⟩
  · intro rid satisfied enforcePenaltyRule service1 h
    obtain ⟨service, aIndex, agreement, first, hread, hfind, hidx, -, hs1, -, -, hw⟩ :=
      HandleSatisfactionEvaluationEvent_ok ctx w w1 sid aid eid rid hash atTime satisfied
        enforcePenaltyRule service1 h
    refine ⟨service, aIndex, hread, hfind, hw, ?_⟩
    rw [hs1]
    exact satisfactionFrame_withFeedback service aIndex agreement first satisfied atTime hidx
  · intro compensated service1 h
    rw [HandlePenaltyRuleEvaluationEvent_eq] at h
    exact hrule compensated service1 h

/-- Witness of C31: a satisfied feedback on the only agreement of the stored
low-rated service leaves the rule-abiding side as it was. -/
theorem evaluation_frame_witness :
    SatisfactionFrame lowRatedService creditedService 0 ∧
    creditedService.RuleAbidingRate = lowRatedService.RuleAbidingRate := by
  obtain ⟨service, aIndex, hread, hfind, -, hframe⟩ :=
    (evaluation_frame reliableContext (worldWith lowRatedService) _ "s" "a" "e1" "h" "t2").2.1
      "r" true false creditedService
      (feedback_on_lowRatedService reliableContext "e1" rfl rfl rfl rfl)
  rw [ReadService_worldWith_lowRatedService] at hread
  cases hread
  simp [lowRatedService, findAgreement, lowRatedAgreement] at hfind
  subst hfind
  exact ⟨hframe, rfl⟩

/-! ## Codes missing from the tables -/

/-- A code that is no key of `ViewLevelMapping` reads as level 0. -/
theorem ViewLevelMapping_unknown (code : String) (h : ¬ IsViewCode code) :
    ViewLevelMapping code = 0 := by
  simp only [IsViewCode, List.mem_cons, List.mem_singleton, List.not_mem_nil, or_false,
    not_or] at h
  obtain ⟨h1, h2, h3, h4, h5, h6⟩ := h
  simp [ViewLevelMapping, h1, h2, h3, h4, h5, h6]

/-- No view level is negative. -/
theorem ViewLevelMapping_nonneg (code : String) : 0 ≤ ViewLevelMapping code := by
  unfold ViewLevelMapping
  split_ifs <;> decide

/-- The codes of level 0 are the mountain view and the codes that are no key of
`ViewLevelMapping`. -/
theorem ViewLevelMapping_le_zero_iff (code : String) :
    ViewLevelMapping code ≤ 0 ↔
      code = AgreementItemCodeViewMountain ∨ ¬ IsViewCode code := by
  by_cases hview : IsViewCode code
  · have hview1 := hview
    simp only [IsViewCode, List.mem_cons, List.mem_singleton, List.not_mem_nil, or_false]
      at hview1
    rcases hview1 with h | h | h | h | h | h <;> subst h <;> simp [hview] <;> decide
  · rw [ViewLevelMapping_unknown code hview]
    simp [hview]

/-- C32: in the view matcher a code outside the six view codes has level 0, the
level of the mountain view V006: an evidence entry with such a code matches a
required item exactly when the code of that item is V006 or is itself no view
code, and a required item with such a code is matched by every evidence entry;
so a view agreement (penalty rules non-empty when HasPenaltyRule is true) with
one required item and one evidence entry of unknown code is satisfied exactly
in that case. -/
theorem view_unknown_code (agreementItem : AgreementItem) (item : EvaluationData) :
    (∀ code, ¬ IsViewCode code →
      ViewLevelMapping code = 0 ∧
      ViewLevelMapping code = ViewLevelMapping AgreementItemCodeViewMountain) ∧
    (¬ IsViewCode item.Code →
      (matchItem AgreementCategoryView agreementItem [item] = true ↔
        agreementItem.Code = AgreementItemCodeViewMountain ∨ ¬ IsViewCode agreementItem.Code)) ∧
    (¬ IsViewCode agreementItem.Code →
      matchItem AgreementCategoryView agreementItem [item] = true) ∧
    (∀ a : Agreement, a.Category = AgreementCategoryView → a.Items = [agreementItem] →
      (a.HasPenaltyRule = true → a.PenaltyRules ≠ []) → ¬ IsViewCode item.Code →
      VerifySLA a [item] =
        .ok { Satisfied :=
                decide (agreementItem.Code = AgreementItemCodeViewMountain ∨
                  ¬ IsViewCode agreementItem.Code),
              PenaltyRule := if a.HasPenaltyRule then a.PenaltyRules.head? else none,
              FailureReason := "" }) := by
  have hmatch : ¬ IsViewCode item.Code →
      (matchItem AgreementCategoryView agreementItem [item] = true ↔
        agreementItem.Code = AgreementItemCodeViewMountain ∨
          ¬ IsViewCode agreementItem.Code) := by
    intro hitem
    rw [matchItem_view_iff]
    simp only [List.mem_singleton, exists_eq_left, ge_iff_le]
    rw [ViewLevelMapping_unknown item.Code hitem]
    exact ViewLevelMapping_le_zero_iff agreementItem.Code
  refine ⟨?_, hmatch, ?_, ?_⟩
  · intro code hcode
    exact ⟨ViewLevelMapping_unknown code hcode, by rw [ViewLevelMapping_unknown code hcode]; rfl⟩
  · intro hrequired
    rw [matchItem_view_iff]
    simp only [List.mem_singleton, exists_eq_left, ge_iff_le]
    rw [ViewLevelMapping_unknown agreementItem.Code hrequired]
    exact ViewLevelMapping_nonneg item.Code
  · intro a hcat hitems hrules hitem
    rw [VerifySLA_default a [item] (by rw [hcat]; decide) (by rw [hcat]; decide)
      (by rw [hcat]; decide) (by rw [hcat]; decide) (by simp) hrules]
    have hsat : matchItems a.Category [item] true a.Items =
        decide (agreementItem.Code = AgreementItemCodeViewMountain ∨
          ¬ IsViewCode agreementItem.Code) := by
      rw [hcat, hitems]
      by_cases hm : matchItem AgreementCategoryView agreementItem [item] = true
      · simp [matchItems, hm, (hmatch hitem).mp hm]
      · have hnot : ¬ (agreementItem.Code = AgreementItemCodeViewMountain ∨
            ¬ IsViewCode agreementItem.Code) := fun h => hm ((hmatch hitem).mpr h)
        simp only [matchItems, hm, Bool.false_eq_true, if_false]
        exact (decide_eq_false hnot).symm
    rw [hsat]

/-- Witness of C32: evidence of the unknown code X001 satisfies a view agreement
that requires a mountain view and one that requires the unknown code Y001, and
does not satisfy one that requires a sea view. -/
theorem view_unknown_code_witness :
    VerifySLA (sampleAgreement "view" [plainItem "V006" 0]) [plainEvidence "X001" 0] =
      .ok { Satisfied := true, PenaltyRule := some ⟨"discount", 10⟩, FailureReason := "" } ∧
    VerifySLA (sampleAgreement "view" [plainItem "Y001" 0]) [plainEvidence "X001" 0] =
      .ok { Satisfied := true, PenaltyRule := some ⟨"discount", 10⟩, FailureReason := "" } ∧
    VerifySLA (sampleAgreement "view" [plainItem "V001" 0]) [plainEvidence "X001" 0] =
      .ok { Satisfied := false, PenaltyRule := some ⟨"discount", 10⟩, FailureReason := "" } :=
  ⟨(view_unknown_code (plainItem "V006" 0) (plainEvidence "X001" 0)).2.2.2
      (sampleAgreement "view" [plainItem "V006" 0]) rfl rfl (by simp [sampleAgreement])
      (by decide),
   (view_unknown_code (plainItem "Y001" 0) (plainEvidence "X001" 0)).2.2.2
      (sampleAgreement "view" [plainItem "Y001" 0]) rfl rfl (by simp [sampleAgreement])
      (by decide),
   (view_unknown_code (plainItem "V001" 0) (plainEvidence "X001" 0)).2.2.2
      (sampleAgreement "view" [plainItem "V001" 0]) rfl rfl (by simp [sampleAgreement])
      (by decide)⟩

/-! ## Bed points -/

/-- The observed point total is the sum of the points of the codes, whatever
the quantities are. -/
theorem bedEvidenceTotals_fst (data : List EvaluationData) :
    ∀ acc : Int × Int,
      (bedEvidenceTotals acc data).1 =
        acc.1 + (data.map (fun i => BedPointMapping i.Code)).sum := by
  induction data with
  | nil => intro acc; simp [bedEvidenceTotals]
  | cons item rest ih =>
    intro acc
    obtain ⟨points, beds⟩ := acc
    simp only [bedEvidenceTotals, ih, List.map_cons, List.sum_cons, add_assoc]

/-- C33: in VerifyBedAgreement the observed point total adds the points of the
code of each evidence entry once, whatever its Quantity: two evidence lists with
the same codes have the same point total, so changing a Quantity never changes
it; for every n a single evidence entry of code BE002 (queen) and quantity n has
point total 10, and against an agreement whose only item has code BE003 (king)
the verdict of VerifyBedAgreement, and of VerifySLA for the category bed, is
unsatisfied (penalty rules non-empty when HasPenaltyRule is true). -/
theorem VerifyBedAgreement_points_unweighted (a : Agreement) (entry : EvaluationData)
    (king : AgreementItem) (n : Int)
    (hqueen : entry.Code = AgreementItemCodeBedQueen)
    (hitems : a.Items = [king]) (hking : king.Code = AgreementItemCodeBedKing)
    (hrules : a.HasPenaltyRule = true → a.PenaltyRules ≠ []) :
    (∀ (acc : Int × Int) (data data1 : List EvaluationData),
      data.map (fun i => i.Code) = data1.map (fun i => i.Code) →
      (bedEvidenceTotals acc data).1 = (bedEvidenceTotals acc data1).1) ∧
    (bedEvidenceTotals (0, 0) [{ entry with Quantity := n }]).1 = 10 ∧
    VerifyBedAgreement a [{ entry with Quantity := n }] =
      .ok { Satisfied := false,
            PenaltyRule := if a.HasPenaltyRule then a.PenaltyRules.head? else none,
            FailureReason := "" } ∧
    (a.Category = AgreementCategoryBed →
      VerifySLA a [{ entry with Quantity := n }] =
        .ok { Satisfied := false,
              PenaltyRule := if a.HasPenaltyRule then a.PenaltyRules.head? else none,
              FailureReason := "" }) := by
  have hq : BedPointMapping AgreementItemCodeBedQueen = 10 := by decide
  have hk : BedPointMapping AgreementItemCodeBedKing = 100 := by decide
  refine ⟨?_, ?_, ?_, ?_⟩
  · intro acc data data1 hcodes
    have hpoints : data.map (fun i => BedPointMapping i.Code) =
        data1.map (fun i => BedPointMapping i.Code) := by
      have := congrArg (List.map BedPointMapping) hcodes
      simpa [List.map_map, Function.comp] using this
    rw [bedEvidenceTotals_fst, bedEvidenceTotals_fst, hpoints]
  · simp [bedEvidenceTotals, hqueen, hq]
  · cases hp : a.HasPenaltyRule with
    | false =>
      simp [VerifyBedAgreement, bedAgreementTotals, bedEvidenceTotals, hitems, hking, hqueen,
        hq, hk, hp]
    | true =>
      cases hr : a.PenaltyRules with
      | nil => exact absurd hr (hrules hp)
      | cons rule rest =>
        simp [VerifyBedAgreement, bedAgreementTotals, bedEvidenceTotals, hitems, hking, hqueen,
          hq, hk, hp, hr, index]
  · intro hcat
    rw [VerifySLA_bed_eq a _ hcat (by simp) hrules]
    simp [hitems, hking, hqueen, hq, hk]

/-- Witness of C33: a million queen beds do not satisfy a requirement of one king
bed, and their point total is 10. -/
theorem VerifyBedAgreement_points_unweighted_witness :
    (bedEvidenceTotals (0, 0) [plainEvidence "BE002" 1000000]).1 = 10 ∧
    VerifyBedAgreement (sampleAgreement "bed" [plainItem "BE003" 1])
        [plainEvidence "BE002" 1000000] =
      .ok { Satisfied := false, PenaltyRule := some ⟨"discount", 10⟩, FailureReason := "" } ∧
    VerifySLA (sampleAgreement "bed" [plainItem "BE003" 1]) [plainEvidence "BE002" 1000000] =
      .ok { Satisfied := false, PenaltyRule := some ⟨"discount", 10⟩, FailureReason := "" } := by
  have h := VerifyBedAgreement_points_unweighted (sampleAgreement "bed" [plainItem "BE003" 1])
    (plainEvidence "BE002" 0) (plainItem "BE003" 1) 1000000 rfl rfl rfl
    (by simp [sampleAgreement])
  exact ⟨h.2.1, h.2.2.1, h.2.2.2 rfl⟩

end SmartContract
